import Mathlib

/-!
Verification of the genealogical graph consistency engine of the
`nest-family-tree` repository (`src/persons/persons.service.ts`), as a
shallow embedding.  The store is a list of person rows; each service
method becomes a function `Store → Except PError …` returning the new
store on success.  JavaScript truthiness of optional numeric ids, of
optional strings, and the `NaN` behaviour of `parseInt` on malformed
dates are modelled explicitly.
-/

namespace FamilyTree

inductive Gender
| male
| female
deriving DecidableEq, Repr

inductive PRole
| father
| mother
deriving DecidableEq, Repr

/-- The `Person` entity (`person.entity.ts`): id, names, gender, optional
birth/death dates stored as strings (`YYYY` or `YYYY-MM-DD`), optional
trivia, the `progenitor` flag (database default `false`) and optional
`fatherId` / `motherId` references. -/
structure Person where
  id : Nat
  firstName : String
  lastName : String
  gender : Gender
  birthDate : Option String := none
  deathDate : Option String := none
  trivia : Option String := none
  progenitor : Bool := false
  fatherId : Option Nat := none
  motherId : Option Nat := none
deriving DecidableEq, Repr

/-- The person store of one tenant: the rows of the `person` table. -/
abbrev Store := List Person

/-- JS truthiness of a `number | undefined` value: `undefined` and `0`
are falsy. -/
def truthyId : Option Nat → Bool
  | none => false
  | some n => n != 0

/-- JS truthiness of a `string | undefined` value: `undefined` and the
empty string are falsy. -/
def truthyStr : Option String → Bool
  | none => false
  | some s => !s.isEmpty

/-- `CreatePersonDto`: `firstName`, `lastName`, `gender` are required;
`progenitor`, dates, `trivia`, parent ids and `childrenIds` optional. -/
structure CreatePersonDto where
  firstName : String
  lastName : String
  gender : Gender
  progenitor : Option Bool := none
  birthDate : Option String := none
  deathDate : Option String := none
  trivia : Option String := none
  fatherId : Option Nat := none
  motherId : Option Nat := none
  childrenIds : Option (List Nat) := none
deriving DecidableEq, Repr

/-- `UpdatePersonDto`: every field optional; `fatherId` / `motherId` are
`number | null | undefined` (`null` clears the link), modelled as
`Option (Option Nat)`: `none` = absent, `some none` = `null`,
`some (some n)` = a number. -/
structure UpdatePersonDto where
  firstName : Option String := none
  lastName : Option String := none
  progenitor : Option Bool := none
  birthDate : Option String := none
  deathDate : Option String := none
  trivia : Option String := none
  fatherId : Option (Option Nat) := none
  motherId : Option (Option Nat) := none
deriving DecidableEq, Repr

/-- `PromoteAncestorDto`: the new ancestor's person fields (no parent
ids), the claimed current progenitor id and the relationship role. -/
structure PromoteAncestorDto where
  firstName : String
  lastName : String
  gender : Gender
  birthDate : Option String := none
  deathDate : Option String := none
  trivia : Option String := none
  currentProgenitorId : Nat
  relationship : PRole
deriving DecidableEq, Repr

/-- JS truthiness of a `number | null | undefined` dto field. -/
def truthyNN : Option (Option Nat) → Bool
  | some (some n) => n != 0
  | _ => false

/-- A `number | null | undefined` field seen as `number | undefined`
(both `null` and `undefined` behave as absent under truthiness). -/
def joinNN : Option (Option Nat) → Option Nat
  | some v => v
  | none => none

/-- JS `x != null` on a `number | null | undefined` field: true exactly
for numbers (including `0`). -/
def isNumNN : Option (Option Nat) → Bool
  | some (some _) => true
  | _ => false

/-- JS nullish coalescing `dtoField ?? fallback` for a parent-id field. -/
def nullishOr : Option (Option Nat) → Option Nat → Option Nat
  | some (some n), _ => some n
  | _, fb => fb

/-- JS nullish coalescing for an optional string dto field. -/
def strOr : Option String → Option String → Option String
  | some s, _ => some s
  | none, fb => fb

/-- One error value per `throw` site of the service; the spec groups
them into a coarser taxonomy (`NotFound`, `InvalidRole`,
`ImplausibleAge`, `CycleDetected`, `SelfParent`, `DisconnectedPerson`,
…). -/
inductive PError
  | fatherNotFound (id : Nat)
  | fatherNotMale (id : Nat)
  | motherNotFound (id : Nat)
  | motherNotFemale (id : Nat)
  | fatherBornAfterChild
  | fatherTooYoung
  | fatherDeathYearOnlyTooEarly
  | fatherDeathFullTooEarly
  | fatherDeathMixedTooEarly
  | motherBornAfterChild
  | motherTooYoung
  | motherDeathYearOnlyTooEarly
  | motherDeathFullTooEarly
  | motherDeathMixedTooEarly
  | genderRequiredForChildren
  | childrenNotFound
  | childAlreadyHasParent (firstName : String)
  | deathBeforeBirth
  | parentTooYoungForChild (firstName : String)
  | fatherDeadBeforeConception (firstName : String)
  | motherDeadBeforeBirth (firstName : String)
  | disconnectedPerson
  | personNotFound (id : Nat)
  | selfParent
  | cycleDetected (parentId childId : Nat)
  | noProgenitor
  | notCurrentProgenitor (claimed : Nat)
  | wrongGenderForRelationship
  | hasChildrenBlocked (n : Nat)
  | childrenIdsRequired
  | parentNotFound (id : Nat)
  | linkParentWrongGender (id : Nat)
  | txFailure
deriving DecidableEq, Repr

/-- The spec's `InvalidRole` bucket: gender/role mismatch errors. -/
def PError.isInvalidRole : PError → Bool
  | .fatherNotMale _ => true
  | .motherNotFemale _ => true
  | .wrongGenderForRelationship => true
  | .linkParentWrongGender _ => true
  | _ => false

/-- The spec's `ImplausibleAge` bucket: minimum-parent-age /
birth-order violations between one parent and the child. -/
def PError.isImplausibleAge : PError → Bool
  | .fatherBornAfterChild => true
  | .fatherTooYoung => true
  | .motherBornAfterChild => true
  | .motherTooYoung => true
  | _ => false

/-- `personRepository.findOneBy (id)`: first row with the given id. -/
def findOneBy (s : Store) (i : Nat) : Option Person :=
  s.find? (fun p => p.id == i)

/-- The auto-generated primary key of the next inserted row: one more
than the largest id in the store (fresh and positive). -/
def nextId (s : Store) : Nat :=
  (s.map Person.id).foldr max 0 + 1

/-- Character-level worker behind JS `s.split('-')`: walks the string,
accumulating the current `-`-free piece in reverse. -/
def splitDashAux : List Char → List Char → List String
  | [], acc => [⟨acc.reverse⟩]
  | c :: rest, acc =>
    if c = '-' then (⟨acc.reverse⟩ : String) :: splitDashAux rest []
    else splitDashAux rest (c :: acc)

/-- JS `s.split('-')`: the maximal `-`-free pieces of the string in
order, empty pieces kept (`"".split('-')` is `[""]`,
`"a-".split('-')` is `["a", ""]`). -/
def splitDash (s : String) : List String :=
  splitDashAux s.data []

/-- The numeric value of a digit string, most significant digit first. -/
def digitsToNat (l : List Char) : Nat :=
  l.foldl (fun n c => n * 10 + (c.toNat - ('0' : Char).toNat)) 0

/-- JS `parseInt(str, 10)` restricted to what the service feeds it:
the longest digit run at the front of the string; `none` models `NaN`
(every `<`, `>`, `>=` comparison against `NaN` is false). Sign and
leading-whitespace handling of `parseInt` are irrelevant for date
component strings and are not modelled. -/
def jsParseInt (str : String) : Option Int :=
  let digits := str.data.takeWhile (fun c => c.isDigit)
  if digits.isEmpty then none else some (Int.ofNat (digitsToNat digits))

/-- `extractYear`: `parseInt(dateString.split('-')[0], 10)`. -/
def extractYear (dateString : String) : Option Int :=
  jsParseInt ((splitDash dateString).headD "")

/-- `isFullDate`: the string splits on `-` into three parts. -/
def isFullDate (dateString : String) : Bool :=
  (splitDash dateString).length == 3

/-- `isYearOnly`: the string does not contain `-` at all. -/
def isYearOnly (dateString : String) : Bool :=
  (splitDash dateString).length == 1

/-- A calendar date at full precision, for modelling `new Date(s)`
on `YYYY-MM-DD` strings. -/
structure YMD where
  y : Int
  m : Nat
  d : Nat
deriving DecidableEq, Repr

/-- Days in a month under the Gregorian leap rule, as validated by the
ISO date parser behind `new Date("YYYY-MM-DD")`. -/
def daysInMonth (y : Int) (m : Nat) : Nat :=
  if m == 2 then
    if y % 4 == 0 && (y % 100 != 0 || y % 400 == 0) then 29 else 28
  else if m == 4 || m == 6 || m == 9 || m == 11 then 30
  else 31

/-- `new Date("YYYY-MM-DD")`: parses an all-digit year/month/day triple
with a valid month and day; anything else is an Invalid Date (`none`),
on which every comparison is false. -/
def parseFullDate (str : String) : Option YMD :=
  match splitDash str with
  | [ys, ms, ds] =>
    match jsParseInt ys, jsParseInt ms, jsParseInt ds with
    | some y, some m, some d =>
      if ys.data.all (fun c => c.isDigit) && ms.data.all (fun c => c.isDigit) &&
          ds.data.all (fun c => c.isDigit) &&
          1 ≤ m.toNat && m.toNat ≤ 12 &&
          1 ≤ d.toNat && d.toNat ≤ daysInMonth y m.toNat then
        some ⟨y, m.toNat, d.toNat⟩
      else none
    | _, _, _ => none
  | _ => none

/-- Chronological strict order on full-precision dates. -/
def ymdLt (a b : YMD) : Bool :=
  a.y < b.y || (a.y == b.y && (a.m < b.m || (a.m == b.m && a.d < b.d)))

/-- `date.setMonth(date.getMonth() + 9)`: nine months later, carrying
into the next year.  (JS additionally rolls an out-of-range day over
into the following month; that refinement only matters for death days
29–31 landing on a shorter month and is not modelled.) -/
def addNineMonths (x : YMD) : YMD :=
  if x.m + 9 ≤ 12 then ⟨x.y, x.m + 9, x.d⟩ else ⟨x.y + 1, x.m + 9 - 12, x.d⟩

/-- `a >= b` on possibly-NaN year values: false if either is NaN. -/
def oGe (a b : Option Int) : Bool :=
  match a, b with
  | some x, some y => x ≥ y
  | _, _ => false

/-- `a - b < c` on possibly-NaN year values: false if either is NaN. -/
def oSubLt (a b : Option Int) (c : Int) : Bool :=
  match a, b with
  | some x, some y => x - y < c
  | _, _ => false

/-- `a > b + k` on possibly-NaN year values: false if either is NaN. -/
def oGtAdd (a b : Option Int) (k : Int) : Bool :=
  match a, b with
  | some x, some y => x > y + k
  | _, _ => false

/-- `childBirth > nineMonthsAfterDeath` on possibly-invalid dates. -/
def oDateGt (a b : Option YMD) : Bool :=
  match a, b with
  | some x, some y => ymdLt y x
  | _, _ => false

/-- `motherDeath < childBirth` on possibly-invalid dates. -/
def oDateLt (a b : Option YMD) : Bool :=
  match a, b with
  | some x, some y => ymdLt x y
  | _, _ => false

/-- `validateParents`: for each truthy parent id, the referenced person
must exist (`NotFound`) and have the gender of the role (`InvalidRole`);
father first, then mother. -/
def fatherRoleCheck (s : Store) (fatherId : Option Nat) :
    Except PError Unit :=
  if truthyId fatherId then
    match findOneBy s (fatherId.getD 0) with
    | none => .error (.fatherNotFound (fatherId.getD 0))
    | some father =>
      if father.gender != Gender.male then
        .error (.fatherNotMale (fatherId.getD 0))
      else .ok ()
  else .ok ()

def motherRoleCheck (s : Store) (motherId : Option Nat) :
    Except PError Unit :=
  if truthyId motherId then
    match findOneBy s (motherId.getD 0) with
    | none => .error (.motherNotFound (motherId.getD 0))
    | some mother =>
      if mother.gender != Gender.female then
        .error (.motherNotFemale (motherId.getD 0))
      else .ok ()
  else .ok ()

def validateParents (s : Store) (fatherId motherId : Option Nat) :
    Except PError Unit := do
  fatherRoleCheck s fatherId
  motherRoleCheck s motherId

/-- The father block of `validateParentDates`: minimum-age checks
against the father's birth date, then the precision-aware death-window
checks against his death date. -/
def fatherAgeCheck (cbd : String) (father : Person) :
    Except PError Unit :=
  if truthyStr father.birthDate then
    if oGe (extractYear (father.birthDate.getD "")) (extractYear cbd) then
      .error .fatherBornAfterChild
    else if oSubLt (extractYear cbd) (extractYear (father.birthDate.getD "")) 14 then
      .error .fatherTooYoung
    else .ok ()
  else .ok ()

def fatherDeathCheck (cbd : String) (father : Person) :
    Except PError Unit :=
  if truthyStr father.deathDate then
    if isYearOnly (father.deathDate.getD "") then
      if oGtAdd (extractYear cbd) (extractYear (father.deathDate.getD "")) 1 then
        .error .fatherDeathYearOnlyTooEarly
      else .ok ()
    else if isFullDate (father.deathDate.getD "") && isFullDate cbd then
      if oDateGt (parseFullDate cbd)
          ((parseFullDate (father.deathDate.getD "")).map addNineMonths) then
        .error .fatherDeathFullTooEarly
      else .ok ()
    else
      if oGtAdd (extractYear cbd) (extractYear (father.deathDate.getD "")) 1 then
        .error .fatherDeathMixedTooEarly
      else .ok ()
  else .ok ()

def fatherDateChecks (cbd : String) (father : Person) :
    Except PError Unit := do
  fatherAgeCheck cbd father
  fatherDeathCheck cbd father

/-- The mother block of `validateParentDates`: minimum-age checks, then
the death rules (year-only: same-year tolerance only; full precision on
both: the mother must die on or after the birth; mixed: same-year). -/
def motherAgeCheck (cbd : String) (mother : Person) :
    Except PError Unit :=
  if truthyStr mother.birthDate then
    if oGe (extractYear (mother.birthDate.getD "")) (extractYear cbd) then
      .error .motherBornAfterChild
    else if oSubLt (extractYear cbd) (extractYear (mother.birthDate.getD "")) 14 then
      .error .motherTooYoung
    else .ok ()
  else .ok ()

def motherDeathCheck (cbd : String) (mother : Person) :
    Except PError Unit :=
  if truthyStr mother.deathDate then
    if isYearOnly (mother.deathDate.getD "") then
      if oGtAdd (extractYear cbd) (extractYear (mother.deathDate.getD "")) 0 then
        .error .motherDeathYearOnlyTooEarly
      else .ok ()
    else if isFullDate (mother.deathDate.getD "") && isFullDate cbd then
      if oDateLt (parseFullDate (mother.deathDate.getD ""))
          (parseFullDate cbd) then
        .error .motherDeathFullTooEarly
      else .ok ()
    else
      if oGtAdd (extractYear cbd) (extractYear (mother.deathDate.getD "")) 0 then
        .error .motherDeathMixedTooEarly
      else .ok ()
  else .ok ()

def motherDateChecks (cbd : String) (mother : Person) :
    Except PError Unit := do
  motherAgeCheck cbd mother
  motherDeathCheck cbd mother

/-- `validateParentDates`: a no-op without a (truthy) child birth date;
otherwise the father block for a truthy `fatherId` whose row exists,
then the mother block likewise. -/
def fatherDatePart (s : Store) (cbd : String) (fatherId : Option Nat) :
    Except PError Unit :=
  if truthyId fatherId then
    match findOneBy s (fatherId.getD 0) with
    | some father => fatherDateChecks cbd father
    | none => .ok ()
  else .ok ()

def motherDatePart (s : Store) (cbd : String) (motherId : Option Nat) :
    Except PError Unit :=
  if truthyId motherId then
    match findOneBy s (motherId.getD 0) with
    | some mother => motherDateChecks cbd mother
    | none => .ok ()
  else .ok ()

def validateParentDates (s : Store) (childBirthDate : Option String)
    (fatherId motherId : Option Nat) : Except PError Unit :=
  if !truthyStr childBirthDate then .ok ()
  else do
    fatherDatePart s (childBirthDate.getD "") fatherId
    motherDatePart s (childBirthDate.getD "") motherId

/-- `validateNotOrphan`: a new person must have a truthy parent id, a
non-empty `childrenIds`, or the `progenitor` flag; in an empty store the
dto is silently promoted to progenitor; otherwise `DisconnectedPerson`.
Returns the (possibly mutated) dto. -/
def dtoHasParent (dto : CreatePersonDto) : Bool :=
  truthyId dto.fatherId || truthyId dto.motherId

/-- `childrenIds && childrenIds.length > 0`. -/
def dtoHasChildren (dto : CreatePersonDto) : Bool :=
  match dto.childrenIds with
  | some l => decide (0 < l.length)
  | none => false

def validateNotOrphan (s : Store) (dto : CreatePersonDto) :
    Except PError CreatePersonDto :=
  if dtoHasParent dto || dtoHasChildren dto then .ok dto
  else if dto.progenitor.getD false then .ok dto
  else if s.length == 0 then .ok { dto with progenitor := some true }
  else .error .disconnectedPerson

/-- `validateParentDatesForChildren`, inner loop: for each child with a
truthy birth date, the parent must be at least 14 years older, and if
the parent's death year is truthy, a father must survive until a year
before the birth, a mother until the birth year. -/
def childDateChecks (parentGender : Gender)
    (parentBirthYear parentDeathYear : Option Int) :
    List Person → Except PError Unit
  | [] => .ok ()
  | child :: rest =>
    if !truthyStr child.birthDate then
      childDateChecks parentGender parentBirthYear parentDeathYear rest
    else
      let cy := extractYear (child.birthDate.getD "")
      if oSubLt cy parentBirthYear 14 then
        .error (.parentTooYoungForChild child.firstName)
      else
        let deathTruthy :=
          match parentDeathYear with
          | some y => y != 0
          | none => false
        if deathTruthy then
          if parentGender == Gender.male then
            if oGtAdd (parentDeathYear.map (fun y => -y))
                (cy.map (fun c => -c)) 1 then
              .error (.fatherDeadBeforeConception child.firstName)
            else childDateChecks parentGender parentBirthYear parentDeathYear rest
          else
            if oGtAdd (parentDeathYear.map (fun y => -y))
                (cy.map (fun c => -c)) 0 then
              .error (.motherDeadBeforeBirth child.firstName)
            else childDateChecks parentGender parentBirthYear parentDeathYear rest
        else childDateChecks parentGender parentBirthYear parentDeathYear rest

/-- `validateParentDatesForChildren`: death-after-birth sanity for the
parent's own dates, then the per-child loop. -/
def parentOwnDatesCheck (parentBirthDate parentDeathDate : Option String) :
    Except PError Unit :=
  if truthyStr parentBirthDate && truthyStr parentDeathDate then
    match extractYear (parentBirthDate.getD ""),
        extractYear (parentDeathDate.getD "") with
    | some by0, some dy =>
      if dy < by0 then .error .deathBeforeBirth else .ok ()
    | _, _ => .ok ()
  else .ok ()

def parentDeathYearOf (parentDeathDate : Option String) : Option Int :=
  match parentDeathDate with
  | some d => if truthyStr (some d) then extractYear d else none
  | none => none

def validateParentDatesForChildren (children : List Person)
    (parentGender : Gender)
    (parentBirthDate parentDeathDate : Option String) :
    Except PError Unit := do
  parentOwnDatesCheck parentBirthDate parentDeathDate
  if !truthyStr parentBirthDate then .ok ()
  else
    childDateChecks parentGender (extractYear (parentBirthDate.getD ""))
      (parentDeathYearOf parentDeathDate) children

/-- The occupied-parent-slot test applied to each prospective child:
`child[parentField]` truthiness for the linking parent's role. -/
def hasRoleParent (g : Gender) (child : Person) : Bool :=
  if g == Gender.male then truthyId child.fatherId
  else truthyId child.motherId

/-- `validateChildren`: with a truthy non-empty `childrenIds`, all ids
must resolve (`findBy`, compared by count), none of the resolved
children may already have a truthy parent id of the new parent's role,
and the parent's dates must be plausible against every child.  Returns
the resolved children. -/
def validateChildren (s : Store) (childrenIds : Option (List Nat))
    (gender : Option Gender)
    (parentBirthDate parentDeathDate : Option String) :
    Except PError (List Person) :=
  match childrenIds with
  | none => .ok []
  | some ids =>
    if ids.length == 0 then .ok []
    else
      match gender with
      | none => .error .genderRequiredForChildren
      | some g =>
        if (s.filter (fun p => ids.contains p.id)).length != ids.length then
          .error .childrenNotFound
        else
          match (s.filter (fun p => ids.contains p.id)).find?
              (hasRoleParent g) with
          | some childWithParent =>
            .error (.childAlreadyHasParent childWithParent.firstName)
          | none =>
            (validateParentDatesForChildren
              (s.filter (fun p => ids.contains p.id)) g parentBirthDate
              parentDeathDate).map
              (fun _ => s.filter (fun p => ids.contains p.id))

/-- `linkChildrenToParentInternal`: set each listed child's `fatherId`
(male parent) or `motherId` (female parent) to the parent's id. -/
def linkInternal (s : Store) (parent : Person) (children : List Person) :
    Store :=
  s.map (fun p =>
    if children.any (fun c => c.id == p.id) then
      if parent.gender == Gender.male then { p with fatherId := some parent.id }
      else { p with motherId := some parent.id }
    else p)

/-- One iteration state of `wouldCreateAncestryCycle`'s worklist; the
recursion follows the JS `while` loop: pop, skip `0` / visited ids, mark
visited, look the row up, test its parent ids against the target, push
unvisited truthy parents (father below mother on the stack). -/
def wcacAux (s : Store) (target : Nat) :
    List Nat → Finset Nat → Bool × Finset Nat
  | [], visited => (false, visited)
  | currentId :: stack, visited =>
    if currentId = 0 then wcacAux s target stack visited
    else if currentId ∈ visited then wcacAux s target stack visited
    else
      let visited' := insert currentId visited
      match h : findOneBy s currentId with
      | none => wcacAux s target stack visited'
      | some current =>
        if current.fatherId = some target ∨ current.motherId = some target then
          (true, visited')
        else
          let st1 :=
            match current.fatherId with
            | some f => if f ≠ 0 ∧ f ∉ visited' then f :: stack else stack
            | none => stack
          let st2 :=
            match current.motherId with
            | some m => if m ≠ 0 ∧ m ∉ visited' then m :: st1 else st1
            | none => st1
          wcacAux s target st2 visited'
termination_by stack visited =>
  (((s.map Person.id).toFinset \ visited).card, stack.length)
decreasing_by
  · exact Prod.Lex.right _ (Nat.lt_succ_self _)
  · exact Prod.Lex.right _ (Nat.lt_succ_self _)
  · -- the id was not found: it is outside the store's id set,
    -- so the first component is unchanged and the stack shrinks
    have hnot : currentId ∉ (s.map Person.id).toFinset := by
      simp only [List.mem_toFinset, List.mem_map]
      rintro ⟨p, hp, hid⟩
      have := List.find?_eq_none.mp h p hp
      simp [hid] at this
    have hset : (s.map Person.id).toFinset \ insert currentId visited =
        (s.map Person.id).toFinset \ visited := by
      ext a
      simp only [Finset.mem_sdiff, Finset.mem_insert]
      constructor
      · rintro ⟨ha, hb⟩; exact ⟨ha, fun hv => hb (Or.inr hv)⟩
      · rintro ⟨ha, hb⟩
        refine ⟨ha, fun hv => ?_⟩
        rcases hv with rfl | hv
        · exact hnot ha
        · exact hb hv
    rw [hset]
    exact Prod.Lex.right _ (Nat.lt_succ_self _)
  · -- the id was found and freshly visited: the first component shrinks
    have hin : currentId ∈ (s.map Person.id).toFinset := by
      simp only [List.mem_toFinset, List.mem_map]
      have hmem := List.mem_of_find?_eq_some h
      have hpr := List.find?_some h
      simp only [beq_iff_eq] at hpr
      exact ⟨_, hmem, hpr⟩
    apply Prod.Lex.left
    apply Finset.card_lt_card
    constructor
    · intro a ha
      simp only [Finset.mem_sdiff, Finset.mem_insert] at ha ⊢
      exact ⟨ha.1, fun hv => ha.2 (Or.inr hv)⟩
    · intro hsub
      have hcur : currentId ∈ (s.map Person.id).toFinset \ visited := by
        simp only [Finset.mem_sdiff]
        exact ⟨hin, by assumption⟩
      have := hsub hcur
      simp [Finset.mem_sdiff, Finset.mem_insert] at this

/-- `wouldCreateAncestryCycle (potentialAncestorId, startPersonId)`:
true iff the target id appears as a parent id somewhere in the parent
chain explored from `startPersonId`. -/
def wouldCreateAncestryCycle (s : Store) (potentialAncestorId startPersonId : Nat) :
    Bool :=
  (wcacAux s potentialAncestorId [startPersonId] ∅).1

/-- The row inserted by `create`: the dto's person fields (without
`childrenIds`), a fresh id, entity default `progenitor = false`. -/
def mkCreatePerson (s : Store) (dto : CreatePersonDto) : Person :=
  { id := nextId s
    firstName := dto.firstName
    lastName := dto.lastName
    gender := dto.gender
    birthDate := dto.birthDate
    deathDate := dto.deathDate
    trivia := dto.trivia
    progenitor := dto.progenitor.getD false
    fatherId := dto.fatherId
    motherId := dto.motherId }

/-- `create`: orphan guard, parent existence/gender, temporal checks,
child validation, then insert the row and link the validated children. -/
def create (s : Store) (dto0 : CreatePersonDto) :
    Except PError (Store × Person) := do
  let dto ← validateNotOrphan s dto0
  validateParents s dto.fatherId dto.motherId
  validateParentDates s dto.birthDate dto.fatherId dto.motherId
  let childrenToLink ← validateChildren s dto.childrenIds (some dto.gender)
    dto.birthDate dto.deathDate
  let savedPerson := mkCreatePerson s dto
  let s1 := s ++ [savedPerson]
  let s2 :=
    if 0 < childrenToLink.length then linkInternal s1 savedPerson childrenToLink
    else s1
  return (s2, savedPerson)

/-- `Object.assign(person, updatePersonDto)`: present dto keys replace
the person's fields; a `null` parent id clears the link. -/
def applyUpdate (p : Person) (dto : UpdatePersonDto) : Person :=
  { p with
    firstName := dto.firstName.getD p.firstName
    lastName := dto.lastName.getD p.lastName
    progenitor := dto.progenitor.getD p.progenitor
    birthDate := strOr dto.birthDate p.birthDate
    deathDate := strOr dto.deathDate p.deathDate
    trivia := strOr dto.trivia p.trivia
    fatherId := match dto.fatherId with
      | some v => v
      | none => p.fatherId
    motherId := match dto.motherId with
      | some v => v
      | none => p.motherId }

/-- The parent-role validation stage of `updatePerson`, run only when a
truthy parent id is in the payload. -/
def updParentsStage (s : Store) (dto : UpdatePersonDto) :
    Except PError Unit :=
  if truthyNN dto.fatherId || truthyNN dto.motherId then
    validateParents s (joinNN dto.fatherId) (joinNN dto.motherId)
  else .ok ()

/-- The temporal validation stage of `updatePerson`, run when a birth
date or parent id is in the payload, with the stored values as
fallback. -/
def updDatesStage (s : Store) (person : Person) (dto : UpdatePersonDto) :
    Except PError Unit :=
  if truthyStr dto.birthDate || truthyNN dto.fatherId || truthyNN dto.motherId then
    validateParentDates s (strOr dto.birthDate person.birthDate)
      (nullishOr dto.fatherId person.fatherId)
      (nullishOr dto.motherId person.motherId)
  else .ok ()

/-- The self-parent rejection stage of `updatePerson`. -/
def updSelfStage (pid : Nat) (dto : UpdatePersonDto) : Except PError Unit :=
  if dto.fatherId == some (some pid) || dto.motherId == some (some pid) then
    .error .selfParent
  else .ok ()

/-- The cycle-guard stage of `updatePerson` for one parent-id payload
field (run for any numeric value, including `0`). -/
def updCycleStage (s : Store) (personId : Nat)
    (field : Option (Option Nat)) : Except PError Unit :=
  if isNumNN field then
    if wouldCreateAncestryCycle s personId ((joinNN field).getD 0) then
      .error (.cycleDetected ((joinNN field).getD 0) personId)
    else .ok ()
  else .ok ()

/-- `updatePerson`: look the person up, validate supplied parents,
re-run the temporal checks when a birth date or parent id is in the
payload (existing values as fallback), reject self-parenting, run the
cycle guard for each numeric parent id in the payload, then patch and
save. -/
def updatePerson (s : Store) (pid : Nat) (dto : UpdatePersonDto) :
    Except PError (Store × Person) := do
  let person ←
    match findOneBy s pid with
    | none => throw (.personNotFound pid)
    | some p => pure p
  updParentsStage s dto
  updDatesStage s person dto
  updSelfStage pid dto
  updCycleStage s person.id dto.fatherId
  updCycleStage s person.id dto.motherId
  let person' := applyUpdate person dto
  return (s.map (fun q => if q.id == person.id then person' else q), person')

/-- The per-child cycle loop of `linkChildrenToParent`. -/
def checkChildCycles (s : Store) (parentId : Nat) :
    List Nat → Except PError Unit
  | [] => .ok ()
  | childId :: rest =>
    if wouldCreateAncestryCycle s childId parentId then
      .error (.cycleDetected parentId childId)
    else checkChildCycles s parentId rest

/-- `linkChildrenToParent`: parent must exist, `childrenIds` non-empty
and not containing the parent, no child may be an ancestor of the
parent, the parent's gender must match the role, the children must pass
`validateChildren`; then bulk-update the children's parent field. -/
def linkBasicChecks (parentId : Nat) (childrenIds : List Nat) :
    Except PError Unit :=
  if childrenIds.length == 0 then .error .childrenIdsRequired
  else if childrenIds.contains parentId then .error .selfParent
  else .ok ()

def linkGenderCheck (parentId : Nat) (parent : Person) (parentType : PRole) :
    Except PError Unit :=
  if parent.gender !=
      (if parentType == PRole.father then Gender.male else Gender.female) then
    .error (.linkParentWrongGender parentId)
  else .ok ()

def linkChildrenToParent (s : Store) (parentId : Nat)
    (childrenIds : List Nat) (parentType : PRole) :
    Except PError (Store × Nat) := do
  let parent ←
    match findOneBy s parentId with
    | none => throw (.parentNotFound parentId)
    | some p => pure p
  linkBasicChecks parentId childrenIds
  checkChildCycles s parentId childrenIds
  linkGenderCheck parentId parent parentType
  let children ← validateChildren s (some childrenIds) (some parent.gender)
    parent.birthDate parent.deathDate
  return (linkInternal s parent children, children.length)

/-- `findProgenitor`: first row with `progenitor = true`. -/
def findProgenitor (s : Store) : Option Person :=
  s.find? (fun p => p.progenitor)

/-- Deterministic failure injection for the three store calls inside
the promotion transaction (insert, update, commit). -/
structure TxFail where
  failSave : Bool := false
  failUpdate : Bool := false
  failCommit : Bool := false
deriving DecidableEq, Repr

/-- The row inserted by `promoteAncestor`: the dto's person fields,
a fresh id, `progenitor = true`, no parents. -/
def mkAncestor (s : Store) (dto : PromoteAncestorDto) : Person :=
  { id := nextId s
    firstName := dto.firstName
    lastName := dto.lastName
    gender := dto.gender
    birthDate := dto.birthDate
    deathDate := dto.deathDate
    trivia := dto.trivia
    progenitor := true
    fatherId := none
    motherId := none }

/-- The demotion update applied to the former progenitor row:
`progenitor = false` and the father or mother id (per the requested
relationship) set to the new ancestor's id. -/
def demote (dto : PromoteAncestorDto) (ancestorId : Nat) (p : Person) :
    Person :=
  if dto.relationship == PRole.father then
    { p with progenitor := false, fatherId := some ancestorId }
  else
    { p with progenitor := false, motherId := some ancestorId }

/-- `promoteAncestor`: locate the progenitor, check the caller's
claimed id and the new ancestor's gender against the role; then, inside
one transaction, insert the new ancestor with `progenitor = true` and
no parents, and demote the former progenitor, linking its father or
mother id (per role) to the new ancestor.  Any injected failure raises
after the rollback, so an error never publishes either write: the
caller's store is unchanged. -/
def promoteIdentityCheck (currentProgenitor : Person)
    (dto : PromoteAncestorDto) : Except PError Unit :=
  if currentProgenitor.id != dto.currentProgenitorId then
    .error (.notCurrentProgenitor dto.currentProgenitorId)
  else .ok ()

def promoteGenderCheck (dto : PromoteAncestorDto) : Except PError Unit :=
  if dto.gender !=
      (if dto.relationship == PRole.father then Gender.male else Gender.female) then
    .error .wrongGenderForRelationship
  else .ok ()

def txGuard (fail : Bool) : Except PError Unit :=
  if fail then .error .txFailure else .ok ()

/-- The store after both buffered writes of the promotion transaction. -/
def promotedStore (s : Store) (dto : PromoteAncestorDto) : Store :=
  (s ++ [mkAncestor s dto]).map (fun p =>
    if p.id == dto.currentProgenitorId then demote dto (mkAncestor s dto).id p
    else p)

def promoteAncestor (s : Store) (dto : PromoteAncestorDto) (tx : TxFail) :
    Except PError (Store × Person) := do
  let currentProgenitor ←
    match findProgenitor s with
    | none => throw .noProgenitor
    | some p => pure p
  promoteIdentityCheck currentProgenitor dto
  promoteGenderCheck dto
  txGuard tx.failSave
  txGuard tx.failUpdate
  txGuard tx.failCommit
  return (promotedStore s dto, mkAncestor s dto)

/-- `removePerson`: refuse when any row references the person as father
or mother; otherwise delete the row. -/
def removeDependentsCheck (s : Store) (person : Person) :
    Except PError Unit :=
  if 0 < (s.filter (fun c =>
      c.fatherId == some person.id || c.motherId == some person.id)).length then
    .error (.hasChildrenBlocked (s.filter (fun c =>
      c.fatherId == some person.id || c.motherId == some person.id)).length)
  else .ok ()

def removePerson (s : Store) (pid : Nat) :
    Except PError (Store × Person) := do
  let person ←
    match findOneBy s pid with
    | none => throw (.personNotFound pid)
    | some p => pure p
  removeDependentsCheck s person
  return (s.filter (fun q => q.id != person.id), person)

/-- One mutation request against the store. -/
inductive Op
  | create (dto : CreatePersonDto)
  | update (pid : Nat) (dto : UpdatePersonDto)
  | link (parentId : Nat) (childrenIds : List Nat) (parentType : PRole)
  | promote (dto : PromoteAncestorDto) (tx : TxFail)
  | remove (pid : Nat)
deriving DecidableEq, Repr

/-- Dispatch one mutation, keeping only the resulting store. -/
def applyOp (s : Store) : Op → Except PError Store
  | .create dto => (create s dto).map (fun r => r.1)
  | .update pid dto => (updatePerson s pid dto).map (fun r => r.1)
  | .link pid cids role => (linkChildrenToParent s pid cids role).map (fun r => r.1)
  | .promote dto tx => (promoteAncestor s dto tx).map (fun r => r.1)
  | .remove pid => (removePerson s pid).map (fun r => r.1)

/-- Run a sequence of mutations, failing as soon as one is rejected:
`runOps s ops = .ok s'` states that every operation in `ops` committed. -/
def runOps (s : Store) : List Op → Except PError Store
  | [] => .ok s
  | op :: rest =>
    match applyOp s op with
    | .ok s' => runOps s' rest
    | .error e => .error e

/-! ### Store invariants -/

/-- Number of rows flagged progenitor. -/
def progCount (s : Store) : Nat :=
  s.countP (fun p => p.progenitor)

/-- The single-progenitor invariant: at most one flagged row. -/
def ProgOk (s : Store) : Prop :=
  progCount s ≤ 1

/-- No row is its own father or mother. -/
def NoSelfParent (s : Store) : Prop :=
  ∀ p ∈ s, p.fatherId ≠ some p.id ∧ p.motherId ≠ some p.id

/-- `parentEdge s x y`: some row with id `x` has `y` as father or
mother id. -/
def parentEdge (s : Store) (x y : Nat) : Prop :=
  ∃ p ∈ s, p.id = x ∧ (p.fatherId = some y ∨ p.motherId = some y)

/-- Acyclicity: no id reaches itself along parent edges. -/
def Acyclic (s : Store) : Prop :=
  ∀ x, ¬ Relation.TransGen (parentEdge s) x x

/-- Every non-zero parent reference resolves to a row of the store. -/
def RefsOk (s : Store) : Prop :=
  ∀ p ∈ s,
    (∀ f ∈ p.fatherId, f = 0 ∨ ∃ q ∈ s, q.id = f) ∧
    (∀ m ∈ p.motherId, m = 0 ∨ ∃ q ∈ s, q.id = m)

/-- Store well-formedness, maintained by every operation from the empty
store: distinct positive row ids and resolvable parent references. -/
def Wf (s : Store) : Prop :=
  (s.map Person.id).Nodup ∧ (∀ p ∈ s, 1 ≤ p.id) ∧ RefsOk s

/-- `chainPath E a l b`: a walk from `a` to `b` whose intermediate
nodes are `l`. -/
def chainPath (E : Nat → Nat → Prop) : Nat → List Nat → Nat → Prop
  | a, [], b => a = b
  | a, c :: l, b => E a c ∧ chainPath E c l b

/-- Conditional push of a truthy, unvisited parent id. -/
def pushId (visited : Finset Nat) (x : Option Nat) (st : List Nat) :
    List Nat :=
  match x with
  | some f => if f ≠ 0 ∧ f ∉ visited then f :: st else st
  | none => st

/-- Closure of a visited set at one id: the id's row (if any) does not
point at the target, and its truthy parents are in the set. -/
def closedAt (s : Store) (target : Nat) (V : Finset Nat) (y : Nat) : Prop :=
  ∀ p, findOneBy s y = some p →
    p.fatherId ≠ some target ∧ p.motherId ≠ some target ∧
    (∀ f, p.fatherId = some f → f ≠ 0 → f ∈ V) ∧
    (∀ m, p.motherId = some m → m ≠ 0 → m ∈ V)

/-- Operations whose payload does not explicitly set `progenitor = true`
(the single-progenitor invariant only survives these). -/
def opNoExplicitProgenitor : Op → Bool
  | .create dto => !(dto.progenitor == some true)
  | .update _ dto => !(dto.progenitor == some true)
  | _ => true

/-- Operations covered by a cycle guard: everything except a `create`
that supplies both a truthy parent id and a non-empty `childrenIds`
(that combination is committed without any cycle check). -/
def opCycleGuarded : Op → Bool
  | .create dto => !(dtoHasParent dto && dtoHasChildren dto)
  | _ => true

/-- The spec's `ImplausibleAge` failure of a validator run. -/
def resultIsImplausibleAge : Except PError Unit → Bool
  | .error e => e.isImplausibleAge
  | .ok _ => false

/-- Executable sufficient condition for acyclicity: every parent
reference points at a smaller id. -/
def edgeDecB (s : Store) : Bool :=
  s.all (fun p =>
    (match p.fatherId with
     | some f => decide (f < p.id)
     | none => true) &&
    (match p.motherId with
     | some m => decide (m < p.id)
     | none => true))

/-- The update payload `{fatherId: X.id}` of the self-parent scenario. -/
def fatherSelfDto (pid : Nat) : UpdatePersonDto := { fatherId := some (some pid) }

/-- The update payload `{motherId: X.id}` of the self-parent scenario. -/
def motherSelfDto (pid : Nat) : UpdatePersonDto := { motherId := some (some pid) }

/-- The update payload `{fatherId: null}` clearing the father link. -/
def clearFatherDto : UpdatePersonDto := { fatherId := some none }

/-- The update payload `{motherId: null}` clearing the mother link. -/
def clearMotherDto : UpdatePersonDto := { motherId := some none }

/-- The store visible to the caller after `promoteAncestor` returns or
throws: an error leaves the original store (transaction rollback). -/
def promoteResultStore (s : Store) (dto : PromoteAncestorDto) (tx : TxFail) :
    Store :=
  match promoteAncestor s dto tx with
  | .ok (s', _) => s'
  | .error _ => s

/-! Concrete stores and payloads for the counterexamples and witnesses. -/

def cexProgA : Person :=
  { id := 1, firstName := "Ada", lastName := "Root", gender := .female,
    progenitor := true }

def cexStoreC1 : Store := [cexProgA]

def cexDtoC1 : CreatePersonDto :=
  { firstName := "Bea", lastName := "Root", gender := .female,
    progenitor := some true }

def witStoreC1 : Store :=
  [{ id := 1, firstName := "Prog", lastName := "Root", gender := .male,
     progenitor := true }]

def witDtoPromC1 : PromoteAncestorDto :=
  { firstName := "Elder", lastName := "Root", gender := .male,
    currentProgenitorId := 1, relationship := .father }

def witOpsC1 : List Op :=
  [Op.promote witDtoPromC1 {}]

def cexGrandB : Person :=
  { id := 1, firstName := "Grand", lastName := "Line", gender := .male }

def cexMidA : Person :=
  { id := 2, firstName := "Mid", lastName := "Line", gender := .male,
    fatherId := some 1 }

def cexStoreC2 : Store := [cexGrandB, cexMidA]

def cexDtoC2 : CreatePersonDto :=
  { firstName := "New", lastName := "Line", gender := .male,
    fatherId := some 2, childrenIds := some [1] }

def witStoreC2 : Store :=
  [{ id := 1, firstName := "Root", lastName := "Line", gender := .male,
     progenitor := true }]

def witDtoCreateC2 : CreatePersonDto :=
  { firstName := "Son", lastName := "Line", gender := .male,
    fatherId := some 1 }

def witOpsC2 : List Op :=
  [Op.create witDtoCreateC2]

def witStoreC3 : Store :=
  [{ id := 1, firstName := "Prog", lastName := "Root", gender := .male,
     progenitor := true }]

def witDtoC3 : PromoteAncestorDto :=
  { firstName := "Elder", lastName := "Root", gender := .male,
    currentProgenitorId := 1, relationship := .father }

def witTxC3 : TxFail := { failCommit := true }

def cexPersonC4 : Person :=
  { id := 1, firstName := "Xena", lastName := "Solo", gender := .female }

def cexStoreC4 : Store := [cexPersonC4]

def witPersonC4 : Person :=
  { id := 1, firstName := "Yan", lastName := "Solo", gender := .male }

def witStoreC4 : Store := [witPersonC4]

def witFayeC5 : Person :=
  { id := 1, firstName := "Faye", lastName := "Kin", gender := .female }

def witStoreC5 : Store :=
  [witFayeC5,
   { id := 2, firstName := "Moe", lastName := "Kin", gender := .male }]

def witCDtoC5 : CreatePersonDto :=
  { firstName := "Kid", lastName := "Kin", gender := .male,
    fatherId := some 1 }

def witFatherC6 : Person :=
  { id := 1, firstName := "Fred", lastName := "Old", gender := .male,
    birthDate := some "1900" }

def witStoreC6 : Store := [witFatherC6]

def witFatherC7 : Person :=
  { id := 1, firstName := "Frank", lastName := "Gone", gender := .male,
    deathDate := some "1950" }

def witStoreC7 : Store := [witFatherC7]

def cexMotherC8 : Person :=
  { id := 1, firstName := "Mona", lastName := "Late", gender := .female,
    deathDate := some "1950-06-01" }

def cexStoreC8 : Store := [cexMotherC8]

def witStoreC9 : Store :=
  [{ id := 1, firstName := "Solo", lastName := "One", gender := .male,
     progenitor := true }]

def witDtoC9 : CreatePersonDto :=
  { firstName := "Iso", lastName := "Late", gender := .female }

def witKidC10 : Person :=
  { id := 1, firstName := "Kid", lastName := "Loop", gender := .male,
    fatherId := some 2, motherId := some 3 }

def witStoreC10 : Store :=
  [witKidC10,
   { id := 2, firstName := "Dad", lastName := "Loop", gender := .male,
     fatherId := some 1 }]

/-- The row inserted by the C2 counterexample's `create`. -/
def cexNewC2 : Person :=
  { id := 3, firstName := "New", lastName := "Line", gender := .male,
    fatherId := some 2 }

/-- The committed store of the C2 counterexample: the new row points at
id 2, and the linked child (id 1) now points back at the new row. -/
def cexOutC2 : Store :=
  [{ cexGrandB with fatherId := some 3 }, cexMidA, cexNewC2]

/-! ### Basic store lemmas -/

theorem findOneBy_eq_some {s : Store} {i : Nat} {p : Person}
    (h : findOneBy s i = some p) : p ∈ s ∧ p.id = i := by
  refine ⟨List.mem_of_find?_eq_some h, ?_⟩
  have := List.find?_some h
  simpa using this

theorem findOneBy_eq_none {s : Store} {i : Nat}
    (h : findOneBy s i = none) : ∀ p ∈ s, p.id ≠ i := by
  intro p hp
  have := List.find?_eq_none.mp h p hp
  simpa using this

theorem findOneBy_mem {s : Store} {p : Person}
    (hnd : (s.map Person.id).Nodup) (hp : p ∈ s) :
    findOneBy s p.id = some p := by
  induction s with
  | nil => cases hp
  | cons q rest ih =>
    simp only [List.map_cons, List.nodup_cons] at hnd
    rcases List.mem_cons.mp hp with rfl | hp'
    · simp [findOneBy, List.find?]
    · have hne : q.id ≠ p.id := by
        intro he
        exact hnd.1 (he ▸ List.mem_map_of_mem Person.id hp')
      have hfalse : (q.id == p.id) = false := by
        simpa using hne
      rw [findOneBy, List.find?_cons_of_neg _ (by simp [hne])]
      exact ih hnd.2 hp'

theorem le_foldr_max {l : List Nat} {x : Nat} (hx : x ∈ l) :
    x ≤ l.foldr max 0 := by
  induction l with
  | nil => cases hx
  | cons a rest ih =>
    rcases List.mem_cons.mp hx with rfl | h'
    · exact le_max_left _ _
    · exact le_trans (ih h') (le_max_right _ _)

theorem id_lt_nextId {s : Store} {p : Person} (hp : p ∈ s) :
    p.id < nextId s := by
  have : p.id ≤ (s.map Person.id).foldr max 0 :=
    le_foldr_max (List.mem_map_of_mem Person.id hp)
  simp only [nextId]
  omega

theorem nextId_pos (s : Store) : 1 ≤ nextId s := by
  simp [nextId]

theorem nextId_not_mem {s : Store} {p : Person} (hp : p ∈ s) :
    p.id ≠ nextId s :=
  Nat.ne_of_lt (id_lt_nextId hp)

theorem countP_le_one_unique {l : List Person} {pred : Person → Bool}
    (hc : l.countP pred ≤ 1) {a b : Person}
    (ha : a ∈ l) (hb : b ∈ l) (hpa : pred a) (hpb : pred b) : a = b := by
  by_contra hne
  induction l with
  | nil => cases ha
  | cons x rest ih =>
    rcases List.mem_cons.mp ha with rfl | ha' <;>
      rcases List.mem_cons.mp hb with rfl | hb'
    · exact hne rfl
    · rw [List.countP_cons_of_pos _ _ hpa] at hc
      have : 1 ≤ rest.countP pred := by
        calc 1 = [b].countP pred := by simp [hpb]
        _ ≤ rest.countP pred := by
          apply List.Sublist.countP_le
          simpa using hb'
      omega
    · rw [List.countP_cons_of_pos _ _ hpb] at hc
      have : 1 ≤ rest.countP pred := by
        calc 1 = [a].countP pred := by simp [hpa]
        _ ≤ rest.countP pred := by
          apply List.Sublist.countP_le
          simpa using ha'
      omega
    · have hc' : rest.countP pred ≤ 1 :=
        le_trans (by
          rw [List.countP_cons]
          omega) hc
      exact ih hc' ha' hb'

/-! ### Edge chains

List-backed paths over an edge relation, used to decompose a cycle of
the mutated store at its first / last non-old edge. -/

theorem chainPath_append {E : Nat → Nat → Prop} {a b c : Nat}
    {l1 l2 : List Nat} (h1 : chainPath E a l1 b) (h2 : chainPath E b l2 c) :
    chainPath E a (l1 ++ l2) c := by
  induction l1 generalizing a with
  | nil => cases h1; simpa using h2
  | cons x rest ih =>
    exact ⟨h1.1, ih h1.2⟩

theorem reflTransGen_iff_chainPath {E : Nat → Nat → Prop} {a b : Nat} :
    Relation.ReflTransGen E a b ↔ ∃ l, chainPath E a l b := by
  constructor
  · intro h
    induction h with
    | refl => exact ⟨[], rfl⟩
    | tail _ he ih =>
      rcases ih with ⟨l, hl⟩
      exact ⟨l ++ [_], chainPath_append hl ⟨he, rfl⟩⟩
  · rintro ⟨l, hl⟩
    induction l generalizing a with
    | nil => cases hl; exact Relation.ReflTransGen.refl
    | cons x rest ih =>
      exact Relation.ReflTransGen.head hl.1 (ih hl.2)

theorem transGen_iff_chainPath {E : Nat → Nat → Prop} {a b : Nat} :
    Relation.TransGen E a b ↔ ∃ c l, E a c ∧ chainPath E c l b := by
  constructor
  · intro h
    rcases Relation.TransGen.head'_iff.mp h with ⟨c, hac, hcb⟩
    rcases reflTransGen_iff_chainPath.mp hcb with ⟨l, hl⟩
    exact ⟨c, l, hac, hl⟩
  · rintro ⟨c, l, hac, hl⟩
    exact Relation.TransGen.head' hac (reflTransGen_iff_chainPath.mpr ⟨l, hl⟩)

theorem chainPath_nonempty_transGen {E : Nat → Nat → Prop} {a b c : Nat}
    {l : List Nat} (hac : E a c) (hl : chainPath E c l b) :
    Relation.TransGen E a b :=
  transGen_iff_chainPath.mpr ⟨c, l, hac, hl⟩

/-- Split a walk at its first edge outside `Eold`: either the whole
walk is old, or there is a prefix of old edges up to the source of a
`NewE` edge, followed by the rest of the walk. -/
theorem chain_split_first {E Eold NewE : Nat → Nat → Prop}
    (hsub : ∀ x y, E x y → Eold x y ∨ NewE x y) {a b : Nat} {l : List Nat}
    (h : chainPath E a l b) :
    chainPath Eold a l b ∨
      ∃ u v l1 l2, NewE u v ∧ chainPath Eold a l1 u ∧
        chainPath E v l2 b := by
  induction l generalizing a with
  | nil => exact Or.inl h
  | cons c rest ih =>
    rcases hsub _ _ h.1 with hold | hnew
    · rcases ih h.2 with h' | ⟨u, v, l1, l2, hn, hch, hrest⟩
      · exact Or.inl ⟨hold, h'⟩
      · exact Or.inr ⟨u, v, c :: l1, l2, hn, ⟨hold, hch⟩, hrest⟩
    · exact Or.inr ⟨a, c, [], rest, hnew, rfl, h.2⟩

/-- Split a walk at its last edge outside `Eold`: either the whole walk
is old, or there is a `NewE` edge whose target continues entirely along
old edges to `b`. -/
theorem chain_split_last {E Eold NewE : Nat → Nat → Prop}
    (hsub : ∀ x y, E x y → Eold x y ∨ NewE x y) {a b : Nat} {l : List Nat}
    (h : chainPath E a l b) :
    chainPath Eold a l b ∨
      ∃ u v l2, NewE u v ∧ chainPath Eold v l2 b := by
  induction l generalizing a with
  | nil => exact Or.inl h
  | cons c rest ih =>
    rcases ih h.2 with h' | ⟨u, v, l2, hn, hch⟩
    · rcases hsub _ _ h.1 with hold | hnew
      · exact Or.inl ⟨hold, h'⟩
      · exact Or.inr ⟨a, c, rest, hnew, h'⟩
    · exact Or.inr ⟨u, v, l2, hn, hch⟩

/-- A cycle in `E` over an `Eold`-acyclic graph yields a last `NewE`
edge `u → v` and a first `NewE` edge `u' → v'` with an old walk from
`v` to `u'` (the old suffix after the last new edge glued, at the
cycle's base point, to the old prefix before the first new edge). -/
theorem cycle_decomp {E Eold NewE : Nat → Nat → Prop}
    (hsub : ∀ x y, E x y → Eold x y ∨ NewE x y)
    (hacyc : ∀ x, ¬ Relation.TransGen Eold x x) {a : Nat}
    (hcyc : Relation.TransGen E a a) :
    ∃ u v u' v', NewE u v ∧ NewE u' v' ∧
      Relation.ReflTransGen Eold v u' ∧
      Relation.ReflTransGen E v' a := by
  rcases transGen_iff_chainPath.mp hcyc with ⟨c, l, hac, hl⟩
  have hfull : chainPath E a (c :: l) a := ⟨hac, hl⟩
  rcases chain_split_last hsub hfull with hold | ⟨u, v, l2, hn, hch2⟩
  · exact absurd (chainPath_nonempty_transGen hold.1 hold.2) (hacyc a)
  rcases chain_split_first hsub hfull with hold | ⟨u', v', l1, l2', hn', hch1, hrest⟩
  · exact absurd (chainPath_nonempty_transGen hold.1 hold.2) (hacyc a)
  exact ⟨u, v, u', v', hn, hn',
    reflTransGen_iff_chainPath.mpr ⟨l2 ++ l1, chainPath_append hch2 hch1⟩,
    reflTransGen_iff_chainPath.mpr ⟨l2', hrest⟩⟩

/-! ### Completeness of the cycle walk

If the promoted parent id occurs anywhere in the (truthy, resolvable)
parent chain of the start person, `wouldCreateAncestryCycle` finds it.
The invariant: when the walk returns `false`, its final visited set
contains every non-zero stack id and is closed under truthy parent
references, none of which hit the target. -/

theorem wcacAux_zero (s : Store) (t : Nat) (st : List Nat) (v : Finset Nat) :
    wcacAux s t (0 :: st) v = wcacAux s t st v := by
  rw [wcacAux]
  simp

theorem wcacAux_visited (s : Store) (t : Nat) {c : Nat} (st : List Nat)
    {v : Finset Nat} (h0 : c ≠ 0) (hv : c ∈ v) :
    wcacAux s t (c :: st) v = wcacAux s t st v := by
  rw [wcacAux]
  rw [if_neg h0, if_pos hv]

theorem wcacAux_notfound (s : Store) (t : Nat) {c : Nat} (st : List Nat)
    {v : Finset Nat} (h0 : c ≠ 0) (hv : c ∉ v)
    (hf : findOneBy s c = none) :
    wcacAux s t (c :: st) v = wcacAux s t st (insert c v) := by
  rw [wcacAux]
  rw [if_neg h0, if_neg hv]
  split
  · rfl
  · rename_i current heq
    rw [hf] at heq
    cases heq

theorem wcacAux_hit (s : Store) (t : Nat) {c : Nat} (st : List Nat)
    {v : Finset Nat} {p : Person} (h0 : c ≠ 0) (hv : c ∉ v)
    (hf : findOneBy s c = some p)
    (hp : p.fatherId = some t ∨ p.motherId = some t) :
    wcacAux s t (c :: st) v = (true, insert c v) := by
  rw [wcacAux]
  rw [if_neg h0, if_neg hv]
  split
  · rename_i heq
    rw [hf] at heq
    cases heq
  · rename_i current heq
    rw [hf] at heq
    injection heq with heq
    subst heq
    rw [if_pos hp]

theorem mem_pushId {visited : Finset Nat} {x : Option Nat} {st : List Nat}
    {a : Nat} (ha : a ∈ st) : a ∈ pushId visited x st := by
  cases x with
  | none => exact ha
  | some f =>
    by_cases h : f ≠ 0 ∧ f ∉ visited <;> simp [pushId, h, ha]

theorem pushId_mem_of_cond {visited : Finset Nat} {x : Nat} {st : List Nat}
    (h0 : x ≠ 0) (hv : x ∉ visited) :
    x ∈ pushId visited (some x) st := by
  simp [pushId, h0, hv]

theorem wcacAux_step (s : Store) (t : Nat) {c : Nat} (st : List Nat)
    {v : Finset Nat} {p : Person} (h0 : c ≠ 0) (hv : c ∉ v)
    (hf : findOneBy s c = some p)
    (hp : ¬(p.fatherId = some t ∨ p.motherId = some t)) :
    wcacAux s t (c :: st) v =
      wcacAux s t
        (pushId (insert c v) p.motherId
          (pushId (insert c v) p.fatherId st))
        (insert c v) := by
  rw [wcacAux]
  rw [if_neg h0, if_neg hv]
  split
  · rename_i heq
    rw [hf] at heq
    cases heq
  · rename_i current heq
    rw [hf] at heq
    injection heq with heq
    subst heq
    rw [if_neg hp]
    rfl

theorem wcacAux_false_spec (s : Store) (target : Nat) :
    ∀ stack visited,
      (wcacAux s target stack visited).1 = false →
      visited ⊆ (wcacAux s target stack visited).2 ∧
      (∀ x ∈ stack, x ≠ 0 → x ∈ (wcacAux s target stack visited).2) ∧
      (∀ y ∈ (wcacAux s target stack visited).2, y ∉ visited →
        closedAt s target (wcacAux s target stack visited).2 y) := by
  intro stack visited
  induction stack, visited using wcacAux.induct s target with
  | case1 visited =>
    intro _
    rw [wcacAux]
    refine ⟨fun a ha => ha, by simp, ?_⟩
    intro y hy hny
    exact absurd hy hny
  | case2 stack visited ih =>
    rw [wcacAux_zero]
    intro hfalse
    obtain ⟨h1, h2, h3⟩ := ih hfalse
    refine ⟨h1, ?_, h3⟩
    intro x hx hx0
    rcases List.mem_cons.mp hx with rfl | hx'
    · exact absurd rfl hx0
    · exact h2 x hx' hx0
  | case3 currentId stack visited h0 hvis ih =>
    rw [wcacAux_visited s target stack h0 hvis]
    intro hfalse
    obtain ⟨h1, h2, h3⟩ := ih hfalse
    refine ⟨h1, ?_, h3⟩
    intro x hx hx0
    rcases List.mem_cons.mp hx with rfl | hx'
    · exact h1 hvis
    · exact h2 x hx' hx0
  | case4 currentId stack visited h0 hvis visitedA hnone ih =>
    rw [wcacAux_notfound s target stack h0 hvis hnone]
    intro hfalse
    obtain ⟨h1, h2, h3⟩ := ih hfalse
    have hsub : visited ⊆ (wcacAux s target stack (insert currentId visited)).2 :=
      fun a ha => h1 (Finset.mem_insert_of_mem ha)
    refine ⟨hsub, ?_, ?_⟩
    · intro x hx hx0
      rcases List.mem_cons.mp hx with rfl | hx'
      · exact h1 (Finset.mem_insert_self _ _)
      · exact h2 x hx' hx0
    · intro y hy hny
      by_cases hy' : y ∈ insert currentId visited
      · rcases Finset.mem_insert.mp hy' with rfl | hyv
        · intro p hp
          rw [hnone] at hp
          cases hp
        · exact absurd hyv hny
      · exact h3 y hy hy'
  | case5 currentId stack visited h0 hvis current hfound hhit =>
    rw [wcacAux_hit s target stack h0 hvis hfound hhit]
    intro hfalse
    cases hfalse
  | case6 currentId stack visited h0 hvis visitedA current hfound hmiss stA stB ih =>
    rw [wcacAux_step s target stack h0 hvis hfound hmiss]
    intro hfalse
    obtain ⟨h1, h2, h3⟩ := ih hfalse
    refine ⟨fun a ha => h1 (Finset.mem_insert_of_mem ha), ?_, ?_⟩
    · intro x hx hx0
      rcases List.mem_cons.mp hx with rfl | hx'
      · exact h1 (Finset.mem_insert_self _ _)
      · exact h2 x (mem_pushId (mem_pushId hx')) hx0
    · intro z hz hnz
      by_cases hz' : z ∈ insert currentId visited
      · rcases Finset.mem_insert.mp hz' with hzc | hzv
        · subst hzc
          -- the freshly processed id: its row is `current`
          intro p hp
          rw [hfound] at hp
          injection hp with hp
          subst hp
          push_neg at hmiss
          refine ⟨hmiss.1, hmiss.2, ?_, ?_⟩
          · intro f hfEq hf0
            by_cases hfv : f ∈ insert z visited
            · exact h1 hfv
            · exact h2 f (mem_pushId (hfEq ▸ pushId_mem_of_cond hf0 hfv)) hf0
          · intro m hmEq hm0
            by_cases hmv : m ∈ insert z visited
            · exact h1 hmv
            · refine h2 m ?_ hm0
              show m ∈ pushId (insert z visited) current.motherId
                (pushId (insert z visited) current.fatherId stack)
              rw [hmEq]
              exact pushId_mem_of_cond hm0 hmv
        · exact absurd hzv hnz
      · exact h3 z hz hz'

/-- Completeness of the cycle walk: if the target id is a parent of
some node reachable from `start` along parent edges (over a store with
distinct positive ids), the walk reports `true`. -/
theorem wouldCycle_of_chain {s : Store} (hnd : (s.map Person.id).Nodup)
    (hpos : ∀ p ∈ s, 1 ≤ p.id) {start target z : Nat}
    (hstart : start ≠ 0)
    (hchain : Relation.ReflTransGen (parentEdge s) start z)
    (hlast : parentEdge s z target) :
    wouldCreateAncestryCycle s target start = true := by
  by_contra hne
  have hfalse : (wcacAux s target [start] ∅).1 = false := by
    cases hb : (wcacAux s target [start] ∅).1
    · rfl
    · exact absurd hb hne
  obtain ⟨_, hstack, hclosed⟩ := wcacAux_false_spec s target [start] ∅ hfalse
  have hstartV : start ∈ (wcacAux s target [start] ∅).2 :=
    hstack start (by simp) hstart
  have chainInV : ∀ y, Relation.ReflTransGen (parentEdge s) start y →
      (∃ p ∈ s, p.id = y) → y ∈ (wcacAux s target [start] ∅).2 := by
    intro y h
    induction h with
    | refl => intro _; exact hstartV
    | tail hxb e ih =>
      rename_i b c
      intro hc
      rcases e with ⟨pb, hpb, hpbid, hpar⟩
      have hbV : b ∈ (wcacAux s target [start] ∅).2 :=
        ih ⟨pb, hpb, hpbid⟩
      have hfind : findOneBy s b = some pb := hpbid ▸ findOneBy_mem hnd hpb
      have hcl := hclosed b hbV (Finset.not_mem_empty b) pb hfind
      rcases hc with ⟨pc, hpc, hpcid⟩
      have hc0 : c ≠ 0 := by
        have := hpos pc hpc
        omega
      rcases hpar with hfa | hmo
      · exact hcl.2.2.1 c hfa hc0
      · exact hcl.2.2.2 c hmo hc0
  rcases hlast with ⟨q, hq, hqid, hqpar⟩
  have hzV : z ∈ (wcacAux s target [start] ∅).2 :=
    chainInV z hchain ⟨q, hq, hqid⟩
  have hfindz : findOneBy s z = some q := hqid ▸ findOneBy_mem hnd hq
  have hcl := hclosed z hzV (Finset.not_mem_empty z) q hfindz
  rcases hqpar with hfa | hmo
  · exact hcl.1 hfa
  · exact hcl.2.1 hmo

/-- The form used by the mutation proofs: a non-trivial old walk from
`k` back to `pid` means the guard `wouldCreateAncestryCycle s pid k`
fires. -/
theorem wouldCycle_of_reaches {s : Store} (hnd : (s.map Person.id).Nodup)
    (hpos : ∀ p ∈ s, 1 ≤ p.id) {k pid : Nat} (hne : k ≠ pid)
    (hreach : Relation.ReflTransGen (parentEdge s) k pid) :
    wouldCreateAncestryCycle s pid k = true := by
  rcases (Relation.ReflTransGen.cases_tail hreach) with heq | ⟨z, hkz, hzpid⟩
  · exact absurd heq.symm hne
  · have hk0 : k ≠ 0 := by
      rcases Relation.ReflTransGen.cases_head hkz with rfl | ⟨c, hkc, _⟩
      · rcases hzpid with ⟨p, hp, hpid, _⟩
        have := hpos p hp
        omega
      · rcases hkc with ⟨p, hp, hpid, _⟩
        have := hpos p hp
        omega
    exact wouldCycle_of_chain hnd hpos hk0 hkz hzpid

/-! ### Success inversion of the operations -/

theorem exc_bind_ok {α β : Type} {e : Except PError α}
    {f : α → Except PError β} {b : β} :
    (e >>= f) = .ok b ↔ ∃ a, e = .ok a ∧ f a = .ok b := by
  cases e <;> simp [Bind.bind, Except.bind]

theorem exc_pure_ok {α : Type} {a b : α} :
    (pure a : Except PError α) = .ok b ↔ a = b := by
  simp [pure, Except.pure]

theorem exc_map_ok {α β : Type} {e : Except PError α} {g : α → β} {b : β} :
    e.map g = .ok b ↔ ∃ a, e = .ok a ∧ b = g a := by
  cases e <;> simp [Except.map, eq_comm]

/-- `validateNotOrphan` either keeps the dto or promotes it in an empty
store; a kept dto with no truthy parent, no children and no progenitor
flag forces the empty store (otherwise the guard errors). -/
theorem validateNotOrphan_ok {s : Store} {dto0 dto : CreatePersonDto}
    (h : validateNotOrphan s dto0 = .ok dto) :
    dto = dto0 ∨
      (dto = { dto0 with progenitor := some true } ∧ s = [] ∧
        dto0.progenitor ≠ some true ∧ dtoHasParent dto0 = false ∧
        dtoHasChildren dto0 = false) := by
  unfold validateNotOrphan at h
  split at h
  · left; injection h with h; exact h.symm
  · split at h
    · left; injection h with h; exact h.symm
    · split at h
      · right
        injection h with h
        rename_i hcon hprog hlen
        refine ⟨h.symm, by simpa using hlen, ?_, ?_, ?_⟩
        · intro he
          simp [he] at hprog
        · cases hp : dtoHasParent dto0
          · rfl
          · simp [hp] at hcon
        · cases hc : dtoHasChildren dto0
          · rfl
          · simp [hc] at hcon
      · cases h

/-- A truthy father id that passed `fatherRoleCheck` resolves to a
male row. -/
theorem fatherRoleCheck_ok {s : Store} {f : Option Nat}
    (h : fatherRoleCheck s f = .ok ()) (ht : truthyId f = true) :
    ∃ p, findOneBy s (f.getD 0) = some p ∧ p.gender = Gender.male := by
  unfold fatherRoleCheck at h
  rw [if_pos ht] at h
  cases hf : findOneBy s (f.getD 0) with
  | none => rw [hf] at h; cases h
  | some p =>
    rw [hf] at h
    refine ⟨p, rfl, ?_⟩
    dsimp only at h
    split at h
    · cases h
    · rename_i hcond
      simpa using hcond

/-- A truthy mother id that passed `motherRoleCheck` resolves to a
female row. -/
theorem motherRoleCheck_ok {s : Store} {m : Option Nat}
    (h : motherRoleCheck s m = .ok ()) (ht : truthyId m = true) :
    ∃ p, findOneBy s (m.getD 0) = some p ∧ p.gender = Gender.female := by
  unfold motherRoleCheck at h
  rw [if_pos ht] at h
  cases hm : findOneBy s (m.getD 0) with
  | none => rw [hm] at h; cases h
  | some p =>
    rw [hm] at h
    refine ⟨p, rfl, ?_⟩
    dsimp only at h
    split at h
    · cases h
    · rename_i hcond
      simpa using hcond

theorem validateParents_ok {s : Store} {f m : Option Nat}
    (h : validateParents s f m = .ok ()) :
    fatherRoleCheck s f = .ok () ∧ motherRoleCheck s m = .ok () := by
  unfold validateParents at h
  rw [exc_bind_ok] at h
  obtain ⟨u, h1, h2⟩ := h
  cases u
  exact ⟨h1, h2⟩

/-- A truthy father id that passed `validateParents` resolves to a male
row. -/
theorem validateParents_father {s : Store} {f m : Option Nat}
    (h : validateParents s f m = .ok ()) (ht : truthyId f = true) :
    ∃ p, findOneBy s (f.getD 0) = some p ∧ p.gender = Gender.male :=
  fatherRoleCheck_ok (validateParents_ok h).1 ht

/-- A truthy mother id that passed `validateParents` resolves to a
female row. -/
theorem validateParents_mother {s : Store} {f m : Option Nat}
    (h : validateParents s f m = .ok ()) (ht : truthyId m = true) :
    ∃ p, findOneBy s (m.getD 0) = some p ∧ p.gender = Gender.female :=
  motherRoleCheck_ok (validateParents_ok h).2 ht

/-- The children returned by `validateChildren` are rows of the store
listed in `childrenIds`. -/
theorem validateChildren_ok_sub {s : Store} {cids : Option (List Nat)}
    {g : Option Gender} {bd dd : Option String} {ch : List Person}
    (h : validateChildren s cids g bd dd = .ok ch) :
    ∀ c ∈ ch, c ∈ s ∧ ∃ ids, cids = some ids ∧ c.id ∈ ids := by
  unfold validateChildren at h
  cases cids with
  | none =>
    injection h with h
    subst h
    intro c hc
    cases hc
  | some ids =>
    intro c hc
    dsimp only at h
    by_cases hlen : (ids.length == 0) = true
    · rw [if_pos hlen] at h
      injection h with h
      subst h
      cases hc
    · rw [if_neg hlen] at h
      cases g with
      | none => cases h
      | some gg =>
        dsimp only at h
        by_cases hcnt :
            (((s.filter (fun p => ids.contains p.id)).length != ids.length)) = true
        · rw [if_pos hcnt] at h
          cases h
        · rw [if_neg hcnt] at h
          cases hfind : (s.filter (fun p => ids.contains p.id)).find?
              (hasRoleParent gg) with
          | some cwp => rw [hfind] at h; cases h
          | none =>
            rw [hfind] at h
            rw [exc_map_ok] at h
            obtain ⟨u, _, hch⟩ := h
            subst hch
            have := List.mem_filter.mp hc
            refine ⟨this.1, ids, rfl, ?_⟩
            simpa using this.2

theorem create_ok_inv {s : Store} {dto0 : CreatePersonDto} {s' : Store}
    {p : Person} (h : create s dto0 = .ok (s', p)) :
    ∃ dto ch, validateNotOrphan s dto0 = .ok dto ∧
      validateParents s dto.fatherId dto.motherId = .ok () ∧
      validateParentDates s dto.birthDate dto.fatherId dto.motherId = .ok () ∧
      validateChildren s dto.childrenIds (some dto.gender) dto.birthDate
        dto.deathDate = .ok ch ∧
      p = mkCreatePerson s dto ∧
      s' = (if 0 < ch.length then linkInternal (s ++ [p]) p ch
            else s ++ [p]) := by
  unfold create at h
  rw [exc_bind_ok] at h
  obtain ⟨dto, h1, h⟩ := h
  rw [exc_bind_ok] at h
  obtain ⟨u, h2, h⟩ := h
  cases u
  rw [exc_bind_ok] at h
  obtain ⟨u, h3, h⟩ := h
  cases u
  rw [exc_bind_ok] at h
  obtain ⟨ch, h4, h⟩ := h
  rw [exc_pure_ok, Prod.ext_iff] at h
  obtain ⟨hs, hp⟩ := h
  dsimp at hs hp
  refine ⟨dto, ch, h1, h2, h3, h4, hp.symm, ?_⟩
  rw [← hs, hp]

theorem updatePerson_ok_inv {s : Store} {pid : Nat} {dto : UpdatePersonDto}
    {s' : Store} {p' : Person} (h : updatePerson s pid dto = .ok (s', p')) :
    ∃ person, findOneBy s pid = some person ∧
      updParentsStage s dto = .ok () ∧
      updDatesStage s person dto = .ok () ∧
      updSelfStage pid dto = .ok () ∧
      updCycleStage s person.id dto.fatherId = .ok () ∧
      updCycleStage s person.id dto.motherId = .ok () ∧
      p' = applyUpdate person dto ∧
      s' = s.map (fun q =>
        if q.id == person.id then applyUpdate person dto else q) := by
  unfold updatePerson at h
  cases hfind : findOneBy s pid with
  | none =>
    rw [hfind] at h
    simp [Bind.bind, Except.bind, throw, throwThe, MonadExceptOf.throw] at h
  | some person =>
    rw [hfind] at h
    rw [exc_bind_ok] at h
    obtain ⟨q, hq, h⟩ := h
    rw [exc_pure_ok] at hq
    subst hq
    rw [exc_bind_ok] at h
    obtain ⟨u, h2, h⟩ := h
    cases u
    rw [exc_bind_ok] at h
    obtain ⟨u, h3, h⟩ := h
    cases u
    rw [exc_bind_ok] at h
    obtain ⟨u, h4, h⟩ := h
    cases u
    rw [exc_bind_ok] at h
    obtain ⟨u, h5, h⟩ := h
    cases u
    rw [exc_bind_ok] at h
    obtain ⟨u, h6, h⟩ := h
    cases u
    rw [exc_pure_ok, Prod.ext_iff] at h
    obtain ⟨hs, hp⟩ := h
    dsimp at hs hp
    exact ⟨person, rfl, h2, h3, h4, h5, h6, hp.symm, by rw [← hs, hp]⟩

theorem linkChildrenToParent_ok_inv {s : Store} {parentId : Nat}
    {childrenIds : List Nat} {role : PRole} {s' : Store} {n : Nat}
    (h : linkChildrenToParent s parentId childrenIds role = .ok (s', n)) :
    ∃ parent ch, findOneBy s parentId = some parent ∧
      linkBasicChecks parentId childrenIds = .ok () ∧
      checkChildCycles s parentId childrenIds = .ok () ∧
      linkGenderCheck parentId parent role = .ok () ∧
      validateChildren s (some childrenIds) (some parent.gender)
        parent.birthDate parent.deathDate = .ok ch ∧
      s' = linkInternal s parent ch := by
  unfold linkChildrenToParent at h
  cases hfind : findOneBy s parentId with
  | none =>
    rw [hfind] at h
    simp [Bind.bind, Except.bind, throw, throwThe, MonadExceptOf.throw] at h
  | some parent =>
    rw [hfind] at h
    rw [exc_bind_ok] at h
    obtain ⟨q, hq, h⟩ := h
    rw [exc_pure_ok] at hq
    subst hq
    rw [exc_bind_ok] at h
    obtain ⟨u, h2, h⟩ := h
    cases u
    rw [exc_bind_ok] at h
    obtain ⟨u, h3, h⟩ := h
    cases u
    rw [exc_bind_ok] at h
    obtain ⟨u, h4, h⟩ := h
    cases u
    rw [exc_bind_ok] at h
    obtain ⟨ch, h5, h⟩ := h
    rw [exc_pure_ok, Prod.ext_iff] at h
    obtain ⟨hs, _⟩ := h
    exact ⟨parent, ch, rfl, h2, h3, h4, h5, hs.symm⟩

theorem promoteAncestor_ok_inv {s : Store} {dto : PromoteAncestorDto}
    {tx : TxFail} {s' : Store} {p : Person}
    (h : promoteAncestor s dto tx = .ok (s', p)) :
    ∃ cp, findProgenitor s = some cp ∧
      cp.id = dto.currentProgenitorId ∧
      promoteGenderCheck dto = .ok () ∧
      tx.failSave = false ∧ tx.failUpdate = false ∧ tx.failCommit = false ∧
      p = mkAncestor s dto ∧
      s' = promotedStore s dto := by
  unfold promoteAncestor at h
  cases hfind : findProgenitor s with
  | none =>
    rw [hfind] at h
    simp [Bind.bind, Except.bind, throw, throwThe, MonadExceptOf.throw] at h
  | some cp =>
    rw [hfind] at h
    rw [exc_bind_ok] at h
    obtain ⟨q, hq, h⟩ := h
    rw [exc_pure_ok] at hq
    subst hq
    rw [exc_bind_ok] at h
    obtain ⟨u, h2, h⟩ := h
    cases u
    rw [exc_bind_ok] at h
    obtain ⟨u, h3, h⟩ := h
    cases u
    rw [exc_bind_ok] at h
    obtain ⟨u, h4, h⟩ := h
    cases u
    rw [exc_bind_ok] at h
    obtain ⟨u, h5, h⟩ := h
    cases u
    rw [exc_bind_ok] at h
    obtain ⟨u, h6, h⟩ := h
    cases u
    rw [exc_pure_ok, Prod.ext_iff] at h
    obtain ⟨hs, hp⟩ := h
    dsimp at hs hp
    have hid : cp.id = dto.currentProgenitorId := by
      unfold promoteIdentityCheck at h2
      by_cases hc : (cp.id != dto.currentProgenitorId) = true
      · rw [if_pos hc] at h2; cases h2
      · simpa using hc
    have hts : tx.failSave = false := by
      unfold txGuard at h4
      by_cases hc : tx.failSave = true
      · rw [if_pos hc] at h4; cases h4
      · simpa using hc
    have htu : tx.failUpdate = false := by
      unfold txGuard at h5
      by_cases hc : tx.failUpdate = true
      · rw [if_pos hc] at h5; cases h5
      · simpa using hc
    have htc : tx.failCommit = false := by
      unfold txGuard at h6
      by_cases hc : tx.failCommit = true
      · rw [if_pos hc] at h6; cases h6
      · simpa using hc
    exact ⟨cp, rfl, hid, h3, hts, htu, htc, hp.symm, hs.symm⟩

theorem removePerson_ok_inv {s : Store} {pid : Nat} {s' : Store}
    {p : Person} (h : removePerson s pid = .ok (s', p)) :
    findOneBy s pid = some p ∧
      removeDependentsCheck s p = .ok () ∧
      s' = s.filter (fun q => q.id != p.id) := by
  unfold removePerson at h
  cases hfind : findOneBy s pid with
  | none =>
    rw [hfind] at h
    simp [Bind.bind, Except.bind, throw, throwThe, MonadExceptOf.throw] at h
  | some person =>
    rw [hfind] at h
    rw [exc_bind_ok] at h
    obtain ⟨q, hq, h⟩ := h
    rw [exc_pure_ok] at hq
    subst hq
    rw [exc_bind_ok] at h
    obtain ⟨u, h2, h⟩ := h
    cases u
    rw [exc_pure_ok, Prod.ext_iff] at h
    obtain ⟨hs, hp⟩ := h
    dsimp at hs hp
    subst hp
    exact ⟨rfl, h2, hs.symm⟩

/-! ### Store shape lemmas -/

theorem parentEdge_append_inv {s : Store} {n : Person} {x y : Nat}
    (h : parentEdge (s ++ [n]) x y) :
    parentEdge s x y ∨
      (x = n.id ∧ (n.fatherId = some y ∨ n.motherId = some y)) := by
  rcases h with ⟨p, hp, hid, hpar⟩
  rcases List.mem_append.mp hp with hps | hpn
  · exact Or.inl ⟨p, hps, hid, hpar⟩
  · right
    have : p = n := by simpa using hpn
    subst this
    exact ⟨hid.symm, hpar⟩

theorem parentEdge_append_of {s : Store} {n : Person} {x y : Nat}
    (h : parentEdge s x y) : parentEdge (s ++ [n]) x y := by
  rcases h with ⟨p, hp, hid, hpar⟩
  exact ⟨p, List.mem_append_left _ hp, hid, hpar⟩

/-- Edge inversion for a conditional row rewrite that preserves ids. -/
theorem parentEdge_mapIf_inv {s : Store} {cond : Person → Bool}
    {f : Person → Person} {x y : Nat}
    (hid : ∀ q, cond q = true → (f q).id = q.id)
    (h : parentEdge (s.map (fun q => if cond q then f q else q)) x y) :
    ∃ q ∈ s, q.id = x ∧
      ((cond q = true ∧
          ((f q).fatherId = some y ∨ (f q).motherId = some y)) ∨
       (cond q = false ∧ (q.fatherId = some y ∨ q.motherId = some y))) := by
  rcases h with ⟨r, hr, hrid, hpar⟩
  rcases List.mem_map.mp hr with ⟨q, hq, hfq⟩
  by_cases hc : cond q = true
  · rw [if_pos hc] at hfq
    subst hfq
    exact ⟨q, hq, by rw [← hid q hc, hrid], Or.inl ⟨hc, hpar⟩⟩
  · rw [if_neg hc] at hfq
    subst hfq
    exact ⟨q, hq, hrid, Or.inr ⟨by simpa using hc, hpar⟩⟩

theorem parentEdge_filter_inv {s : Store} {pred : Person → Bool} {x y : Nat}
    (h : parentEdge (s.filter pred) x y) : parentEdge s x y := by
  rcases h with ⟨p, hp, hid, hpar⟩
  exact ⟨p, (List.mem_filter.mp hp).1, hid, hpar⟩

/-- Ids of a conditional, id-preserving row rewrite. -/
theorem ids_mapIf {s : Store} {cond : Person → Bool} {f : Person → Person}
    (hid : ∀ q, cond q = true → (f q).id = q.id) :
    (s.map (fun q => if cond q then f q else q)).map Person.id =
      s.map Person.id := by
  rw [List.map_map]
  apply List.map_congr_left
  intro q _
  by_cases hc : cond q = true
  · simp [hc, hid q hc]
  · simp [hc]

theorem exists_id_of_ids_eq {s1 s2 : Store}
    (hids : s2.map Person.id = s1.map Person.id) {i : Nat}
    (h : ∃ q ∈ s1, q.id = i) : ∃ q ∈ s2, q.id = i := by
  rcases h with ⟨q, hq, hqid⟩
  have : i ∈ s2.map Person.id := by
    rw [hids]
    exact hqid ▸ List.mem_map_of_mem Person.id hq
  rcases List.mem_map.mp this with ⟨r, hr, hrid⟩
  exact ⟨r, hr, hrid⟩

theorem pos_of_ids_eq {s1 s2 : Store}
    (hids : s2.map Person.id = s1.map Person.id)
    (hpos : ∀ p ∈ s1, 1 ≤ p.id) : ∀ p ∈ s2, 1 ≤ p.id := by
  intro p hp
  have : p.id ∈ s1.map Person.id := by
    rw [← hids]
    exact List.mem_map_of_mem Person.id hp
  rcases List.mem_map.mp this with ⟨r, hr, hrid⟩
  exact hrid ▸ hpos r hr

theorem nodup_of_ids_eq {s1 s2 : Store}
    (hids : s2.map Person.id = s1.map Person.id)
    (hnd : (s1.map Person.id).Nodup) : (s2.map Person.id).Nodup := by
  rw [hids]; exact hnd

theorem findProgenitor_some {s : Store} {cp : Person}
    (h : findProgenitor s = some cp) : cp ∈ s ∧ cp.progenitor = true :=
  ⟨List.mem_of_find?_eq_some h, List.find?_some h⟩

theorem nodup_append_fresh {s : Store} {n : Person}
    (hnd : (s.map Person.id).Nodup) (hfresh : ∀ p ∈ s, p.id ≠ n.id) :
    ((s ++ [n]).map Person.id).Nodup := by
  rw [List.map_append]
  rw [List.nodup_append]
  refine ⟨hnd, by simp, ?_⟩
  intro a ha
  simp only [List.map_cons, List.map_nil, List.mem_cons,
    List.not_mem_nil, or_false]
  rcases List.mem_map.mp ha with ⟨q, hq, hqid⟩
  intro he
  exact hfresh q hq (by rw [hqid, he])

/-- The progenitor count of an id-preserving, flag-preserving rewrite. -/
theorem progCount_mapIf_flagEq {s : Store} {cond : Person → Bool}
    {f : Person → Person}
    (hflag : ∀ q ∈ s, (if cond q then f q else q).progenitor = q.progenitor) :
    progCount (s.map (fun q => if cond q then f q else q)) = progCount s := by
  unfold progCount
  rw [List.countP_map]
  apply List.countP_congr
  intro q hq
  simpa using congrArg (fun b => b = true) (hflag q hq)

theorem progCount_le_mapIf {s : Store} {cond : Person → Bool}
    {f : Person → Person}
    (hflag : ∀ q ∈ s, (if cond q then f q else q).progenitor = true →
      q.progenitor = true) :
    progCount (s.map (fun q => if cond q then f q else q)) ≤ progCount s := by
  unfold progCount
  rw [List.countP_map]
  apply List.countP_mono_left
  intro q hq h
  exact hflag q hq (by simpa using h)

theorem progCount_append (s : Store) (n : Person) :
    progCount (s ++ [n]) = progCount s + (if n.progenitor then 1 else 0) := by
  unfold progCount
  rw [List.countP_append]
  cases hn : n.progenitor <;>
    simp [List.countP_cons, hn]

/-! ### Well-formedness preservation -/

theorem wf_append {s : Store} {n : Person} (hwf : Wf s)
    (hnid : n.id = nextId s)
    (hf : ∀ fv, n.fatherId = some fv → fv = 0 ∨ ∃ r ∈ s, r.id = fv)
    (hm : ∀ mv, n.motherId = some mv → mv = 0 ∨ ∃ r ∈ s, r.id = mv) :
    Wf (s ++ [n]) := by
  obtain ⟨hnd, hpos, hrefs⟩ := hwf
  refine ⟨nodup_append_fresh hnd (fun q hq => hnid ▸ nextId_not_mem hq),
    ?_, ?_⟩
  · intro q hq
    rcases List.mem_append.mp hq with hqs | hqn
    · exact hpos q hqs
    · have : q = n := by simpa using hqn
      subst this
      rw [hnid]
      exact nextId_pos s
  · intro q hq
    rcases List.mem_append.mp hq with hqs | hqn
    · obtain ⟨h1, h2⟩ := hrefs q hqs
      constructor
      · intro fv hfv
        rcases h1 fv hfv with h0 | ⟨r, hr, hrid⟩
        · exact Or.inl h0
        · exact Or.inr ⟨r, List.mem_append_left _ hr, hrid⟩
      · intro mv hmv
        rcases h2 mv hmv with h0 | ⟨r, hr, hrid⟩
        · exact Or.inl h0
        · exact Or.inr ⟨r, List.mem_append_left _ hr, hrid⟩
    · have : q = n := by simpa using hqn
      subst this
      constructor
      · intro fv hfv
        rcases hf fv hfv with h0 | ⟨r, hr, hrid⟩
        · exact Or.inl h0
        · exact Or.inr ⟨r, List.mem_append_left _ hr, hrid⟩
      · intro mv hmv
        rcases hm mv hmv with h0 | ⟨r, hr, hrid⟩
        · exact Or.inl h0
        · exact Or.inr ⟨r, List.mem_append_left _ hr, hrid⟩

theorem wf_mapIf {s : Store} {cond : Person → Bool} {f : Person → Person}
    (hwf : Wf s)
    (hid : ∀ q, cond q = true → (f q).id = q.id)
    (hnew : ∀ q ∈ s, cond q = true →
      (∀ fv, (f q).fatherId = some fv → fv = 0 ∨ ∃ r ∈ s, r.id = fv) ∧
      (∀ mv, (f q).motherId = some mv → mv = 0 ∨ ∃ r ∈ s, r.id = mv)) :
    Wf (s.map (fun q => if cond q then f q else q)) := by
  obtain ⟨hnd, hpos, hrefs⟩ := hwf
  have hids := ids_mapIf (s := s) hid
  refine ⟨nodup_of_ids_eq hids hnd, pos_of_ids_eq hids hpos, ?_⟩
  intro r hr
  rcases List.mem_map.mp hr with ⟨q, hq, him⟩
  by_cases hc : cond q = true
  · rw [if_pos hc] at him
    subst him
    obtain ⟨h1, h2⟩ := hnew q hq hc
    constructor
    · intro fv hfv
      rcases h1 fv hfv with h0 | hex
      · exact Or.inl h0
      · exact Or.inr (exists_id_of_ids_eq hids hex)
    · intro mv hmv
      rcases h2 mv hmv with h0 | hex
      · exact Or.inl h0
      · exact Or.inr (exists_id_of_ids_eq hids hex)
  · rw [if_neg hc] at him
    subst him
    obtain ⟨h1, h2⟩ := hrefs q hq
    constructor
    · intro fv hfv
      rcases h1 fv hfv with h0 | hex
      · exact Or.inl h0
      · exact Or.inr (exists_id_of_ids_eq hids hex)
    · intro mv hmv
      rcases h2 mv hmv with h0 | hex
      · exact Or.inl h0
      · exact Or.inr (exists_id_of_ids_eq hids hex)

theorem truthyId_joinNN (x : Option (Option Nat)) :
    truthyId (joinNN x) = truthyNN x := by
  rcases x with _ | (_ | n) <;> rfl

/-- A truthy father-id payload on a successful `updParentsStage`
resolves. -/
theorem updParentsStage_father {s : Store} {dto : UpdatePersonDto}
    (h : updParentsStage s dto = .ok ()) (ht : truthyNN dto.fatherId = true) :
    ∃ q, findOneBy s ((joinNN dto.fatherId).getD 0) = some q ∧
      q.gender = Gender.male := by
  unfold updParentsStage at h
  rw [if_pos (by rw [ht]; rfl)] at h
  exact validateParents_father h (by rw [truthyId_joinNN, ht])

theorem updParentsStage_mother {s : Store} {dto : UpdatePersonDto}
    (h : updParentsStage s dto = .ok ()) (ht : truthyNN dto.motherId = true) :
    ∃ q, findOneBy s ((joinNN dto.motherId).getD 0) = some q ∧
      q.gender = Gender.female := by
  unfold updParentsStage at h
  rw [if_pos (by rw [ht]; simp)] at h
  exact validateParents_mother h (by rw [truthyId_joinNN, ht])

theorem wf_create {s : Store} {dto0 : CreatePersonDto} {s' : Store}
    {p : Person} (hwf : Wf s) (h : create s dto0 = .ok (s', p)) : Wf s' := by
  obtain ⟨dto, ch, _, h2, _, h4, hp, hs⟩ := create_ok_inv h
  subst hp
  have hrefF : ∀ fv, (mkCreatePerson s dto).fatherId = some fv →
      fv = 0 ∨ ∃ r ∈ s, r.id = fv := by
    intro fv hfv
    by_cases h0 : fv = 0
    · exact Or.inl h0
    · right
      have ht : truthyId dto.fatherId = true := by
        have : dto.fatherId = some fv := hfv
        simp [truthyId, this, h0]
      obtain ⟨q, hfind, _⟩ := validateParents_father h2 ht
      obtain ⟨hqmem, hqid⟩ := findOneBy_eq_some hfind
      refine ⟨q, hqmem, ?_⟩
      have : dto.fatherId = some fv := hfv
      rw [hqid, this]
      rfl
  have hrefM : ∀ mv, (mkCreatePerson s dto).motherId = some mv →
      mv = 0 ∨ ∃ r ∈ s, r.id = mv := by
    intro mv hmv
    by_cases h0 : mv = 0
    · exact Or.inl h0
    · right
      have ht : truthyId dto.motherId = true := by
        have : dto.motherId = some mv := hmv
        simp [truthyId, this, h0]
      obtain ⟨q, hfind, _⟩ := validateParents_mother h2 ht
      obtain ⟨hqmem, hqid⟩ := findOneBy_eq_some hfind
      refine ⟨q, hqmem, ?_⟩
      have : dto.motherId = some mv := hmv
      rw [hqid, this]
      rfl
  have hwf1 : Wf (s ++ [mkCreatePerson s dto]) :=
    wf_append hwf rfl hrefF hrefM
  subst hs
  by_cases hch : 0 < ch.length
  · rw [if_pos hch]
    unfold linkInternal
    apply wf_mapIf hwf1
    · intro q hc
      by_cases hg : (mkCreatePerson s dto).gender == Gender.male
      · rw [if_pos hg]
      · rw [if_neg hg]
    · intro q hq hc
      have hmkmem : ∃ r ∈ s ++ [mkCreatePerson s dto],
          r.id = (mkCreatePerson s dto).id :=
        ⟨mkCreatePerson s dto, List.mem_append_right _ (by simp), rfl⟩
      obtain ⟨h1, h2'⟩ := (hwf1.2.2) q hq
      by_cases hg : (mkCreatePerson s dto).gender == Gender.male
      · rw [if_pos hg]
        exact ⟨fun fv hfv => Or.inr (by
            have : fv = (mkCreatePerson s dto).id := by
              simpa using hfv.symm
            exact this ▸ hmkmem),
          fun mv hmv => h2' mv hmv⟩
      · rw [if_neg hg]
        exact ⟨fun fv hfv => h1 fv hfv,
          fun mv hmv => Or.inr (by
            have : mv = (mkCreatePerson s dto).id := by
              simpa using hmv.symm
            exact this ▸ hmkmem)⟩
  · rw [if_neg hch]
    exact hwf1

theorem wf_update {s : Store} {pid : Nat} {dto : UpdatePersonDto}
    {s' : Store} {p' : Person} (hwf : Wf s)
    (h : updatePerson s pid dto = .ok (s', p')) : Wf s' := by
  obtain ⟨person, hfind, h2, _, _, _, _, _, hs⟩ := updatePerson_ok_inv h
  obtain ⟨hmem, hpid⟩ := findOneBy_eq_some hfind
  subst hs
  apply wf_mapIf (f := fun _ => applyUpdate person dto) hwf
  · intro q hc
    have : q.id = person.id := by simpa using hc
    rw [this]
    rfl
  · intro q hq hc
    constructor
    · intro fv hfv
      cases hdf : dto.fatherId with
      | none =>
        have : person.fatherId = some fv := by
          simpa [applyUpdate, hdf] using hfv
        exact (hwf.2.2 person hmem).1 fv this
      | some v =>
        have hv : v = some fv := by
          simpa [applyUpdate, hdf] using hfv
        subst hv
        by_cases h0 : fv = 0
        · exact Or.inl h0
        · right
          have ht : truthyNN dto.fatherId = true := by
            simp [truthyNN, hdf, h0]
          obtain ⟨q', hfind', _⟩ := updParentsStage_father h2 ht
          obtain ⟨hq'm, hq'id⟩ := findOneBy_eq_some hfind'
          refine ⟨q', hq'm, ?_⟩
          rw [hq'id, hdf]
          rfl
    · intro mv hmv
      cases hdm : dto.motherId with
      | none =>
        have : person.motherId = some mv := by
          simpa [applyUpdate, hdm] using hmv
        exact (hwf.2.2 person hmem).2 mv this
      | some v =>
        have hv : v = some mv := by
          simpa [applyUpdate, hdm] using hmv
        subst hv
        by_cases h0 : mv = 0
        · exact Or.inl h0
        · right
          have ht : truthyNN dto.motherId = true := by
            simp [truthyNN, hdm, h0]
          obtain ⟨q', hfind', _⟩ := updParentsStage_mother h2 ht
          obtain ⟨hq'm, hq'id⟩ := findOneBy_eq_some hfind'
          refine ⟨q', hq'm, ?_⟩
          rw [hq'id, hdm]
          rfl

theorem wf_link {s : Store} {parentId : Nat} {cids : List Nat} {role : PRole}
    {s' : Store} {n : Nat} (hwf : Wf s)
    (h : linkChildrenToParent s parentId cids role = .ok (s', n)) : Wf s' := by
  obtain ⟨parent, ch, hfind, _, _, _, _, hs⟩ := linkChildrenToParent_ok_inv h
  obtain ⟨hmem, hpid⟩ := findOneBy_eq_some hfind
  subst hs
  unfold linkInternal
  apply wf_mapIf hwf
  · intro q hc
    by_cases hg : parent.gender == Gender.male
    · rw [if_pos hg]
    · rw [if_neg hg]
  · intro q hq hc
    obtain ⟨h1, h2'⟩ := hwf.2.2 q hq
    by_cases hg : parent.gender == Gender.male
    · rw [if_pos hg]
      refine ⟨fun fv hfv => Or.inr ⟨parent, hmem, ?_⟩, fun mv hmv => h2' mv hmv⟩
      simpa [eq_comm] using hfv.symm
    · rw [if_neg hg]
      refine ⟨fun fv hfv => h1 fv hfv, fun mv hmv => Or.inr ⟨parent, hmem, ?_⟩⟩
      simpa [eq_comm] using hmv.symm

theorem wf_promote {s : Store} {dto : PromoteAncestorDto} {tx : TxFail}
    {s' : Store} {p : Person} (hwf : Wf s)
    (h : promoteAncestor s dto tx = .ok (s', p)) : Wf s' := by
  obtain ⟨cp, hfind, hcpid, _, _, _, _, _, hs⟩ := promoteAncestor_ok_inv h
  subst hs
  have hwf1 : Wf (s ++ [mkAncestor s dto]) :=
    wf_append hwf rfl (fun fv hfv => by cases hfv) (fun mv hmv => by cases hmv)
  unfold promotedStore
  apply wf_mapIf hwf1
  · intro q hc
    unfold demote
    by_cases hr : dto.relationship == PRole.father
    · rw [if_pos hr]
    · rw [if_neg hr]
  · intro q hq hc
    obtain ⟨h1, h2'⟩ := hwf1.2.2 q hq
    have hmk : ∃ r ∈ s ++ [mkAncestor s dto], r.id = (mkAncestor s dto).id :=
      ⟨mkAncestor s dto, List.mem_append_right _ (by simp), rfl⟩
    unfold demote
    by_cases hr : dto.relationship == PRole.father
    · rw [if_pos hr]
      refine ⟨fun fv hfv => Or.inr ?_, fun mv hmv => h2' mv hmv⟩
      have : fv = (mkAncestor s dto).id := by simpa using hfv.symm
      exact this ▸ hmk
    · rw [if_neg hr]
      refine ⟨fun fv hfv => h1 fv hfv, fun mv hmv => Or.inr ?_⟩
      have : mv = (mkAncestor s dto).id := by simpa using hmv.symm
      exact this ▸ hmk

/-- A successful dependents check means no row references the person. -/
theorem removeDependentsCheck_ok {s : Store} {p : Person}
    (h : removeDependentsCheck s p = .ok ()) :
    ∀ c ∈ s, c.fatherId ≠ some p.id ∧ c.motherId ≠ some p.id := by
  unfold removeDependentsCheck at h
  by_cases hlen : 0 < (s.filter (fun c =>
      c.fatherId == some p.id || c.motherId == some p.id)).length
  · rw [if_pos hlen] at h; cases h
  · intro c hc
    have hnil : (s.filter (fun c =>
        c.fatherId == some p.id || c.motherId == some p.id)) = [] := by
      cases he : (s.filter (fun c =>
          c.fatherId == some p.id || c.motherId == some p.id)) with
      | nil => rfl
      | cons a l => rw [he] at hlen; simp at hlen
    have := List.filter_eq_nil.mp hnil c hc
    constructor
    · intro hf
      simp [hf] at this
    · intro hm
      simp [hm] at this

theorem wf_remove {s : Store} {pid : Nat} {s' : Store} {p : Person}
    (hwf : Wf s) (h : removePerson s pid = .ok (s', p)) : Wf s' := by
  obtain ⟨hfind, hdep, hs⟩ := removePerson_ok_inv h
  obtain ⟨hmem, hpid⟩ := findOneBy_eq_some hfind
  subst hs
  obtain ⟨hnd, hpos, hrefs⟩ := hwf
  have hdeps := removeDependentsCheck_ok hdep
  refine ⟨?_, ?_, ?_⟩
  · have : ((s.filter (fun q => q.id != p.id)).map Person.id).Sublist
        (s.map Person.id) :=
      List.Sublist.map Person.id (List.filter_sublist s)
    exact List.Nodup.sublist this hnd
  · intro q hq
    exact hpos q (List.mem_of_mem_filter hq)
  · intro q hq
    have hqs : q ∈ s := List.mem_of_mem_filter hq
    obtain ⟨h1, h2'⟩ := hrefs q hqs
    constructor
    · intro fv hfv
      rcases h1 fv hfv with h0 | ⟨r, hr, hrid⟩
      · exact Or.inl h0
      · right
        refine ⟨r, List.mem_filter.mpr ⟨hr, ?_⟩, hrid⟩
        simp only [bne_iff_ne, ne_eq]
        intro he
        have : fv = p.id := by rw [← hrid, he]
        exact (hdeps q hqs).1 (this ▸ hfv)
    · intro mv hmv
      rcases h2' mv hmv with h0 | ⟨r, hr, hrid⟩
      · exact Or.inl h0
      · right
        refine ⟨r, List.mem_filter.mpr ⟨hr, ?_⟩, hrid⟩
        simp only [bne_iff_ne, ne_eq]
        intro he
        have : mv = p.id := by rw [← hrid, he]
        exact (hdeps q hqs).2 (this ▸ hmv)

/-! ### Single-progenitor preservation -/

theorem id_unique {s : Store} (hnd : (s.map Person.id).Nodup) {a b : Person}
    (ha : a ∈ s) (hb : b ∈ s) (hid : a.id = b.id) : a = b := by
  have h1 : findOneBy s a.id = some a := findOneBy_mem hnd ha
  have h2 : findOneBy s a.id = some b := hid ▸ findOneBy_mem hnd hb
  rw [h1] at h2
  injection h2

theorem progCount_linkInternal (s : Store) (parent : Person)
    (ch : List Person) :
    progCount (linkInternal s parent ch) = progCount s := by
  unfold linkInternal
  apply progCount_mapIf_flagEq
  intro q _
  by_cases hc : (ch.any (fun c => c.id == q.id)) = true
  · rw [if_pos hc]
    by_cases hg : parent.gender == Gender.male
    · rw [if_pos hg]
    · rw [if_neg hg]
  · rw [if_neg hc]

theorem progOk_create {s : Store} {dto0 : CreatePersonDto} {s' : Store}
    {p : Person} (hp : ProgOk s)
    (hguard : dto0.progenitor ≠ some true)
    (h : create s dto0 = .ok (s', p)) : ProgOk s' := by
  obtain ⟨dto, ch, h1, _, _, _, hpp, hs⟩ := create_ok_inv h
  subst hpp hs
  have hflag : progCount (if 0 < ch.length
      then linkInternal (s ++ [mkCreatePerson s dto]) (mkCreatePerson s dto) ch
      else s ++ [mkCreatePerson s dto]) =
      progCount (s ++ [mkCreatePerson s dto]) := by
    by_cases hch : 0 < ch.length
    · rw [if_pos hch, progCount_linkInternal]
    · rw [if_neg hch]
  rw [ProgOk, hflag, progCount_append]
  rcases validateNotOrphan_ok h1 with hkeep | ⟨hprom, hnil, _⟩
  · subst hkeep
    have : (mkCreatePerson s dto).progenitor = false := by
      unfold mkCreatePerson
      cases hpr : dto.progenitor with
      | none => rfl
      | some b =>
        cases b
        · rfl
        · exact absurd hpr hguard
    rw [this]
    simpa using hp
  · subst hnil
    cases hb : (mkCreatePerson [] dto).progenitor <;>
      simp [progCount, hb]

theorem updSelfStage_ok {pid : Nat} {dto : UpdatePersonDto}
    (h : updSelfStage pid dto = .ok ()) :
    dto.fatherId ≠ some (some pid) ∧ dto.motherId ≠ some (some pid) := by
  unfold updSelfStage at h
  by_cases hc : (dto.fatherId == some (some pid) ||
      dto.motherId == some (some pid)) = true
  · rw [if_pos hc] at h; cases h
  · constructor
    · intro he; exact hc (by simp [he])
    · intro he; exact hc (by simp [he])

theorem progOk_update {s : Store} {pid : Nat} {dto : UpdatePersonDto}
    {s' : Store} {p' : Person} (hnd : (s.map Person.id).Nodup)
    (hp : ProgOk s) (hguard : dto.progenitor ≠ some true)
    (h : updatePerson s pid dto = .ok (s', p')) : ProgOk s' := by
  obtain ⟨person, hfind, _, _, _, _, _, _, hs⟩ := updatePerson_ok_inv h
  obtain ⟨hmem, hpid⟩ := findOneBy_eq_some hfind
  subst hs
  refine le_trans (progCount_le_mapIf ?_) hp
  intro q hq hflag
  by_cases hc : (q.id == person.id) = true
  · rw [if_pos hc] at hflag
    have hqp : q = person := id_unique hnd hq hmem (by simpa using hc)
    subst hqp
    unfold applyUpdate at hflag
    cases hpr : dto.progenitor with
    | none => rw [hpr] at hflag; simpa using hflag
    | some b =>
      cases b
      · rw [hpr] at hflag; simp at hflag
      · exact absurd hpr hguard
  · rw [if_neg hc] at hflag
    exact hflag

theorem progOk_link {s : Store} {parentId : Nat} {cids : List Nat}
    {role : PRole} {s' : Store} {n : Nat} (hp : ProgOk s)
    (h : linkChildrenToParent s parentId cids role = .ok (s', n)) :
    ProgOk s' := by
  obtain ⟨parent, ch, _, _, _, _, _, hs⟩ := linkChildrenToParent_ok_inv h
  subst hs
  rw [ProgOk, progCount_linkInternal]
  exact hp

theorem progOk_promote {s : Store} {dto : PromoteAncestorDto} {tx : TxFail}
    {s' : Store} {p : Person} (hnd : (s.map Person.id).Nodup)
    (hp : ProgOk s) (h : promoteAncestor s dto tx = .ok (s', p)) :
    ProgOk s' := by
  obtain ⟨cp, hfind, hcpid, _, _, _, _, _, hs⟩ := promoteAncestor_ok_inv h
  obtain ⟨hcpm, hcprog⟩ := findProgenitor_some hfind
  subst hs
  unfold promotedStore ProgOk progCount
  rw [List.countP_map, List.countP_append]
  have hzero : List.countP
      ((fun p => p.progenitor) ∘ (fun q =>
        if q.id == dto.currentProgenitorId then
          demote dto (mkAncestor s dto).id q
        else q)) s = 0 := by
    rw [List.countP_eq_zero]
    intro q hq
    simp only [Function.comp_apply]
    by_cases hc : (q.id == dto.currentProgenitorId) = true
    · rw [if_pos hc]
      unfold demote
      by_cases hr : dto.relationship == PRole.father
      · rw [if_pos hr]; simp
      · rw [if_neg hr]; simp
    · rw [if_neg hc]
      intro hqprog
      have : q = cp := countP_le_one_unique hp hq hcpm hqprog hcprog
      subst this
      rw [hcpid] at hc
      simp at hc
  have hone : List.countP
      ((fun p => p.progenitor) ∘ (fun q =>
        if q.id == dto.currentProgenitorId then
          demote dto (mkAncestor s dto).id q
        else q)) [mkAncestor s dto] = 1 := by
    have hlt : cp.id < nextId s := id_lt_nextId hcpm
    have hne2 : nextId s ≠ dto.currentProgenitorId := by
      rw [← hcpid]
      omega
    simp [List.countP_cons, mkAncestor, hne2]
  rw [hzero, hone]

theorem progOk_remove {s : Store} {pid : Nat} {s' : Store} {p : Person}
    (hp : ProgOk s) (h : removePerson s pid = .ok (s', p)) : ProgOk s' := by
  obtain ⟨_, _, hs⟩ := removePerson_ok_inv h
  subst hs
  exact le_trans (List.Sublist.countP_le _ (List.filter_sublist s)) hp

/-! ### No-self-parent preservation -/

theorem linkBasicChecks_ok {parentId : Nat} {cids : List Nat}
    (h : linkBasicChecks parentId cids = .ok ()) :
    cids.length ≠ 0 ∧ cids.contains parentId = false := by
  unfold linkBasicChecks at h
  by_cases h1 : (cids.length == 0) = true
  · rw [if_pos h1] at h; cases h
  · rw [if_neg h1] at h
    by_cases h2 : cids.contains parentId = true
    · rw [if_pos h2] at h; cases h
    · exact ⟨by simpa using h1, by simpa using h2⟩

theorem nsp_create {s : Store} {dto0 : CreatePersonDto} {s' : Store}
    {p : Person} (hwf : Wf s) (hn : NoSelfParent s)
    (h : create s dto0 = .ok (s', p)) : NoSelfParent s' := by
  obtain ⟨dto, ch, _, h2, _, h4, hpp, hs⟩ := create_ok_inv h
  subst hpp hs
  have hchsub := validateChildren_ok_sub h4
  have hmkF : (mkCreatePerson s dto).fatherId ≠
      some (mkCreatePerson s dto).id := by
    intro he
    have hfv : dto.fatherId = some (nextId s) := he
    have ht : truthyId dto.fatherId = true := by
      have := nextId_pos s
      simp [truthyId, hfv]
      omega
    obtain ⟨q, hfind, _⟩ := validateParents_father h2 ht
    obtain ⟨hqm, hqid⟩ := findOneBy_eq_some hfind
    rw [hfv] at hqid
    exact nextId_not_mem hqm (by simpa using hqid)
  have hmkM : (mkCreatePerson s dto).motherId ≠
      some (mkCreatePerson s dto).id := by
    intro he
    have hmv : dto.motherId = some (nextId s) := he
    have ht : truthyId dto.motherId = true := by
      have := nextId_pos s
      simp [truthyId, hmv]
      omega
    obtain ⟨q, hfind, _⟩ := validateParents_mother h2 ht
    obtain ⟨hqm, hqid⟩ := findOneBy_eq_some hfind
    rw [hmv] at hqid
    exact nextId_not_mem hqm (by simpa using hqid)
  have hn1 : NoSelfParent (s ++ [mkCreatePerson s dto]) := by
    intro q hq
    rcases List.mem_append.mp hq with hqs | hqn
    · exact hn q hqs
    · have : q = mkCreatePerson s dto := by simpa using hqn
      subst this
      exact ⟨hmkF, hmkM⟩
  by_cases hch : 0 < ch.length
  · rw [if_pos hch]
    intro r hr
    unfold linkInternal at hr
    rcases List.mem_map.mp hr with ⟨q, hq, him⟩
    by_cases hc : (ch.any (fun c => c.id == q.id)) = true
    · rw [if_pos hc] at him
      have hqlt : q.id < nextId s := by
        rcases List.any_eq_true.mp hc with ⟨c, hcm, hcid⟩
        obtain ⟨hcs, _⟩ := hchsub c hcm
        have : c.id = q.id := by simpa using hcid
        exact this ▸ id_lt_nextId hcs
      have hne : some (nextId s) ≠ some q.id := by
        intro he
        injection he with he
        omega
      obtain ⟨hqF, hqM⟩ := hn1 q hq
      by_cases hg : ((mkCreatePerson s dto).gender == Gender.male) = true
      · rw [if_pos hg] at him
        subst him
        exact ⟨by simpa [mkCreatePerson] using hne, hqM⟩
      · rw [if_neg hg] at him
        subst him
        exact ⟨hqF, by simpa [mkCreatePerson] using hne⟩
    · rw [if_neg hc] at him
      subst him
      exact hn1 q hq
  · rw [if_neg hch]
    exact hn1

theorem nsp_update {s : Store} {pid : Nat} {dto : UpdatePersonDto}
    {s' : Store} {p' : Person} (hwf : Wf s) (hn : NoSelfParent s)
    (h : updatePerson s pid dto = .ok (s', p')) : NoSelfParent s' := by
  obtain ⟨person, hfind, _, _, h4, _, _, _, hs⟩ := updatePerson_ok_inv h
  obtain ⟨hmem, hpid⟩ := findOneBy_eq_some hfind
  obtain ⟨hsf, hsm⟩ := updSelfStage_ok h4
  subst hs
  intro r hr
  rcases List.mem_map.mp hr with ⟨q, hq, him⟩
  by_cases hc : (q.id == person.id) = true
  · rw [if_pos hc] at him
    subst him
    have hqp : q = person := id_unique hwf.1 hq hmem (by simpa using hc)
    subst hqp
    have hid' : (applyUpdate q dto).id = q.id := rfl
    rw [hid']
    constructor
    · cases hdf : dto.fatherId with
      | none =>
        have : (applyUpdate q dto).fatherId = q.fatherId := by
          simp [applyUpdate, hdf]
        rw [this]
        exact (hn q hq).1
      | some v =>
        have : (applyUpdate q dto).fatherId = v := by
          simp [applyUpdate, hdf]
        rw [this]
        intro he
        subst he
        rw [hpid] at hdf
        exact hsf hdf
    · cases hdm : dto.motherId with
      | none =>
        have : (applyUpdate q dto).motherId = q.motherId := by
          simp [applyUpdate, hdm]
        rw [this]
        exact (hn q hq).2
      | some v =>
        have : (applyUpdate q dto).motherId = v := by
          simp [applyUpdate, hdm]
        rw [this]
        intro he
        subst he
        rw [hpid] at hdm
        exact hsm hdm
  · rw [if_neg hc] at him
    subst him
    exact hn q hq

theorem nsp_link {s : Store} {parentId : Nat} {cids : List Nat}
    {role : PRole} {s' : Store} {n : Nat} (hn : NoSelfParent s)
    (h : linkChildrenToParent s parentId cids role = .ok (s', n)) :
    NoSelfParent s' := by
  obtain ⟨parent, ch, hfind, hbasic, _, _, h5, hs⟩ :=
    linkChildrenToParent_ok_inv h
  obtain ⟨hmem, hpid⟩ := findOneBy_eq_some hfind
  obtain ⟨_, hnotc⟩ := linkBasicChecks_ok hbasic
  have hchsub := validateChildren_ok_sub h5
  subst hs
  intro r hr
  unfold linkInternal at hr
  rcases List.mem_map.mp hr with ⟨q, hq, him⟩
  by_cases hc : (ch.any (fun c => c.id == q.id)) = true
  · rw [if_pos hc] at him
    have hqne : q.id ≠ parent.id := by
      rcases List.any_eq_true.mp hc with ⟨c, hcm, hcid⟩
      obtain ⟨_, ids, hids, hcin⟩ := hchsub c hcm
      injection hids with hids
      subst hids
      have hcq : c.id = q.id := by simpa using hcid
      intro he
      rw [hpid] at he
      rw [hcq, he] at hcin
      rw [List.contains_eq_any_beq] at hnotc
      have : cids.any (fun x => parentId == x) = true :=
        List.any_eq_true.mpr ⟨parentId, hcin, by simp⟩
      rw [this] at hnotc
      cases hnotc
    have hne : some parent.id ≠ some q.id := fun he => hqne (by injection he with he; exact he.symm)
    obtain ⟨hqF, hqM⟩ := hn q hq
    by_cases hg : (parent.gender == Gender.male) = true
    · rw [if_pos hg] at him
      subst him
      exact ⟨by simpa using hne, hqM⟩
    · rw [if_neg hg] at him
      subst him
      exact ⟨hqF, by simpa using hne⟩
  · rw [if_neg hc] at him
    subst him
    exact hn q hq

theorem nsp_promote {s : Store} {dto : PromoteAncestorDto} {tx : TxFail}
    {s' : Store} {p : Person} (hn : NoSelfParent s)
    (h : promoteAncestor s dto tx = .ok (s', p)) : NoSelfParent s' := by
  obtain ⟨cp, hfind, hcpid, _, _, _, _, _, hs⟩ := promoteAncestor_ok_inv h
  obtain ⟨hcpm, _⟩ := findProgenitor_some hfind
  subst hs
  have hn1 : NoSelfParent (s ++ [mkAncestor s dto]) := by
    intro q hq
    rcases List.mem_append.mp hq with hqs | hqn
    · exact hn q hqs
    · have : q = mkAncestor s dto := by simpa using hqn
      subst this
      exact ⟨by simp [mkAncestor], by simp [mkAncestor]⟩
  intro r hr
  unfold promotedStore at hr
  rcases List.mem_map.mp hr with ⟨q, hq, him⟩
  by_cases hc : (q.id == dto.currentProgenitorId) = true
  · rw [if_pos hc] at him
    subst him
    have hqid : q.id = dto.currentProgenitorId := by simpa using hc
    have hqlt : q.id < nextId s := by
      rcases List.mem_append.mp hq with hqs | hqn
      · exact id_lt_nextId hqs
      · exfalso
        have : q = mkAncestor s dto := by simpa using hqn
        subst this
        have : cp.id < nextId s := id_lt_nextId hcpm
        rw [hcpid] at this
        simp [mkAncestor] at hqid
        omega
    have hne : some (mkAncestor s dto).id ≠ some q.id := by
      intro he
      injection he with he
      simp [mkAncestor] at he
      omega
    obtain ⟨hqF, hqM⟩ := hn1 q hq
    unfold demote
    by_cases hr' : (dto.relationship == PRole.father) = true
    · rw [if_pos hr']
      exact ⟨by simpa using hne, hqM⟩
    · rw [if_neg hr']
      exact ⟨hqF, by simpa using hne⟩
  · rw [if_neg hc] at him
    subst him
    exact hn1 q hq

theorem nsp_remove {s : Store} {pid : Nat} {s' : Store} {p : Person}
    (hn : NoSelfParent s) (h : removePerson s pid = .ok (s', p)) :
    NoSelfParent s' := by
  obtain ⟨_, _, hs⟩ := removePerson_ok_inv h
  subst hs
  intro q hq
  exact hn q (List.mem_of_mem_filter hq)

/-! ### Acyclicity preservation -/

theorem no_parentEdge_to_missing {s : Store} {x y : Nat}
    (hrefs : RefsOk s) (hy0 : y ≠ 0) (hmiss : ∀ q ∈ s, q.id ≠ y) :
    ¬ parentEdge s x y := by
  rintro ⟨p, hp, _, hpar⟩
  rcases hpar with hf | hm
  · rcases (hrefs p hp).1 y hf with h0 | ⟨r, hr, hrid⟩
    · exact hy0 h0
    · exact hmiss r hr hrid
  · rcases (hrefs p hp).2 y hm with h0 | ⟨r, hr, hrid⟩
    · exact hy0 h0
    · exact hmiss r hr hrid

theorem no_parentEdge_from_missing {s : Store} {x y : Nat}
    (hmiss : ∀ q ∈ s, q.id ≠ x) : ¬ parentEdge s x y := by
  rintro ⟨p, hp, hid, _⟩
  exact hmiss p hp hid

theorem reflTransGen_to_missing {s : Store} {v t : Nat} (hrefs : RefsOk s)
    (ht0 : t ≠ 0) (hmiss : ∀ q ∈ s, q.id ≠ t)
    (h : Relation.ReflTransGen (parentEdge s) v t) : v = t := by
  rcases Relation.ReflTransGen.cases_tail h with heq | ⟨z, _, hzt⟩
  · exact heq.symm
  · exact absurd hzt (no_parentEdge_to_missing hrefs ht0 hmiss)

theorem checkChildCycles_ok {s : Store} {parentId : Nat} {l : List Nat}
    (h : checkChildCycles s parentId l = .ok ()) :
    ∀ cid ∈ l, wouldCreateAncestryCycle s cid parentId = false := by
  induction l with
  | nil => intro cid hc; cases hc
  | cons c rest ih =>
    unfold checkChildCycles at h
    by_cases hc : wouldCreateAncestryCycle s c parentId = true
    · rw [if_pos hc] at h; cases h
    · rw [if_neg hc] at h
      intro cid hcid
      rcases List.mem_cons.mp hcid with rfl | hrest
      · simpa using hc
      · exact ih h cid hrest

theorem updCycleStage_ok {s : Store} {pid : Nat}
    {field : Option (Option Nat)} {v : Nat}
    (h : updCycleStage s pid field = .ok ())
    (hv : field = some (some v)) :
    wouldCreateAncestryCycle s pid v = false := by
  unfold updCycleStage at h
  subst hv
  rw [if_pos (by rfl)] at h
  by_cases hc : wouldCreateAncestryCycle s pid ((joinNN (some (some v))).getD 0) = true
  · rw [if_pos hc] at h; cases h
  · simpa using hc

theorem acyclic_remove {s : Store} {pid : Nat} {s' : Store} {p : Person}
    (hac : Acyclic s) (h : removePerson s pid = .ok (s', p)) : Acyclic s' := by
  obtain ⟨_, _, hs⟩ := removePerson_ok_inv h
  subst hs
  intro a hcyc
  exact hac a (Relation.TransGen.mono (fun x y hxy => parentEdge_filter_inv hxy) hcyc)

theorem acyclic_update {s : Store} {pid : Nat} {dto : UpdatePersonDto}
    {s' : Store} {p' : Person} (hwf : Wf s) (hac : Acyclic s)
    (h : updatePerson s pid dto = .ok (s', p')) : Acyclic s' := by
  obtain ⟨person, hfind, _, _, h4, h5, h6, _, hs⟩ := updatePerson_ok_inv h
  obtain ⟨hmem, hpid⟩ := findOneBy_eq_some hfind
  obtain ⟨hsf, hsm⟩ := updSelfStage_ok h4
  obtain ⟨hnd, hpos, hrefs⟩ := hwf
  subst hs
  intro a hcyc
  have hsub : ∀ x y,
      parentEdge (s.map (fun q =>
        if q.id == person.id then applyUpdate person dto else q)) x y →
      parentEdge s x y ∨
        (x = person.id ∧ (dto.fatherId = some (some y) ∨
          dto.motherId = some (some y))) := by
    intro x y hxy
    obtain ⟨q, hq, hqid, hcase⟩ :=
      parentEdge_mapIf_inv (f := fun _ => applyUpdate person dto)
        (fun r hr => by rw [show r.id = person.id from by simpa using hr]; rfl)
        hxy
    rcases hcase with ⟨hc, hpar⟩ | ⟨_, hpar⟩
    · have hx : x = person.id := by
        rw [← hqid]; simpa using hc
      rcases hpar with hf | hm
      · cases hdf : dto.fatherId with
        | none =>
          left
          refine ⟨person, hmem, hx.symm, Or.inl ?_⟩
          rw [← hf]
          simp [applyUpdate, hdf]
        | some vv =>
          right
          have happ : (applyUpdate person dto).fatherId = vv := by
            simp [applyUpdate, hdf]
          rw [happ] at hf
          have hgoal : some vv = some (some y) := by rw [hf]
          exact ⟨hx, Or.inl hgoal⟩
      · cases hdm : dto.motherId with
        | none =>
          left
          refine ⟨person, hmem, hx.symm, Or.inr ?_⟩
          rw [← hm]
          simp [applyUpdate, hdm]
        | some vv =>
          right
          have happ : (applyUpdate person dto).motherId = vv := by
            simp [applyUpdate, hdm]
          rw [happ] at hm
          have hgoal : some vv = some (some y) := by rw [hm]
          exact ⟨hx, Or.inr hgoal⟩
    · exact Or.inl ⟨q, hq, hqid, hpar⟩
  obtain ⟨u, v, u', v', hn1, hn2, hpath, _⟩ := cycle_decomp hsub hac hcyc
  have hvne : v ≠ person.id := by
    intro he
    subst he
    rcases hn1.2 with hf | hm
    · exact hsf (by rw [← hpid]; exact hf)
    · exact hsm (by rw [← hpid]; exact hm)
  have hreach : Relation.ReflTransGen (parentEdge s) v person.id :=
    hn2.1 ▸ hpath
  have htrue := wouldCycle_of_reaches hnd hpos hvne hreach
  rcases hn1.2 with hf | hm
  · rw [updCycleStage_ok h5 hf] at htrue
    cases htrue
  · rw [updCycleStage_ok h6 hm] at htrue
    cases htrue

theorem acyclic_link {s : Store} {parentId : Nat} {cids : List Nat}
    {role : PRole} {s' : Store} {n : Nat} (hwf : Wf s) (hac : Acyclic s)
    (h : linkChildrenToParent s parentId cids role = .ok (s', n)) :
    Acyclic s' := by
  obtain ⟨parent, ch, hfind, hbasic, hcyc0, _, h5, hs⟩ :=
    linkChildrenToParent_ok_inv h
  obtain ⟨hmem, hpid⟩ := findOneBy_eq_some hfind
  obtain ⟨_, hnotc⟩ := linkBasicChecks_ok hbasic
  have hchsub := validateChildren_ok_sub h5
  have hccc := checkChildCycles_ok hcyc0
  obtain ⟨hnd, hpos, hrefs⟩ := hwf
  subst hs
  intro a hcyc
  have hsub : ∀ x y, parentEdge (linkInternal s parent ch) x y →
      parentEdge s x y ∨ (y = parent.id ∧ ∃ c ∈ ch, c.id = x) := by
    intro x y hxy
    unfold linkInternal at hxy
    obtain ⟨q, hq, hqid, hcase⟩ := parentEdge_mapIf_inv
      (f := fun q => if parent.gender == Gender.male then
        { q with fatherId := some parent.id }
      else { q with motherId := some parent.id })
      (fun r _ => by
        by_cases hg : (parent.gender == Gender.male) = true <;> simp [hg]) hxy
    rcases hcase with ⟨hc, hpar⟩ | ⟨_, hpar⟩
    · have hex : ∃ c ∈ ch, c.id = x := by
        rcases List.any_eq_true.mp hc with ⟨c, hcm, hcid⟩
        exact ⟨c, hcm, by rw [← hqid]; simpa using hcid⟩
      by_cases hg : (parent.gender == Gender.male) = true
      · rw [if_pos hg] at hpar
        rcases hpar with hf | hm
        · right
          refine ⟨?_, hex⟩
          simpa using hf.symm
        · exact Or.inl ⟨q, hq, hqid, Or.inr (by simpa using hm)⟩
      · rw [if_neg hg] at hpar
        rcases hpar with hf | hm
        · exact Or.inl ⟨q, hq, hqid, Or.inl (by simpa using hf)⟩
        · right
          refine ⟨?_, hex⟩
          simpa using hm.symm
    · exact Or.inl ⟨q, hq, hqid, hpar⟩
  obtain ⟨u, v, u', v', hn1, hn2, hpath, _⟩ := cycle_decomp hsub hac hcyc
  obtain ⟨c', hc'm, hc'id⟩ := hn2.2
  obtain ⟨hc's, ids, hids, hc'in⟩ := hchsub c' hc'm
  injection hids with hids
  subst hids
  have hne : parent.id ≠ c'.id := by
    intro he
    rw [List.contains_eq_any_beq] at hnotc
    have : cids.any (fun x => parentId == x) = true :=
      List.any_eq_true.mpr ⟨c'.id, hc'in, by rw [← hpid, he]; simp⟩
    rw [this] at hnotc
    cases hnotc
  have hreach : Relation.ReflTransGen (parentEdge s) parent.id c'.id := by
    rw [hc'id]
    exact hn1.1 ▸ hpath
  have htrue := wouldCycle_of_reaches hnd hpos hne hreach
  have hfalse := hccc c'.id hc'in
  rw [hpid] at htrue
  rw [htrue] at hfalse
  cases hfalse

theorem acyclic_promote {s : Store} {dto : PromoteAncestorDto} {tx : TxFail}
    {s' : Store} {p : Person} (hwf : Wf s) (hac : Acyclic s)
    (h : promoteAncestor s dto tx = .ok (s', p)) : Acyclic s' := by
  obtain ⟨cp, hfind, hcpid, _, _, _, _, _, hs⟩ := promoteAncestor_ok_inv h
  obtain ⟨hcpm, _⟩ := findProgenitor_some hfind
  obtain ⟨hnd, hpos, hrefs⟩ := hwf
  subst hs
  intro a hcyc
  have hsub : ∀ x y, parentEdge (promotedStore s dto) x y →
      parentEdge s x y ∨
        (x = dto.currentProgenitorId ∧ y = (mkAncestor s dto).id) := by
    intro x y hxy
    unfold promotedStore at hxy
    obtain ⟨q, hq, hqid, hcase⟩ := parentEdge_mapIf_inv
      (f := demote dto (mkAncestor s dto).id)
      (fun r _ => by
        unfold demote
        by_cases hr : (dto.relationship == PRole.father) = true <;> simp [hr]) hxy
    have hq1 : parentEdge (s ++ [mkAncestor s dto]) x y →
        parentEdge s x y ∨
          (x = dto.currentProgenitorId ∧ y = (mkAncestor s dto).id) := by
      intro hedge
      rcases parentEdge_append_inv hedge with hold | ⟨_, hpar⟩
      · exact Or.inl hold
      · rcases hpar with hf | hm
        · simp [mkAncestor] at hf
        · simp [mkAncestor] at hm
    rcases hcase with ⟨hc, hpar⟩ | ⟨_, hpar⟩
    · have hx : x = dto.currentProgenitorId := by
        rw [← hqid]; simpa using hc
      unfold demote at hpar
      by_cases hr : (dto.relationship == PRole.father) = true
      · rw [if_pos hr] at hpar
        rcases hpar with hf | hm
        · exact Or.inr ⟨hx, by simpa using hf.symm⟩
        · exact hq1 ⟨q, hq, hqid, Or.inr (by simpa using hm)⟩
      · rw [if_neg hr] at hpar
        rcases hpar with hf | hm
        · exact hq1 ⟨q, hq, hqid, Or.inl (by simpa using hf)⟩
        · exact Or.inr ⟨hx, by simpa using hm.symm⟩
    · exact hq1 ⟨q, hq, hqid, hpar⟩
  obtain ⟨u, v, u', v', hn1, hn2, hpath, _⟩ := cycle_decomp hsub hac hcyc
  -- old walk from the new ancestor's id back to the former progenitor
  have hv : v = (mkAncestor s dto).id := hn1.2
  have hu' : u' = dto.currentProgenitorId := hn2.1
  rw [hv, hu'] at hpath
  have hmkid : (mkAncestor s dto).id = nextId s := rfl
  have heq : (mkAncestor s dto).id = dto.currentProgenitorId := by
    rcases Relation.ReflTransGen.cases_head hpath with heq | ⟨c, hedge, _⟩
    · exact heq
    · exfalso
      refine no_parentEdge_from_missing ?_ hedge
      intro q hq
      rw [hmkid]
      exact nextId_not_mem hq
  have : cp.id < nextId s := id_lt_nextId hcpm
  rw [hmkid, ← hcpid] at heq
  omega

theorem acyclic_create {s : Store} {dto0 : CreatePersonDto} {s' : Store}
    {p : Person} (hwf : Wf s) (hac : Acyclic s)
    (hguard : ¬(dtoHasParent dto0 = true ∧ dtoHasChildren dto0 = true))
    (h : create s dto0 = .ok (s', p)) : Acyclic s' := by
  have hwf' := wf_create hwf h
  obtain ⟨dto, ch, h1, h2, _, h4, hpp, hs⟩ := create_ok_inv h
  have hdto0 : dto.fatherId = dto0.fatherId ∧ dto.motherId = dto0.motherId ∧
      dto.childrenIds = dto0.childrenIds := by
    rcases validateNotOrphan_ok h1 with hk | ⟨hk, _⟩ <;> subst hk <;>
      exact ⟨rfl, rfl, rfl⟩
  obtain ⟨hnd, hpos, hrefs⟩ := hwf
  have hchsub := validateChildren_ok_sub h4
  -- the inserted row can never point at its own fresh id
  have hmkF : ∀ y, (mkCreatePerson s dto).fatherId = some y →
      y ≠ nextId s := by
    intro y hy he
    subst he
    have ht : truthyId dto.fatherId = true := by
      have := nextId_pos s
      have hfv : dto.fatherId = some (nextId s) := hy
      simp [truthyId, hfv]
      omega
    obtain ⟨q, hfindq, _⟩ := validateParents_father h2 ht
    obtain ⟨hqm, hqid⟩ := findOneBy_eq_some hfindq
    have hfv : dto.fatherId = some (nextId s) := hy
    rw [hfv] at hqid
    exact nextId_not_mem hqm (by simpa using hqid)
  have hmkM : ∀ y, (mkCreatePerson s dto).motherId = some y →
      y ≠ nextId s := by
    intro y hy he
    subst he
    have ht : truthyId dto.motherId = true := by
      have := nextId_pos s
      have hmv : dto.motherId = some (nextId s) := hy
      simp [truthyId, hmv]
      omega
    obtain ⟨q, hfindq, _⟩ := validateParents_mother h2 ht
    obtain ⟨hqm, hqid⟩ := findOneBy_eq_some hfindq
    have hmv : dto.motherId = some (nextId s) := hy
    rw [hmv] at hqid
    exact nextId_not_mem hqm (by simpa using hqid)
  subst hpp
  by_cases hch : 0 < ch.length
  · -- children are linked: the guard forbids truthy parent ids
    have hchildren : dtoHasChildren dto0 = true := by
      rcases ch with _ | ⟨c0, _⟩
      · simp at hch
      · obtain ⟨_, ids, hids, hcin⟩ := hchsub c0 (by simp)
        have h0ids : dto0.childrenIds = some ids := by
          rw [← hdto0.2.2, hids]
        unfold dtoHasChildren
        rw [h0ids]
        cases ids with
        | nil => cases hcin
        | cons i l => simp
    have hnopar : dtoHasParent dto0 = false := by
      cases hp0 : dtoHasParent dto0
      · rfl
      · exact absurd ⟨hp0, hchildren⟩ hguard
    unfold dtoHasParent at hnopar
    have hfnt : truthyId dto.fatherId = false := by
      rw [hdto0.1]
      cases hft : truthyId dto0.fatherId
      · rfl
      · rw [hft] at hnopar
        simp at hnopar
    have hmnt : truthyId dto.motherId = false := by
      rw [hdto0.2.1]
      cases hmt : truthyId dto0.motherId
      · rfl
      · rw [hmt] at hnopar
        simp at hnopar
    -- mk's parent values can only be 0
    have hmkF0 : ∀ y, (mkCreatePerson s dto).fatherId = some y → y = 0 := by
      intro y hy
      have hfv : dto.fatherId = some y := hy
      cases hy0 : decide (y = 0) with
      | true => simpa using hy0
      | false =>
        exfalso
        have : truthyId dto.fatherId = true := by
          simp [truthyId, hfv]
          simpa using hy0
        rw [this] at hfnt
        cases hfnt
    have hmkM0 : ∀ y, (mkCreatePerson s dto).motherId = some y → y = 0 := by
      intro y hy
      have hmv : dto.motherId = some y := hy
      cases hy0 : decide (y = 0) with
      | true => simpa using hy0
      | false =>
        exfalso
        have : truthyId dto.motherId = true := by
          simp [truthyId, hmv]
          simpa using hy0
        rw [this] at hmnt
        cases hmnt
    rw [if_pos hch] at hs
    subst hs
    intro a hcyc
    have hsub : ∀ x y,
        parentEdge (linkInternal (s ++ [mkCreatePerson s dto])
          (mkCreatePerson s dto) ch) x y →
        parentEdge s x y ∨
          ((x = nextId s ∧ y = 0) ∨
           (y = nextId s ∧ ∃ c ∈ ch, c.id = x)) := by
      intro x y hxy
      unfold linkInternal at hxy
      obtain ⟨q, hq, hqid, hcase⟩ := parentEdge_mapIf_inv
        (f := fun q => if (mkCreatePerson s dto).gender == Gender.male then
          { q with fatherId := some (mkCreatePerson s dto).id }
        else { q with motherId := some (mkCreatePerson s dto).id })
        (fun r _ => by
          by_cases hg : ((mkCreatePerson s dto).gender == Gender.male) = true <;>
            simp [hg]) hxy
      have hq1 : parentEdge (s ++ [mkCreatePerson s dto]) x y →
          parentEdge s x y ∨ (x = nextId s ∧ y = 0) := by
        intro hedge
        rcases parentEdge_append_inv hedge with hold | ⟨hx, hpar⟩
        · exact Or.inl hold
        · right
          refine ⟨hx, ?_⟩
          rcases hpar with hf | hm
          · exact hmkF0 y hf
          · exact hmkM0 y hm
      rcases hcase with ⟨hc, hpar⟩ | ⟨_, hpar⟩
      · have hex : ∃ c ∈ ch, c.id = x := by
          rcases List.any_eq_true.mp hc with ⟨c, hcm, hcid⟩
          exact ⟨c, hcm, by rw [← hqid]; simpa using hcid⟩
        by_cases hg : ((mkCreatePerson s dto).gender == Gender.male) = true
        · rw [if_pos hg] at hpar
          rcases hpar with hf | hm
          · exact Or.inr (Or.inr ⟨by simpa using hf.symm, hex⟩)
          · rcases hq1 ⟨q, hq, hqid, Or.inr (by simpa using hm)⟩ with hold | hnew
            · exact Or.inl hold
            · exact Or.inr (Or.inl hnew)
        · rw [if_neg hg] at hpar
          rcases hpar with hf | hm
          · rcases hq1 ⟨q, hq, hqid, Or.inl (by simpa using hf)⟩ with hold | hnew
            · exact Or.inl hold
            · exact Or.inr (Or.inl hnew)
          · exact Or.inr (Or.inr ⟨by simpa using hm.symm, hex⟩)
      · rcases hq1 ⟨q, hq, hqid, hpar⟩ with hold | hnew
        · exact Or.inl hold
        · exact Or.inr (Or.inl hnew)
    obtain ⟨u, v, u', v', hn1, hn2, hpath, hrest⟩ := cycle_decomp hsub hac hcyc
    have hzero_src : ∀ y, ¬ parentEdge (linkInternal (s ++ [mkCreatePerson s dto])
        (mkCreatePerson s dto) ch) 0 y := by
      intro y
      apply no_parentEdge_from_missing
      intro q hq
      have := hwf'.2.1 q hq
      omega
    rcases hn2 with ⟨hu', hv'⟩ | ⟨hv', hu'⟩
    · -- first new edge leaves the inserted row towards 0
      subst hv'
      rcases Relation.ReflTransGen.cases_head hrest with heq | ⟨c, hedge, _⟩
      · -- the cycle's base point is 0, so 0 heads the cycle
        subst heq
        rcases Relation.TransGen.head'_iff.mp hcyc with ⟨c, hedge, _⟩
        exact hzero_src _ hedge
      · exact hzero_src _ hedge
    · -- first new edge enters the inserted row from a child
      obtain ⟨c', hc'm, hc'id⟩ := hu'
      rcases hn1 with ⟨hu, hv⟩ | ⟨hv, hu⟩
      · -- last new edge also leaves the inserted row towards 0
        subst hv
        rcases Relation.ReflTransGen.cases_head hpath with heq | ⟨c, hedge, _⟩
        · -- then 0 is a child id, impossible
          obtain ⟨hc's, _⟩ := hchsub c' hc'm
          have := hpos c' hc's
          rw [hc'id, ← heq] at this
          omega
        · rcases hedge with ⟨q, hq, hqid, _⟩
          have := hpos q hq
          omega
      · -- last new edge also enters the inserted row: the old walk
        -- would leave the fresh id
        subst hv
        rcases Relation.ReflTransGen.cases_head hpath with heq | ⟨c, hedge, _⟩
        · obtain ⟨hc's, _⟩ := hchsub c' hc'm
          have := id_lt_nextId hc's
          rw [hc'id, ← heq] at this
          omega
        · refine no_parentEdge_from_missing ?_ hedge
          intro q hq
          exact nextId_not_mem hq
  · rw [if_neg hch] at hs
    subst hs
    intro a hcyc
    have hsub : ∀ x y, parentEdge (s ++ [mkCreatePerson s dto]) x y →
        parentEdge s x y ∨
          (x = nextId s ∧ ((mkCreatePerson s dto).fatherId = some y ∨
            (mkCreatePerson s dto).motherId = some y)) := by
      intro x y hxy
      rcases parentEdge_append_inv hxy with hold | ⟨hx, hpar⟩
      · exact Or.inl hold
      · exact Or.inr ⟨hx, hpar⟩
    obtain ⟨u, v, u', v', hn1, hn2, hpath, _⟩ := cycle_decomp hsub hac hcyc
    have hveq : v = nextId s := by
      refine reflTransGen_to_missing hrefs ?_ ?_ (hn2.1 ▸ hpath)
      · have := nextId_pos s
        omega
      · intro q hq
        exact nextId_not_mem hq
    subst hveq
    rcases hn1.2 with hf | hm
    · exact hmkF _ hf rfl
    · exact hmkM _ hm rfl

/-! ### Invariants along committed operation sequences -/

theorem step_wf {s : Store} {op : Op} {s1 : Store} (hwf : Wf s)
    (h : applyOp s op = .ok s1) : Wf s1 := by
  cases op with
  | create dto =>
    unfold applyOp at h
    rw [exc_map_ok] at h
    obtain ⟨⟨st, p⟩, hok, hs⟩ := h
    subst hs
    exact wf_create hwf hok
  | update pid dto =>
    unfold applyOp at h
    rw [exc_map_ok] at h
    obtain ⟨⟨st, p⟩, hok, hs⟩ := h
    subst hs
    exact wf_update hwf hok
  | link pid cids role =>
    unfold applyOp at h
    rw [exc_map_ok] at h
    obtain ⟨⟨st, n⟩, hok, hs⟩ := h
    subst hs
    exact wf_link hwf hok
  | promote dto tx =>
    unfold applyOp at h
    rw [exc_map_ok] at h
    obtain ⟨⟨st, p⟩, hok, hs⟩ := h
    subst hs
    exact wf_promote hwf hok
  | remove pid =>
    unfold applyOp at h
    rw [exc_map_ok] at h
    obtain ⟨⟨st, p⟩, hok, hs⟩ := h
    subst hs
    exact wf_remove hwf hok

theorem step_progOk {s : Store} {op : Op} {s1 : Store} (hwf : Wf s)
    (hp : ProgOk s) (hop : opNoExplicitProgenitor op = true)
    (h : applyOp s op = .ok s1) : ProgOk s1 := by
  cases op with
  | create dto =>
    unfold applyOp at h
    rw [exc_map_ok] at h
    obtain ⟨⟨st, p⟩, hok, hs⟩ := h
    subst hs
    refine progOk_create hp ?_ hok
    intro he
    simp [opNoExplicitProgenitor, he] at hop
  | update pid dto =>
    unfold applyOp at h
    rw [exc_map_ok] at h
    obtain ⟨⟨st, p⟩, hok, hs⟩ := h
    subst hs
    refine progOk_update hwf.1 hp ?_ hok
    intro he
    simp [opNoExplicitProgenitor, he] at hop
  | link pid cids role =>
    unfold applyOp at h
    rw [exc_map_ok] at h
    obtain ⟨⟨st, n⟩, hok, hs⟩ := h
    subst hs
    exact progOk_link hp hok
  | promote dto tx =>
    unfold applyOp at h
    rw [exc_map_ok] at h
    obtain ⟨⟨st, p⟩, hok, hs⟩ := h
    subst hs
    exact progOk_promote hwf.1 hp hok
  | remove pid =>
    unfold applyOp at h
    rw [exc_map_ok] at h
    obtain ⟨⟨st, p⟩, hok, hs⟩ := h
    subst hs
    exact progOk_remove hp hok

theorem step_nsp {s : Store} {op : Op} {s1 : Store} (hwf : Wf s)
    (hn : NoSelfParent s) (h : applyOp s op = .ok s1) : NoSelfParent s1 := by
  cases op with
  | create dto =>
    unfold applyOp at h
    rw [exc_map_ok] at h
    obtain ⟨⟨st, p⟩, hok, hs⟩ := h
    subst hs
    exact nsp_create hwf hn hok
  | update pid dto =>
    unfold applyOp at h
    rw [exc_map_ok] at h
    obtain ⟨⟨st, p⟩, hok, hs⟩ := h
    subst hs
    exact nsp_update hwf hn hok
  | link pid cids role =>
    unfold applyOp at h
    rw [exc_map_ok] at h
    obtain ⟨⟨st, n⟩, hok, hs⟩ := h
    subst hs
    exact nsp_link hn hok
  | promote dto tx =>
    unfold applyOp at h
    rw [exc_map_ok] at h
    obtain ⟨⟨st, p⟩, hok, hs⟩ := h
    subst hs
    exact nsp_promote hn hok
  | remove pid =>
    unfold applyOp at h
    rw [exc_map_ok] at h
    obtain ⟨⟨st, p⟩, hok, hs⟩ := h
    subst hs
    exact nsp_remove hn hok

theorem step_acyclic {s : Store} {op : Op} {s1 : Store} (hwf : Wf s)
    (hac : Acyclic s) (hop : opCycleGuarded op = true)
    (h : applyOp s op = .ok s1) : Acyclic s1 := by
  cases op with
  | create dto =>
    unfold applyOp at h
    rw [exc_map_ok] at h
    obtain ⟨⟨st, p⟩, hok, hs⟩ := h
    subst hs
    refine acyclic_create hwf hac ?_ hok
    rintro ⟨hpar, hchl⟩
    simp [opCycleGuarded, hpar, hchl] at hop
  | update pid dto =>
    unfold applyOp at h
    rw [exc_map_ok] at h
    obtain ⟨⟨st, p⟩, hok, hs⟩ := h
    subst hs
    exact acyclic_update hwf hac hok
  | link pid cids role =>
    unfold applyOp at h
    rw [exc_map_ok] at h
    obtain ⟨⟨st, n⟩, hok, hs⟩ := h
    subst hs
    exact acyclic_link hwf hac hok
  | promote dto tx =>
    unfold applyOp at h
    rw [exc_map_ok] at h
    obtain ⟨⟨st, p⟩, hok, hs⟩ := h
    subst hs
    exact acyclic_promote hwf hac hok
  | remove pid =>
    unfold applyOp at h
    rw [exc_map_ok] at h
    obtain ⟨⟨st, p⟩, hok, hs⟩ := h
    subst hs
    exact acyclic_remove hac hok

theorem runOps_wf {s : Store} {ops : List Op} {s' : Store} (hwf : Wf s)
    (h : runOps s ops = .ok s') : Wf s' := by
  induction ops generalizing s with
  | nil =>
    unfold runOps at h
    injection h with h
    subst h
    exact hwf
  | cons op rest ih =>
    unfold runOps at h
    cases hstep : applyOp s op with
    | error e => rw [hstep] at h; cases h
    | ok s1 =>
      rw [hstep] at h
      exact ih (step_wf hwf hstep) h

theorem runOps_progOk {s : Store} {ops : List Op} {s' : Store} (hwf : Wf s)
    (hp : ProgOk s) (hops : ∀ op ∈ ops, opNoExplicitProgenitor op = true)
    (h : runOps s ops = .ok s') : ProgOk s' := by
  induction ops generalizing s with
  | nil =>
    unfold runOps at h
    injection h with h
    subst h
    exact hp
  | cons op rest ih =>
    unfold runOps at h
    cases hstep : applyOp s op with
    | error e => rw [hstep] at h; cases h
    | ok s1 =>
      rw [hstep] at h
      exact ih (step_wf hwf hstep)
        (step_progOk hwf hp (hops op (by simp)) hstep)
        (fun o ho => hops o (List.mem_cons_of_mem _ ho)) h

theorem runOps_nsp {s : Store} {ops : List Op} {s' : Store} (hwf : Wf s)
    (hn : NoSelfParent s) (h : runOps s ops = .ok s') : NoSelfParent s' := by
  induction ops generalizing s with
  | nil =>
    unfold runOps at h
    injection h with h
    subst h
    exact hn
  | cons op rest ih =>
    unfold runOps at h
    cases hstep : applyOp s op with
    | error e => rw [hstep] at h; cases h
    | ok s1 =>
      rw [hstep] at h
      exact ih (step_wf hwf hstep) (step_nsp hwf hn hstep) h

theorem runOps_acyclic {s : Store} {ops : List Op} {s' : Store} (hwf : Wf s)
    (hac : Acyclic s) (hops : ∀ op ∈ ops, opCycleGuarded op = true)
    (h : runOps s ops = .ok s') : Acyclic s' := by
  induction ops generalizing s with
  | nil =>
    unfold runOps at h
    injection h with h
    subst h
    exact hac
  | cons op rest ih =>
    unfold runOps at h
    cases hstep : applyOp s op with
    | error e => rw [hstep] at h; cases h
    | ok s1 =>
      rw [hstep] at h
      exact ih (step_wf hwf hstep)
        (step_acyclic hwf hac (hops op (by simp)) hstep)
        (fun o ho => hops o (List.mem_cons_of_mem _ ho)) h

/-! ### Small computation lemmas for the claims -/

theorem exc_bind_ok_left {α β : Type} {e : Except PError α}
    {f : α → Except PError β} {a : α} (h : e = .ok a) : (e >>= f) = f a := by
  rw [h]
  rfl

theorem exc_bind_error_left {α β : Type} {e : Except PError α}
    {f : α → Except PError β} {err : PError} (h : e = .error err) :
    (e >>= f) = .error err := by
  rw [h]
  rfl

theorem acyclic_of_edge_decreasing {s : Store}
    (hdec : ∀ x y, parentEdge s x y → y < x) : Acyclic s := by
  intro a hcyc
  have hall : ∀ x y, Relation.TransGen (parentEdge s) x y → y < x := by
    intro x y h
    induction h with
    | single e => exact hdec _ _ e
    | tail _ e ih => exact lt_trans (hdec _ _ e) ih
  exact lt_irrefl a (hall a a hcyc)

theorem acyclic_of_edgeDecB {s : Store} (h : edgeDecB s = true) :
    Acyclic s := by
  apply acyclic_of_edge_decreasing
  rintro x y ⟨p, hp, hid, hpar⟩
  have hall := List.all_eq_true.mp h p hp
  rw [Bool.and_eq_true] at hall
  subst hid
  rcases hpar with hf | hm
  · rw [hf] at hall
    simpa using hall.1
  · rw [hm] at hall
    simpa using hall.2

theorem truthyStr_of_extractYear {d : String} {y : Int}
    (h : extractYear d = some y) : truthyStr (some d) = true := by
  unfold truthyStr
  cases he : d.isEmpty
  · simp [he]
  · exfalso
    have hd : d = "" := (String.isEmpty_iff d).mp he
    subst hd
    rw [show extractYear "" = none from rfl] at h
    cases h

theorem isFullDate_ne_empty {d : String} (h : isFullDate d = true) :
    truthyStr (some d) = true := by
  unfold truthyStr
  cases he : d.isEmpty
  · simp [he]
  · exfalso
    have hd : d = "" := (String.isEmpty_iff d).mp he
    subst hd
    rw [show isFullDate "" = false from rfl] at h
    cases h

theorem isYearOnly_of_isFullDate {d : String} (h : isFullDate d = true) :
    isYearOnly d = false := by
  unfold isFullDate at h
  unfold isYearOnly
  have h3 : (splitDash d).length = 3 := by simpa using h
  rw [h3]
  rfl

theorem fatherRoleCheck_notFound {s : Store} {f : Option Nat}
    (ht : truthyId f = true) (hfind : findOneBy s (f.getD 0) = none) :
    fatherRoleCheck s f = .error (.fatherNotFound (f.getD 0)) := by
  unfold fatherRoleCheck
  rw [if_pos ht, hfind]

theorem fatherRoleCheck_notMale {s : Store} {f : Option Nat} {F : Person}
    (ht : truthyId f = true) (hfind : findOneBy s (f.getD 0) = some F)
    (hg : F.gender ≠ Gender.male) :
    fatherRoleCheck s f = .error (.fatherNotMale (f.getD 0)) := by
  unfold fatherRoleCheck
  rw [if_pos ht, hfind]
  dsimp only
  rw [if_pos (by simpa using hg)]

theorem fatherRoleCheck_pass {s : Store} {f : Option Nat} {F : Person}
    (hfind : findOneBy s (f.getD 0) = some F)
    (hg : F.gender = Gender.male) :
    fatherRoleCheck s f = .ok () := by
  unfold fatherRoleCheck
  by_cases ht : truthyId f = true
  · rw [if_pos ht, hfind]
    dsimp only
    rw [if_neg (by simp [hg])]
  · rw [if_neg ht]

theorem fatherRoleCheck_skip {s : Store} {f : Option Nat}
    (ht : truthyId f = false) : fatherRoleCheck s f = .ok () := by
  unfold fatherRoleCheck
  rw [if_neg (by simp [ht])]

theorem motherRoleCheck_notFound {s : Store} {m : Option Nat}
    (ht : truthyId m = true) (hfind : findOneBy s (m.getD 0) = none) :
    motherRoleCheck s m = .error (.motherNotFound (m.getD 0)) := by
  unfold motherRoleCheck
  rw [if_pos ht, hfind]

theorem motherRoleCheck_notFemale {s : Store} {m : Option Nat} {M : Person}
    (ht : truthyId m = true) (hfind : findOneBy s (m.getD 0) = some M)
    (hg : M.gender ≠ Gender.female) :
    motherRoleCheck s m = .error (.motherNotFemale (m.getD 0)) := by
  unfold motherRoleCheck
  rw [if_pos ht, hfind]
  dsimp only
  rw [if_pos (by simpa using hg)]

theorem validateParents_err_father {s : Store} {f m : Option Nat}
    {e : PError} (h : fatherRoleCheck s f = .error e) :
    validateParents s f m = .error e := by
  unfold validateParents
  exact exc_bind_error_left h

theorem validateParents_err_mother {s : Store} {f m : Option Nat}
    {e : PError} (hok : fatherRoleCheck s f = .ok ())
    (h : motherRoleCheck s m = .error e) :
    validateParents s f m = .error e := by
  unfold validateParents
  rw [exc_bind_ok_left hok]
  exact h

/-- `validateNotOrphan` accepts unchanged any payload with a truthy
parent id. -/
theorem validateNotOrphan_hasParent {s : Store} {dto : CreatePersonDto}
    (h : dtoHasParent dto = true) : validateNotOrphan s dto = .ok dto := by
  unfold validateNotOrphan
  rw [if_pos (by simp [h])]

/-- A `create` fails with the parent-role error when the payload has a
truthy parent id and `validateParents` rejects. -/
theorem create_err_parents {s : Store} {dto : CreatePersonDto} {e : PError}
    (hpar : dtoHasParent dto = true)
    (he : validateParents s dto.fatherId dto.motherId = .error e) :
    create s dto = .error e := by
  unfold create
  rw [exc_bind_ok_left (validateNotOrphan_hasParent hpar)]
  exact exc_bind_error_left he

/-- An `updatePerson` on an existing row fails with the parent-role
error when a truthy parent id is supplied and `validateParents`
rejects. -/
theorem updatePerson_err_parents {s : Store} {pid : Nat}
    {dto : UpdatePersonDto} {X : Person} {e : PError}
    (hX : findOneBy s pid = some X)
    (hcond : (truthyNN dto.fatherId || truthyNN dto.motherId) = true)
    (he : validateParents s (joinNN dto.fatherId) (joinNN dto.motherId) =
      .error e) :
    updatePerson s pid dto = .error e := by
  unfold updatePerson
  rw [hX]
  have hstage : updParentsStage s dto = .error e := by
    unfold updParentsStage
    rw [if_pos hcond]
    exact he
  dsimp only
  rw [exc_bind_ok_left (show (pure X : Except PError Person) = .ok X from rfl)]
  exact exc_bind_error_left hstage


/-! ### Error-shape lemmas for the validators -/

theorem exc_bind_err {α β : Type} {x : Except PError α}
    {f : α → Except PError β} {e : PError} (h : (x >>= f) = .error e) :
    x = .error e ∨ ∃ a, x = .ok a ∧ f a = .error e := by
  cases x with
  | error e2 =>
    left
    simp only [Bind.bind, Except.bind] at h
    injection h with h
    rw [h]
  | ok a =>
    right
    simp only [Bind.bind, Except.bind] at h
    exact ⟨a, rfl, h⟩

theorem exc_pure_ne_error {α : Type} {a : α} {e : PError} :
    (pure a : Except PError α) ≠ .error e := by
  intro h
  cases h

/-- The father minimum-age block only raises the two age errors. -/
theorem fatherAgeCheck_err {cbd : String} {F : Person} {e : PError}
    (h : fatherAgeCheck cbd F = .error e) :
    e = .fatherBornAfterChild ∨ e = .fatherTooYoung := by
  unfold fatherAgeCheck at h
  by_cases h1 : truthyStr F.birthDate = true
  · rw [if_pos h1] at h
    by_cases h2 : oGe (extractYear (F.birthDate.getD "")) (extractYear cbd) = true
    · rw [if_pos h2] at h
      injection h with h
      exact Or.inl h.symm
    · rw [if_neg h2] at h
      by_cases h3 :
          oSubLt (extractYear cbd) (extractYear (F.birthDate.getD "")) 14 = true
      · rw [if_pos h3] at h
        injection h with h
        exact Or.inr h.symm
      · rw [if_neg h3] at h
        cases h
  · rw [if_neg h1] at h
    cases h

/-- The father death-window block only raises the three death errors. -/
theorem fatherDeathCheck_err {cbd : String} {F : Person} {e : PError}
    (h : fatherDeathCheck cbd F = .error e) :
    e = .fatherDeathYearOnlyTooEarly ∨ e = .fatherDeathFullTooEarly ∨
      e = .fatherDeathMixedTooEarly := by
  unfold fatherDeathCheck at h
  by_cases h1 : truthyStr F.deathDate = true
  · rw [if_pos h1] at h
    by_cases h2 : isYearOnly (F.deathDate.getD "") = true
    · rw [if_pos h2] at h
      by_cases h3 :
          oGtAdd (extractYear cbd) (extractYear (F.deathDate.getD "")) 1 = true
      · rw [if_pos h3] at h
        injection h with h
        exact Or.inl h.symm
      · rw [if_neg h3] at h
        cases h
    · rw [if_neg h2] at h
      by_cases h4 : (isFullDate (F.deathDate.getD "") && isFullDate cbd) = true
      · rw [if_pos h4] at h
        by_cases h5 : oDateGt (parseFullDate cbd)
            ((parseFullDate (F.deathDate.getD "")).map addNineMonths) = true
        · rw [if_pos h5] at h
          injection h with h
          exact Or.inr (Or.inl h.symm)
        · rw [if_neg h5] at h
          cases h
      · rw [if_neg h4] at h
        by_cases h6 :
            oGtAdd (extractYear cbd) (extractYear (F.deathDate.getD "")) 1 = true
        · rw [if_pos h6] at h
          injection h with h
          exact Or.inr (Or.inr h.symm)
        · rw [if_neg h6] at h
          cases h
  · rw [if_neg h1] at h
    cases h

/-- The mother minimum-age block only raises the two age errors. -/
theorem motherAgeCheck_err {cbd : String} {M : Person} {e : PError}
    (h : motherAgeCheck cbd M = .error e) :
    e = .motherBornAfterChild ∨ e = .motherTooYoung := by
  unfold motherAgeCheck at h
  by_cases h1 : truthyStr M.birthDate = true
  · rw [if_pos h1] at h
    by_cases h2 : oGe (extractYear (M.birthDate.getD "")) (extractYear cbd) = true
    · rw [if_pos h2] at h
      injection h with h
      exact Or.inl h.symm
    · rw [if_neg h2] at h
      by_cases h3 :
          oSubLt (extractYear cbd) (extractYear (M.birthDate.getD "")) 14 = true
      · rw [if_pos h3] at h
        injection h with h
        exact Or.inr h.symm
      · rw [if_neg h3] at h
        cases h
  · rw [if_neg h1] at h
    cases h

/-- The mother death block only raises the three death errors. -/
theorem motherDeathCheck_err {cbd : String} {M : Person} {e : PError}
    (h : motherDeathCheck cbd M = .error e) :
    e = .motherDeathYearOnlyTooEarly ∨ e = .motherDeathFullTooEarly ∨
      e = .motherDeathMixedTooEarly := by
  unfold motherDeathCheck at h
  by_cases h1 : truthyStr M.deathDate = true
  · rw [if_pos h1] at h
    by_cases h2 : isYearOnly (M.deathDate.getD "") = true
    · rw [if_pos h2] at h
      by_cases h3 :
          oGtAdd (extractYear cbd) (extractYear (M.deathDate.getD "")) 0 = true
      · rw [if_pos h3] at h
        injection h with h
        exact Or.inl h.symm
      · rw [if_neg h3] at h
        cases h
    · rw [if_neg h2] at h
      by_cases h4 : (isFullDate (M.deathDate.getD "") && isFullDate cbd) = true
      · rw [if_pos h4] at h
        by_cases h5 : oDateLt (parseFullDate (M.deathDate.getD ""))
            (parseFullDate cbd) = true
        · rw [if_pos h5] at h
          injection h with h
          exact Or.inr (Or.inl h.symm)
        · rw [if_neg h5] at h
          cases h
      · rw [if_neg h4] at h
        by_cases h6 :
            oGtAdd (extractYear cbd) (extractYear (M.deathDate.getD "")) 0 = true
        · rw [if_pos h6] at h
          injection h with h
          exact Or.inr (Or.inr h.symm)
        · rw [if_neg h6] at h
          cases h
  · rw [if_neg h1] at h
    cases h

theorem fatherDateChecks_err {cbd : String} {F : Person} {e : PError}
    (h : fatherDateChecks cbd F = .error e) :
    fatherAgeCheck cbd F = .error e ∨ fatherDeathCheck cbd F = .error e := by
  unfold fatherDateChecks at h
  rcases exc_bind_err h with h1 | ⟨a, _, h2⟩
  · exact Or.inl h1
  · exact Or.inr h2

theorem motherDateChecks_err {cbd : String} {M : Person} {e : PError}
    (h : motherDateChecks cbd M = .error e) :
    motherAgeCheck cbd M = .error e ∨ motherDeathCheck cbd M = .error e := by
  unfold motherDateChecks at h
  rcases exc_bind_err h with h1 | ⟨a, _, h2⟩
  · exact Or.inl h1
  · exact Or.inr h2

/-- A string that parses as a full date splits into three parts. -/
theorem isFullDate_of_parseFullDate {str : String} {x : YMD}
    (h : parseFullDate str = some x) : isFullDate str = true := by
  unfold parseFullDate at h
  unfold isFullDate
  cases hs : splitDash str with
  | nil => rw [hs] at h; cases h
  | cons ys t1 =>
    cases t1 with
    | nil => rw [hs] at h; cases h
    | cons ms t2 =>
      cases t2 with
      | nil => rw [hs] at h; cases h
      | cons ds t3 =>
        cases t3 with
        | nil => rfl
        | cons d4 t4 => rw [hs] at h; cases h

theorem truthyStr_of_parseFullDate {str : String} {x : YMD}
    (h : parseFullDate str = some x) : truthyStr (some str) = true :=
  isFullDate_ne_empty (isFullDate_of_parseFullDate h)

/-- An untruthy `number | undefined` id is absent or `0`. -/
theorem truthyId_false {f : Option Nat} (h : truthyId f = false) :
    f = none ∨ f = some 0 := by
  cases f with
  | none => exact Or.inl rfl
  | some n =>
    right
    simp [truthyId] at h
    rw [h]

/-! ### No validator other than the orphan guard raises
`disconnectedPerson` -/

theorem fatherRoleCheck_err_ne {s : Store} {f : Option Nat} {e : PError}
    (h : fatherRoleCheck s f = .error e) : e ≠ .disconnectedPerson := by
  unfold fatherRoleCheck at h
  by_cases h1 : truthyId f = true
  · rw [if_pos h1] at h
    cases hf : findOneBy s (f.getD 0) with
    | none =>
      rw [hf] at h
      injection h with h
      subst h
      simp
    | some F =>
      rw [hf] at h
      dsimp only at h
      by_cases h2 : (F.gender != Gender.male) = true
      · rw [if_pos h2] at h
        injection h with h
        subst h
        simp
      · rw [if_neg h2] at h
        cases h
  · rw [if_neg h1] at h
    cases h

theorem motherRoleCheck_err_ne {s : Store} {m : Option Nat} {e : PError}
    (h : motherRoleCheck s m = .error e) : e ≠ .disconnectedPerson := by
  unfold motherRoleCheck at h
  by_cases h1 : truthyId m = true
  · rw [if_pos h1] at h
    cases hm : findOneBy s (m.getD 0) with
    | none =>
      rw [hm] at h
      injection h with h
      subst h
      simp
    | some M =>
      rw [hm] at h
      dsimp only at h
      by_cases h2 : (M.gender != Gender.female) = true
      · rw [if_pos h2] at h
        injection h with h
        subst h
        simp
      · rw [if_neg h2] at h
        cases h
  · rw [if_neg h1] at h
    cases h

theorem validateParents_err_ne {s : Store} {f m : Option Nat} {e : PError}
    (h : validateParents s f m = .error e) : e ≠ .disconnectedPerson := by
  unfold validateParents at h
  rcases exc_bind_err h with h1 | ⟨a, _, h2⟩
  · exact fatherRoleCheck_err_ne h1
  · exact motherRoleCheck_err_ne h2

theorem fatherDatePart_err_ne {s : Store} {cbd : String} {f : Option Nat}
    {e : PError} (h : fatherDatePart s cbd f = .error e) :
    e ≠ .disconnectedPerson := by
  unfold fatherDatePart at h
  by_cases h1 : truthyId f = true
  · rw [if_pos h1] at h
    cases hf : findOneBy s (f.getD 0) with
    | none => rw [hf] at h; cases h
    | some F =>
      rw [hf] at h
      rcases fatherDateChecks_err h with h2 | h2
      · rcases fatherAgeCheck_err h2 with rfl | rfl <;> simp
      · rcases fatherDeathCheck_err h2 with rfl | rfl | rfl <;> simp
  · rw [if_neg h1] at h
    cases h

theorem motherDatePart_err_ne {s : Store} {cbd : String} {m : Option Nat}
    {e : PError} (h : motherDatePart s cbd m = .error e) :
    e ≠ .disconnectedPerson := by
  unfold motherDatePart at h
  by_cases h1 : truthyId m = true
  · rw [if_pos h1] at h
    cases hm : findOneBy s (m.getD 0) with
    | none => rw [hm] at h; cases h
    | some M =>
      rw [hm] at h
      rcases motherDateChecks_err h with h2 | h2
      · rcases motherAgeCheck_err h2 with rfl | rfl <;> simp
      · rcases motherDeathCheck_err h2 with rfl | rfl | rfl <;> simp
  · rw [if_neg h1] at h
    cases h

theorem validateParentDates_err_ne {s : Store} {cbd : Option String}
    {f m : Option Nat} {e : PError}
    (h : validateParentDates s cbd f m = .error e) :
    e ≠ .disconnectedPerson := by
  unfold validateParentDates at h
  by_cases h1 : (!truthyStr cbd) = true
  · rw [if_pos h1] at h
    cases h
  · rw [if_neg h1] at h
    rcases exc_bind_err h with h2 | ⟨a, _, h2⟩
    · exact fatherDatePart_err_ne h2
    · exact motherDatePart_err_ne h2

theorem parentOwnDatesCheck_err {pb pd : Option String} {e : PError}
    (h : parentOwnDatesCheck pb pd = .error e) : e = .deathBeforeBirth := by
  unfold parentOwnDatesCheck at h
  split at h
  · split at h
    · split at h
      · injection h with h
        exact h.symm
      · cases h
    · cases h
  · cases h

theorem childDateChecks_err {g : Gender} {pb pd : Option Int}
    {l : List Person} {e : PError}
    (h : childDateChecks g pb pd l = .error e) : e ≠ .disconnectedPerson := by
  induction l with
  | nil =>
    unfold childDateChecks at h
    cases h
  | cons c rest ih =>
    unfold childDateChecks at h
    by_cases h1 : (!truthyStr c.birthDate) = true
    · rw [if_pos h1] at h
      exact ih h
    · rw [if_neg h1] at h
      dsimp only at h
      split at h
      · injection h with h
        subst h
        simp
      · split at h
        · split at h
          · split at h
            · injection h with h
              subst h
              simp
            · exact ih h
          · split at h
            · injection h with h
              subst h
              simp
            · exact ih h
        · exact ih h

theorem validateParentDatesForChildren_err_ne {ch : List Person} {g : Gender}
    {pb pd : Option String} {e : PError}
    (h : validateParentDatesForChildren ch g pb pd = .error e) :
    e ≠ .disconnectedPerson := by
  unfold validateParentDatesForChildren at h
  rcases exc_bind_err h with h1 | ⟨a, _, h2⟩
  · rw [parentOwnDatesCheck_err h1]
    simp
  · by_cases h3 : (!truthyStr pb) = true
    · rw [if_pos h3] at h2
      cases h2
    · rw [if_neg h3] at h2
      exact childDateChecks_err h2

theorem validateChildren_err_ne {s : Store} {cids : Option (List Nat)}
    {g : Option Gender} {bd dd : Option String} {e : PError}
    (h : validateChildren s cids g bd dd = .error e) :
    e ≠ .disconnectedPerson := by
  unfold validateChildren at h
  cases cids with
  | none => cases h
  | some ids =>
    dsimp only at h
    by_cases h1 : (ids.length == 0) = true
    · rw [if_pos h1] at h
      cases h
    · rw [if_neg h1] at h
      cases g with
      | none =>
        injection h with h
        subst h
        simp
      | some gg =>
        dsimp only at h
        by_cases h2 :
            ((s.filter (fun p => ids.contains p.id)).length != ids.length) = true
        · rw [if_pos h2] at h
          injection h with h
          subst h
          simp
        · rw [if_neg h2] at h
          cases hf : (s.filter (fun p => ids.contains p.id)).find?
              (hasRoleParent gg) with
          | some cwp =>
            rw [hf] at h
            injection h with h
            subst h
            simp
          | none =>
            rw [hf] at h
            cases hv : validateParentDatesForChildren
                (s.filter (fun p => ids.contains p.id)) gg bd dd with
            | ok u =>
              rw [hv] at h
              cases h
            | error e2 =>
              rw [hv] at h
              have he2 : e2 = e := by
                simp only [Except.map] at h
                injection h with h
              exact he2 ▸ validateParentDatesForChildren_err_ne hv

/-- The orphan guard rejects exactly a fully disconnected payload over a
non-empty store. -/
theorem validateNotOrphan_err {s : Store} {dto : CreatePersonDto} {e : PError}
    (h : validateNotOrphan s dto = .error e) :
    e = .disconnectedPerson ∧ dtoHasParent dto = false ∧
      dtoHasChildren dto = false ∧ dto.progenitor.getD false = false ∧
      s ≠ [] := by
  unfold validateNotOrphan at h
  by_cases h1 : (dtoHasParent dto || dtoHasChildren dto) = true
  · rw [if_pos h1] at h
    cases h
  · rw [if_neg h1] at h
    by_cases h2 : dto.progenitor.getD false = true
    · rw [if_pos h2] at h
      cases h
    · rw [if_neg h2] at h
      by_cases h3 : (s.length == 0) = true
      · rw [if_pos h3] at h
        cases h
      · rw [if_neg h3] at h
        injection h with h
        have hp : dtoHasParent dto = false ∧ dtoHasChildren dto = false := by
          simpa using h1
        refine ⟨h.symm, hp.1, hp.2, by simpa using h2, ?_⟩
        intro hnil
        subst hnil
        simp at h3

/-- The orphan guard does reject a fully disconnected payload over a
non-empty store. -/
theorem validateNotOrphan_disc {s : Store} {dto : CreatePersonDto}
    (hp : dtoHasParent dto = false) (hc : dtoHasChildren dto = false)
    (hg : dto.progenitor.getD false = false) (hs : s ≠ []) :
    validateNotOrphan s dto = .error .disconnectedPerson := by
  unfold validateNotOrphan
  rw [if_neg (by simp [hp, hc]), if_neg (by simp [hg]),
    if_neg (by simp [hs])]


theorem motherRoleCheck_pass {s : Store} {m : Option Nat} {M : Person}
    (hfind : findOneBy s (m.getD 0) = some M)
    (hg : M.gender = Gender.female) :
    motherRoleCheck s m = .ok () := by
  unfold motherRoleCheck
  by_cases ht : truthyId m = true
  · rw [if_pos ht, hfind]
    dsimp only
    rw [if_neg (by simp [hg])]
  · rw [if_neg ht]

/-! ### Claims -/

/-- Claim C1 (single-progenitor invariant, amended): starting from a
well-formed store with at most one `progenitor = true` row, any
successfully committed sequence of operations none of which carries an
explicit `progenitor = true` payload leaves at most one flagged row.
(The unamended claim is refuted by `C1_counterexample`: `create` never
checks an explicit progenitor flag against the store.) -/
theorem C1_single_progenitor {s s' : Store} {ops : List Op}
    (hwf : Wf s) (hp : ProgOk s)
    (hops : ∀ op ∈ ops, opNoExplicitProgenitor op = true)
    (hrun : runOps s ops = .ok s') : ProgOk s' :=
  runOps_progOk hwf hp hops hrun

/-- Claim C1, counterexample to the frozen wording: a store holding one
progenitor accepts a `create` whose payload sets `progenitor = true`,
committing a second flagged row. -/
theorem C1_counterexample :
    ProgOk cexStoreC1 ∧
    (create cexStoreC1 cexDtoC1).map (fun r => progCount r.1) = .ok 2 := by
  constructor
  · show progCount cexStoreC1 ≤ 1
    decide
  · rfl

/-- Claim C1, witness: a promotion over a one-progenitor store commits
and keeps the count at one. -/
theorem C1_witness :
    ∃ s', runOps witStoreC1 witOpsC1 = .ok s' ∧ ProgOk s' := by
  refine ⟨promotedStore witStoreC1 witDtoPromC1, rfl, ?_⟩
  exact @C1_single_progenitor witStoreC1 (promotedStore witStoreC1 witDtoPromC1)
    witOpsC1 (by unfold Wf RefsOk; decide)
    (by show progCount witStoreC1 ≤ 1; decide)
    (by decide) rfl

/-- Claim C2 (acyclicity invariant, amended): starting from a
well-formed acyclic store, any successfully committed sequence of
operations avoiding the unguarded combination — a `create` that carries
both a parent id and children ids — leaves the parent graph acyclic.
(The unamended claim is refuted by `C2_counterexample`: that `create`
combination commits a cycle without any check.) -/
theorem C2_acyclicity {s s' : Store} {ops : List Op}
    (hwf : Wf s) (hac : Acyclic s)
    (hops : ∀ op ∈ ops, opCycleGuarded op = true)
    (hrun : runOps s ops = .ok s') : Acyclic s' :=
  runOps_acyclic hwf hac hops hrun

/-- Claim C2, counterexample to the frozen wording: over the acyclic
store `2 → 1`, a `create` with `fatherId = 2` and `childrenIds = [1]`
commits (no `CycleDetected`), and the committed store has the cycle
`1 → 3 → 2 → 1`. -/
theorem C2_counterexample :
    Acyclic cexStoreC2 ∧
    create cexStoreC2 cexDtoC2 = .ok (cexOutC2, cexNewC2) ∧
    ¬ Acyclic cexOutC2 := by
  refine ⟨acyclic_of_edgeDecB (by decide), rfl, ?_⟩
  intro hac
  have e1 : parentEdge cexOutC2 1 3 :=
    ⟨{ cexGrandB with fatherId := some 3 }, by decide, rfl, Or.inl rfl⟩
  have e2 : parentEdge cexOutC2 3 2 := ⟨cexNewC2, by decide, rfl, Or.inl rfl⟩
  have e3 : parentEdge cexOutC2 2 1 := ⟨cexMidA, by decide, rfl, Or.inl rfl⟩
  exact hac 1 (Relation.TransGen.head e1
    (Relation.TransGen.head e2 (Relation.TransGen.single e3)))

/-- Claim C2, witness: a guarded `create` over an acyclic store commits
and stays acyclic. -/
theorem C2_witness :
    ∃ s', runOps witStoreC2 witOpsC2 = .ok s' ∧ Acyclic s' := by
  refine ⟨witStoreC2 ++ [mkCreatePerson witStoreC2 witDtoCreateC2], rfl, ?_⟩
  exact @C2_acyclicity witStoreC2
    (witStoreC2 ++ [mkCreatePerson witStoreC2 witDtoCreateC2]) witOpsC2
    (by unfold Wf RefsOk; decide)
    (acyclic_of_edgeDecB (by decide))
    (by decide) rfl

/-- Claim C3 (promotion atomicity): any injected transaction failure
makes `promoteAncestor` throw; on any error the caller's store is the
untouched original and the new ancestor row does not exist in it; on
success the new ancestor row is in the committed store with
`progenitor = true`, the former progenitor is demoted (flag cleared,
father or mother id per the requested role set to the new ancestor's
id), and every row other than the former progenitor is kept. -/
theorem C3_promotion_atomicity (s : Store) (dto : PromoteAncestorDto)
    (tx : TxFail) :
    ((tx.failSave || tx.failUpdate || tx.failCommit) = true →
       ∃ e, promoteAncestor s dto tx = .error e) ∧
    (∀ e, promoteAncestor s dto tx = .error e →
       promoteResultStore s dto tx = s ∧ mkAncestor s dto ∉ s) ∧
    (∀ s' p, promoteAncestor s dto tx = .ok (s', p) →
       p = mkAncestor s dto ∧ p.progenitor = true ∧ p ∈ s' ∧
       ∃ cp, findProgenitor s = some cp ∧
         cp.id = dto.currentProgenitorId ∧
         demote dto p.id cp ∈ s' ∧
         ∀ q ∈ s, q.id ≠ dto.currentProgenitorId → q ∈ s') := by
  refine ⟨?_, ?_, ?_⟩
  · intro hfail
    cases hr : promoteAncestor s dto tx with
    | error e => exact ⟨e, rfl⟩
    | ok r =>
      exfalso
      obtain ⟨s', p⟩ := r
      obtain ⟨cp, _, _, _, hts, htu, htc, _, _⟩ := promoteAncestor_ok_inv hr
      rw [hts, htu, htc] at hfail
      simp at hfail
  · intro e he
    constructor
    · unfold promoteResultStore
      rw [he]
    · intro hmem
      have hlt := id_lt_nextId hmem
      simp [mkAncestor] at hlt
  · intro s' p h
    obtain ⟨cp, hfp, hid, _, _, _, _, hp, hs'⟩ := promoteAncestor_ok_inv h
    subst hp
    subst hs'
    have hcpmem : cp ∈ s := (findProgenitor_some hfp).1
    have hlt : dto.currentProgenitorId < nextId s := by
      have h2 := id_lt_nextId hcpmem
      rwa [hid] at h2
    refine ⟨rfl, rfl, ?_, cp, hfp, hid, ?_, ?_⟩
    · unfold promotedStore
      refine List.mem_map.mpr ⟨mkAncestor s dto, by simp, ?_⟩
      rw [if_neg (by simp [mkAncestor]; omega)]
    · unfold promotedStore
      refine List.mem_map.mpr ⟨cp, by simp [hcpmem], ?_⟩
      rw [if_pos (by simp [hid])]
    · intro q hq hqne
      unfold promotedStore
      refine List.mem_map.mpr ⟨q, by simp [hq], ?_⟩
      rw [if_neg (by simp [hqne])]

/-- Claim C3, witness: with a commit failure injected, the promotion
throws and the visible store is the original. -/
theorem C3_witness :
    (∃ e, promoteAncestor witStoreC3 witDtoC3 witTxC3 = .error e) ∧
    ∀ e, promoteAncestor witStoreC3 witDtoC3 witTxC3 = .error e →
      promoteResultStore witStoreC3 witDtoC3 witTxC3 = witStoreC3 := by
  have h := C3_promotion_atomicity witStoreC3 witDtoC3 witTxC3
  exact ⟨h.1 (by decide), fun e he => (h.2.1 e he).1⟩

/-- Claim C4 (self-parent exclusion on update, amended): an update that
sets a person's `fatherId` (or `motherId`) to its own id always fails —
with `selfParent` exactly when the earlier validators pass, e.g. a male
target without a birth date for `fatherId` (a female target without a
birth date for `motherId`) — and every committed sequence of operations
preserves "no row is its own parent".  (The unamended wording "fails
with SelfParent" is refuted by `C4_counterexample`: the role validator
runs first, so a female target yields `fatherNotMale`.) -/
theorem C4_self_parent_exclusion {s : Store} {X : Person}
    (hX : findOneBy s X.id = some X) :
    (∃ e, updatePerson s X.id (fatherSelfDto X.id) = .error e) ∧
    (∃ e, updatePerson s X.id (motherSelfDto X.id) = .error e) ∧
    (X.gender = Gender.male → X.birthDate = none →
       updatePerson s X.id (fatherSelfDto X.id) = .error .selfParent) ∧
    (X.gender = Gender.female → X.birthDate = none →
       updatePerson s X.id (motherSelfDto X.id) = .error .selfParent) ∧
    (∀ (t t' : Store) (ops : List Op), Wf t → NoSelfParent t →
       runOps t ops = .ok t' → NoSelfParent t') := by
  refine ⟨?_, ?_, ?_, ?_, fun t t' ops hwf hn hr => runOps_nsp hwf hn hr⟩
  · cases hr : updatePerson s X.id (fatherSelfDto X.id) with
    | error e => exact ⟨e, rfl⟩
    | ok r =>
      exfalso
      obtain ⟨s', p'⟩ := r
      obtain ⟨person, _, _, _, hself, _⟩ := updatePerson_ok_inv hr
      unfold updSelfStage fatherSelfDto at hself
      simp at hself
  · cases hr : updatePerson s X.id (motherSelfDto X.id) with
    | error e => exact ⟨e, rfl⟩
    | ok r =>
      exfalso
      obtain ⟨s', p'⟩ := r
      obtain ⟨person, _, _, _, hself, _⟩ := updatePerson_ok_inv hr
      unfold updSelfStage motherSelfDto at hself
      simp at hself
  · intro hg hb
    unfold updatePerson
    rw [hX]
    dsimp only
    rw [exc_bind_ok_left (show (pure X : Except PError Person) = .ok X from rfl)]
    have h1 : updParentsStage s (fatherSelfDto X.id) = .ok () := by
      unfold updParentsStage
      by_cases hz : X.id = 0
      · rw [if_neg (by simp [fatherSelfDto, truthyNN, hz])]
      · rw [if_pos (by simp [fatherSelfDto, truthyNN, hz])]
        unfold validateParents
        rw [exc_bind_ok_left (fatherRoleCheck_pass hX hg)]
        rfl
    have h2 : updDatesStage s X (fatherSelfDto X.id) = .ok () := by
      unfold updDatesStage
      by_cases hz : X.id = 0
      · rw [if_neg (by simp [fatherSelfDto, truthyNN, truthyStr, hz])]
      · rw [if_pos (by simp [fatherSelfDto, truthyNN, hz])]
        unfold validateParentDates
        rw [hb]
        rw [if_pos (by rfl)]
    rw [exc_bind_ok_left h1, exc_bind_ok_left h2]
    exact exc_bind_error_left (by unfold updSelfStage fatherSelfDto; simp)
  · intro hg hb
    unfold updatePerson
    rw [hX]
    dsimp only
    rw [exc_bind_ok_left (show (pure X : Except PError Person) = .ok X from rfl)]
    have h1 : updParentsStage s (motherSelfDto X.id) = .ok () := by
      unfold updParentsStage
      by_cases hz : X.id = 0
      · rw [if_neg (by simp [motherSelfDto, truthyNN, hz])]
      · rw [if_pos (by simp [motherSelfDto, truthyNN, hz])]
        unfold validateParents
        rw [exc_bind_ok_left
          (show fatherRoleCheck s (joinNN (motherSelfDto X.id).fatherId) = .ok ()
            from rfl)]
        exact motherRoleCheck_pass hX hg
    have h2 : updDatesStage s X (motherSelfDto X.id) = .ok () := by
      unfold updDatesStage
      by_cases hz : X.id = 0
      · rw [if_neg (by simp [motherSelfDto, truthyNN, truthyStr, hz])]
      · rw [if_pos (by simp [motherSelfDto, truthyNN, hz])]
        unfold validateParentDates
        rw [hb]
        rw [if_pos (by rfl)]
    rw [exc_bind_ok_left h1, exc_bind_ok_left h2]
    exact exc_bind_error_left (by unfold updSelfStage motherSelfDto; simp)

/-- Claim C4, counterexample to the frozen wording: the self-parent
update on a female row fails with the role error `fatherNotMale`, not
`selfParent`. -/
theorem C4_counterexample :
    (∃ X ∈ cexStoreC4, X.id = 1) ∧
    updatePerson cexStoreC4 1 (fatherSelfDto 1) = .error (.fatherNotMale 1) ∧
    PError.fatherNotMale 1 ≠ PError.selfParent := by
  refine ⟨⟨cexPersonC4, by decide, rfl⟩, rfl, by simp⟩

/-- Claim C4, witness: on a male row without birth date the self-parent
update fails with `selfParent` itself. -/
theorem C4_witness :
    updatePerson witStoreC4 witPersonC4.id (fatherSelfDto witPersonC4.id) =
      .error .selfParent :=
  (@C4_self_parent_exclusion witStoreC4 witPersonC4 rfl).2.2.1 rfl rfl

/-- Claim C5 (role-gender consistency): on `create` and on
`updatePerson`, a supplied father id resolving to a female row fails
with the role error `fatherNotMale` (`InvalidRole`), an unresolvable one
with `fatherNotFound` (`NotFound`); symmetrically a mother id resolving
to a male row fails with `motherNotFemale` and an unresolvable one with
`motherNotFound` (the mother clauses assume the father check passes,
since the father is validated first).  An error commits nothing: the
operation returns no store. -/
theorem C5_role_gender (s : Store) :
    (∀ dto : CreatePersonDto,
      (∀ F, truthyId dto.fatherId = true →
        findOneBy s (dto.fatherId.getD 0) = some F →
        F.gender = Gender.female →
        create s dto = .error (.fatherNotMale (dto.fatherId.getD 0)) ∧
          (PError.fatherNotMale (dto.fatherId.getD 0)).isInvalidRole = true) ∧
      (truthyId dto.fatherId = true →
        findOneBy s (dto.fatherId.getD 0) = none →
        create s dto = .error (.fatherNotFound (dto.fatherId.getD 0))) ∧
      (∀ M, fatherRoleCheck s dto.fatherId = .ok () →
        truthyId dto.motherId = true →
        findOneBy s (dto.motherId.getD 0) = some M →
        M.gender = Gender.male →
        create s dto = .error (.motherNotFemale (dto.motherId.getD 0)) ∧
          (PError.motherNotFemale (dto.motherId.getD 0)).isInvalidRole = true) ∧
      (fatherRoleCheck s dto.fatherId = .ok () →
        truthyId dto.motherId = true →
        findOneBy s (dto.motherId.getD 0) = none →
        create s dto = .error (.motherNotFound (dto.motherId.getD 0)))) ∧
    (∀ (pid : Nat) (dto : UpdatePersonDto) (X : Person),
      findOneBy s pid = some X →
      (∀ F, truthyNN dto.fatherId = true →
        findOneBy s ((joinNN dto.fatherId).getD 0) = some F →
        F.gender = Gender.female →
        updatePerson s pid dto =
          .error (.fatherNotMale ((joinNN dto.fatherId).getD 0))) ∧
      (truthyNN dto.fatherId = true →
        findOneBy s ((joinNN dto.fatherId).getD 0) = none →
        updatePerson s pid dto =
          .error (.fatherNotFound ((joinNN dto.fatherId).getD 0))) ∧
      (∀ M, fatherRoleCheck s (joinNN dto.fatherId) = .ok () →
        truthyNN dto.motherId = true →
        findOneBy s ((joinNN dto.motherId).getD 0) = some M →
        M.gender = Gender.male →
        updatePerson s pid dto =
          .error (.motherNotFemale ((joinNN dto.motherId).getD 0))) ∧
      (fatherRoleCheck s (joinNN dto.fatherId) = .ok () →
        truthyNN dto.motherId = true →
        findOneBy s ((joinNN dto.motherId).getD 0) = none →
        updatePerson s pid dto =
          .error (.motherNotFound ((joinNN dto.motherId).getD 0)))) := by
  constructor
  · intro dto
    refine ⟨?_, ?_, ?_, ?_⟩
    · intro F ht hfind hg
      refine ⟨?_, rfl⟩
      exact create_err_parents (by simp [dtoHasParent, ht])
        (validateParents_err_father
          (fatherRoleCheck_notMale ht hfind (by simp [hg])))
    · intro ht hfind
      exact create_err_parents (by simp [dtoHasParent, ht])
        (validateParents_err_father (fatherRoleCheck_notFound ht hfind))
    · intro M hfok ht hfind hg
      refine ⟨?_, rfl⟩
      exact create_err_parents (by simp [dtoHasParent, ht])
        (validateParents_err_mother hfok
          (motherRoleCheck_notFemale ht hfind (by simp [hg])))
    · intro hfok ht hfind
      exact create_err_parents (by simp [dtoHasParent, ht])
        (validateParents_err_mother hfok (motherRoleCheck_notFound ht hfind))
  · intro pid dto X hX
    refine ⟨?_, ?_, ?_, ?_⟩
    · intro F ht hfind hg
      refine updatePerson_err_parents hX (by simp [truthyId_joinNN, ht]) ?_
      exact validateParents_err_father
        (fatherRoleCheck_notMale (by rwa [truthyId_joinNN]) hfind (by simp [hg]))
    · intro ht hfind
      refine updatePerson_err_parents hX (by simp [truthyId_joinNN, ht]) ?_
      exact validateParents_err_father
        (fatherRoleCheck_notFound (by rwa [truthyId_joinNN]) hfind)
    · intro M hfok ht hfind hg
      refine updatePerson_err_parents hX (by simp [truthyId_joinNN, ht]) ?_
      exact validateParents_err_mother hfok
        (motherRoleCheck_notFemale (by rwa [truthyId_joinNN]) hfind
          (by simp [hg]))
    · intro hfok ht hfind
      refine updatePerson_err_parents hX (by simp [truthyId_joinNN, ht]) ?_
      exact validateParents_err_mother hfok
        (motherRoleCheck_notFound (by rwa [truthyId_joinNN]) hfind)

/-- Claim C5, witness: a `create` whose father id resolves to a female
row fails with `fatherNotMale`, an `InvalidRole` error. -/
theorem C5_witness :
    create witStoreC5 witCDtoC5 = .error (.fatherNotMale 1) ∧
    (PError.fatherNotMale 1).isInvalidRole = true :=
  ((C5_role_gender witStoreC5).1 witCDtoC5).1 witFayeC5 (by decide) rfl rfl


/-- Claim C6 (minimum parent age): with a child birth date carrying a
year and a resolved parent whose birth date carries a year, the
temporal validator fails with an `ImplausibleAge` error if and only if
the parent's birth year is not strictly below the child's or the gap is
under 14 years — independently for the father and for the mother. -/
theorem C6_minimum_parent_age {s : Store} {cbd : String} {cy : Int}
    (hcy : extractYear cbd = some cy) :
    (∀ (fid : Nat) (F : Person) (fb : String) (py : Int), fid ≠ 0 →
       findOneBy s fid = some F → F.birthDate = some fb →
       extractYear fb = some py →
       (resultIsImplausibleAge
           (validateParentDates s (some cbd) (some fid) none) = true ↔
         (¬ py < cy ∨ cy - py < 14))) ∧
    (∀ (mid : Nat) (M : Person) (mb : String) (py : Int), mid ≠ 0 →
       findOneBy s mid = some M → M.birthDate = some mb →
       extractYear mb = some py →
       (resultIsImplausibleAge
           (validateParentDates s (some cbd) none (some mid)) = true ↔
         (¬ py < cy ∨ cy - py < 14))) := by
  constructor
  · intro fid F fb py hfid hF hfb hpy
    have hred : validateParentDates s (some cbd) (some fid) none =
        fatherDateChecks cbd F := by
      unfold validateParentDates
      rw [if_neg (by simp [truthyStr_of_extractYear hcy])]
      have hfdp : fatherDatePart s cbd (some fid) = fatherDateChecks cbd F := by
        unfold fatherDatePart
        rw [if_pos (by simp [truthyId, hfid]),
          show (some fid).getD 0 = fid from rfl, hF]
      rw [show ((some cbd).getD "") = cbd from rfl, hfdp]
      cases hdc : fatherDateChecks cbd F with
      | ok u =>
        cases u
        rfl
      | error e => rfl
    rw [hred]
    by_cases hge : py ≥ cy
    · have hout : fatherDateChecks cbd F = .error .fatherBornAfterChild := by
        unfold fatherDateChecks fatherAgeCheck
        rw [hfb, if_pos (by simp [truthyStr_of_extractYear hpy])]
        rw [show ((some fb).getD "") = fb from rfl, hpy, hcy]
        rw [if_pos (by simp [oGe, hge])]
        rfl
      rw [hout]
      exact iff_of_true rfl (Or.inl (not_lt.mpr hge))
    · by_cases hgap : cy - py < 14
      · have hout : fatherDateChecks cbd F = .error .fatherTooYoung := by
          unfold fatherDateChecks fatherAgeCheck
          rw [hfb, if_pos (by simp [truthyStr_of_extractYear hpy])]
          rw [show ((some fb).getD "") = fb from rfl, hpy, hcy]
          rw [if_neg (by simp [oGe, hge]), if_pos (by simp [oSubLt, hgap])]
          rfl
        rw [hout]
        exact iff_of_true rfl (Or.inr hgap)
      · have hao : fatherAgeCheck cbd F = .ok () := by
          unfold fatherAgeCheck
          rw [hfb, if_pos (by simp [truthyStr_of_extractYear hpy])]
          rw [show ((some fb).getD "") = fb from rfl, hpy, hcy]
          rw [if_neg (by simp [oGe, hge]), if_neg (by simp [oSubLt, hgap])]
        have hch : fatherDateChecks cbd F = fatherDeathCheck cbd F := by
          unfold fatherDateChecks
          rw [exc_bind_ok_left hao]
        rw [hch]
        constructor
        · intro hria
          exfalso
          cases hdc : fatherDeathCheck cbd F with
          | ok u =>
            cases u
            rw [hdc] at hria
            simp [resultIsImplausibleAge] at hria
          | error e =>
            rw [hdc] at hria
            rcases fatherDeathCheck_err hdc with rfl | rfl | rfl <;>
              simp [resultIsImplausibleAge, PError.isImplausibleAge] at hria
        · intro hrhs
          rcases hrhs with hl | hr
          · exact absurd (not_le.mp hge) hl
          · exact absurd hr hgap
  · intro mid M mb py hmid hM hmb hpy
    have hred : validateParentDates s (some cbd) none (some mid) =
        motherDateChecks cbd M := by
      unfold validateParentDates
      rw [if_neg (by simp [truthyStr_of_extractYear hcy])]
      rw [show ((some cbd).getD "") = cbd from rfl]
      rw [exc_bind_ok_left (show fatherDatePart s cbd none = .ok () from rfl)]
      unfold motherDatePart
      rw [if_pos (by simp [truthyId, hmid]),
        show (some mid).getD 0 = mid from rfl, hM]
    rw [hred]
    by_cases hge : py ≥ cy
    · have hout : motherDateChecks cbd M = .error .motherBornAfterChild := by
        unfold motherDateChecks motherAgeCheck
        rw [hmb, if_pos (by simp [truthyStr_of_extractYear hpy])]
        rw [show ((some mb).getD "") = mb from rfl, hpy, hcy]
        rw [if_pos (by simp [oGe, hge])]
        rfl
      rw [hout]
      exact iff_of_true rfl (Or.inl (not_lt.mpr hge))
    · by_cases hgap : cy - py < 14
      · have hout : motherDateChecks cbd M = .error .motherTooYoung := by
          unfold motherDateChecks motherAgeCheck
          rw [hmb, if_pos (by simp [truthyStr_of_extractYear hpy])]
          rw [show ((some mb).getD "") = mb from rfl, hpy, hcy]
          rw [if_neg (by simp [oGe, hge]), if_pos (by simp [oSubLt, hgap])]
          rfl
        rw [hout]
        exact iff_of_true rfl (Or.inr hgap)
      · have hao : motherAgeCheck cbd M = .ok () := by
          unfold motherAgeCheck
          rw [hmb, if_pos (by simp [truthyStr_of_extractYear hpy])]
          rw [show ((some mb).getD "") = mb from rfl, hpy, hcy]
          rw [if_neg (by simp [oGe, hge]), if_neg (by simp [oSubLt, hgap])]
        have hch : motherDateChecks cbd M = motherDeathCheck cbd M := by
          unfold motherDateChecks
          rw [exc_bind_ok_left hao]
        rw [hch]
        constructor
        · intro hria
          exfalso
          cases hdc : motherDeathCheck cbd M with
          | ok u =>
            cases u
            rw [hdc] at hria
            simp [resultIsImplausibleAge] at hria
          | error e =>
            rw [hdc] at hria
            rcases motherDeathCheck_err hdc with rfl | rfl | rfl <;>
              simp [resultIsImplausibleAge, PError.isImplausibleAge] at hria
        · intro hrhs
          rcases hrhs with hl | hr
          · exact absurd (not_le.mp hge) hl
          · exact absurd hr hgap

/-- Claim C6, witness: a father born 1900 with a child born 1905 (gap
5 < 14) is rejected as an `ImplausibleAge` failure. -/
theorem C6_witness :
    resultIsImplausibleAge
      (validateParentDates witStoreC6 (some "1905") (some 1) none) = true := by
  have h := (@C6_minimum_parent_age witStoreC6 "1905" 1905 rfl).1
    1 witFatherC6 "1900" 1900 (by decide) rfl rfl rfl
  exact h.mpr (Or.inr (by decide))

/-- Claim C7 (father year-only death window): with a year-only father
death date and a child birth date carrying a year, the father death
check passes if and only if the child's birth year is at most the death
year plus one; lifted to the whole temporal validator when the father
has no birth date. -/
theorem C7_father_death_window {F : Person} {cbd d : String} {cy dy : Int}
    (hd : F.deathDate = some d) (hyo : isYearOnly d = true)
    (hcy : extractYear cbd = some cy) (hdy : extractYear d = some dy) :
    (fatherDeathCheck cbd F = .ok () ↔ cy ≤ dy + 1) ∧
    (F.birthDate = none → ∀ (s : Store) (fid : Nat), fid ≠ 0 →
      findOneBy s fid = some F →
      (validateParentDates s (some cbd) (some fid) none = .ok () ↔
        cy ≤ dy + 1)) := by
  have hdc : fatherDeathCheck cbd F =
      (if cy > dy + 1 then .error .fatherDeathYearOnlyTooEarly
       else .ok ()) := by
    unfold fatherDeathCheck
    rw [hd]
    rw [if_pos (by simp [truthyStr_of_extractYear hdy])]
    rw [show ((some d).getD "") = d from rfl]
    rw [if_pos hyo, hcy, hdy]
    by_cases hgt : cy > dy + 1
    · rw [if_pos (by simp [oGtAdd, hgt]), if_pos hgt]
    · rw [if_neg (by simp [oGtAdd, hgt]), if_neg hgt]
  constructor
  · rw [hdc]
    by_cases hgt : cy > dy + 1
    · rw [if_pos hgt]
      exact iff_of_false (by simp) (by omega)
    · rw [if_neg hgt]
      exact iff_of_true rfl (by omega)
  · intro hb s fid hfid hF
    have hred : validateParentDates s (some cbd) (some fid) none =
        fatherDeathCheck cbd F := by
      unfold validateParentDates
      rw [if_neg (by simp [truthyStr_of_extractYear hcy])]
      rw [show ((some cbd).getD "") = cbd from rfl]
      have hfdp : fatherDatePart s cbd (some fid) = fatherDeathCheck cbd F := by
        unfold fatherDatePart
        rw [if_pos (by simp [truthyId, hfid]),
          show (some fid).getD 0 = fid from rfl, hF]
        dsimp only
        unfold fatherDateChecks
        rw [exc_bind_ok_left (show fatherAgeCheck cbd F = .ok () from by
          unfold fatherAgeCheck
          rw [hb]
          rfl)]
      rw [hfdp]
      cases hdc2 : fatherDeathCheck cbd F with
      | ok u =>
        cases u
        rfl
      | error e => rfl
    rw [hred, hdc]
    by_cases hgt : cy > dy + 1
    · rw [if_pos hgt]
      exact iff_of_false (by simp) (by omega)
    · rw [if_neg hgt]
      exact iff_of_true rfl (by omega)

/-- Claim C7, witness: a father who died "1950" (year-only) passes for
a child born 1951 and fails for one born 1952. -/
theorem C7_witness :
    validateParentDates witStoreC7 (some "1951") (some 1) none = .ok () ∧
    validateParentDates witStoreC7 (some "1952") (some 1) none ≠ .ok () := by
  have h1951 := (@C7_father_death_window witFatherC7 "1951" "1950" 1951 1950
    rfl (by decide) rfl rfl).2 rfl witStoreC7 1 (by decide) rfl
  have h1952 := (@C7_father_death_window witFatherC7 "1952" "1950" 1952 1950
    rfl (by decide) rfl rfl).2 rfl witStoreC7 1 (by decide) rfl
  exact ⟨h1951.mpr (by decide),
    fun hc => absurd (h1952.mp hc) (by decide)⟩

/-- Claim C8 (mother full-precision death rule, amended): with both the
mother's death date and the child's birth date at full precision (and
no mother birth date in play), the validator fails with
`motherDeathFullTooEarly` exactly when the mother's death date
strictly precedes the child's birth date, and passes otherwise.  (The
frozen wording — fail when the birth precedes the death — is refuted by
`C8_counterexample`.) -/
theorem C8_mother_full_death {s : Store} {mid : Nat} {M : Person}
    {cbd dd : String} {cb md : YMD}
    (hmid : mid ≠ 0) (hM : findOneBy s mid = some M)
    (hnb : M.birthDate = none) (hd : M.deathDate = some dd)
    (hcb : parseFullDate cbd = some cb) (hmd : parseFullDate dd = some md) :
    (validateParentDates s (some cbd) none (some mid) =
        .error .motherDeathFullTooEarly ↔ ymdLt md cb = true) ∧
    (validateParentDates s (some cbd) none (some mid) = .ok () ↔
        ymdLt md cb = false) := by
  have hdd3 : isFullDate dd = true := isFullDate_of_parseFullDate hmd
  have hcbd3 : isFullDate cbd = true := isFullDate_of_parseFullDate hcb
  have hdc : motherDeathCheck cbd M =
      (if ymdLt md cb then .error .motherDeathFullTooEarly else .ok ()) := by
    unfold motherDeathCheck
    rw [hd]
    rw [if_pos (by simp [truthyStr_of_parseFullDate hmd])]
    rw [show ((some dd).getD "") = dd from rfl]
    rw [if_neg (by simp [isYearOnly_of_isFullDate hdd3])]
    rw [if_pos (by simp [hdd3, hcbd3])]
    rw [hmd, hcb]
    by_cases hlt : ymdLt md cb = true
    · rw [if_pos (by simp [oDateLt, hlt]), if_pos hlt]
    · rw [if_neg (by simp [oDateLt, hlt]), if_neg hlt]
  have hred : validateParentDates s (some cbd) none (some mid) =
      motherDeathCheck cbd M := by
    unfold validateParentDates
    rw [if_neg (by simp [truthyStr_of_parseFullDate hcb])]
    rw [show ((some cbd).getD "") = cbd from rfl]
    rw [exc_bind_ok_left (show fatherDatePart s cbd none = .ok () from rfl)]
    unfold motherDatePart
    rw [if_pos (by simp [truthyId, hmid]),
      show (some mid).getD 0 = mid from rfl, hM]
    dsimp only
    unfold motherDateChecks
    rw [exc_bind_ok_left (show motherAgeCheck cbd M = .ok () from by
      unfold motherAgeCheck
      rw [hnb]
      rfl)]
  constructor
  · rw [hred, hdc]
    by_cases hlt : ymdLt md cb = true
    · rw [if_pos hlt]
      exact iff_of_true rfl hlt
    · rw [if_neg hlt]
      exact iff_of_false (by simp) hlt
  · rw [hred, hdc]
    by_cases hlt : ymdLt md cb = true
    · rw [if_pos hlt]
      exact iff_of_false (by simp) (by simp [hlt])
    · rw [if_neg hlt]
      exact iff_of_true rfl (by simpa using hlt)

/-- Claim C8, counterexample to the frozen wording: the child's birth
date 1950-01-01 strictly precedes the mother's death date 1950-06-01
(both full precision), yet the validator accepts the pair. -/
theorem C8_counterexample :
    isFullDate "1950-01-01" = true ∧
    cexMotherC8.deathDate = some "1950-06-01" ∧
    isFullDate "1950-06-01" = true ∧
    oDateLt (parseFullDate "1950-01-01") (parseFullDate "1950-06-01") = true ∧
    validateParentDates cexStoreC8 (some "1950-01-01") none (some 1) =
      .ok () := by
  exact ⟨by decide, rfl, by decide, by decide, rfl⟩

/-- Claim C8, witness: a child born 1950-07-01, after the mother's
death on 1950-06-01, is rejected with `motherDeathFullTooEarly`. -/
theorem C8_witness :
    validateParentDates cexStoreC8 (some "1950-07-01") none (some 1) =
      .error .motherDeathFullTooEarly := by
  have h := (@C8_mother_full_death cexStoreC8 1 cexMotherC8 "1950-07-01"
    "1950-06-01" ⟨1950, 7, 1⟩ ⟨1950, 6, 1⟩ (by decide) rfl rfl rfl
    (by decide) (by decide)).1
  exact h.mpr (by decide)

/-- Claim C9 (connectivity guard at creation): for payloads whose
parent-id fields are not the JS-falsy `0`, `create` fails with
`disconnectedPerson` exactly when the payload has no father id, no
mother id, no non-empty children list and no progenitor flag while the
store is non-empty; over the empty store such a payload is committed
with `progenitor = true`. -/
theorem C9_connectivity_guard {s : Store} {dto : CreatePersonDto}
    (hf0 : dto.fatherId ≠ some 0) (hm0 : dto.motherId ≠ some 0) :
    (create s dto = .error .disconnectedPerson ↔
       (dto.fatherId = none ∧ dto.motherId = none ∧
        dtoHasChildren dto = false ∧ dto.progenitor.getD false = false ∧
        s ≠ [])) ∧
    (s = [] → dto.fatherId = none → dto.motherId = none →
       dtoHasChildren dto = false → dto.progenitor.getD false = false →
       create s dto =
         .ok ([mkCreatePerson [] { dto with progenitor := some true }],
              mkCreatePerson [] { dto with progenitor := some true }) ∧
       (mkCreatePerson [] { dto with progenitor := some true }).progenitor =
         true) := by
  constructor
  · constructor
    · intro h
      unfold create at h
      rcases exc_bind_err h with h1 | ⟨dto1, hok, h⟩
      · obtain ⟨_, hp, hc, hg, hs⟩ := validateNotOrphan_err h1
        have hpair : truthyId dto.fatherId = false ∧
            truthyId dto.motherId = false := by
          simpa [dtoHasParent] using hp
        refine ⟨?_, ?_, hc, hg, hs⟩
        · rcases truthyId_false hpair.1 with hn | h0
          · exact hn
          · exact absurd h0 hf0
        · rcases truthyId_false hpair.2 with hn | h0
          · exact hn
          · exact absurd h0 hm0
      · rcases exc_bind_err h with h2 | ⟨u, _, h⟩
        · exact absurd rfl (validateParents_err_ne h2)
        · rcases exc_bind_err h with h3 | ⟨u2, _, h⟩
          · exact absurd rfl (validateParentDates_err_ne h3)
          · rcases exc_bind_err h with h4 | ⟨ch, _, h⟩
            · exact absurd rfl (validateChildren_err_ne h4)
            · exact absurd h exc_pure_ne_error
    · rintro ⟨hfn, hmn, hc, hg, hs⟩
      unfold create
      exact exc_bind_error_left (validateNotOrphan_disc
        (by simp [dtoHasParent, hfn, hmn, truthyId]) hc hg hs)
  · rintro rfl hfn hmn hc hg
    refine ⟨?_, rfl⟩
    unfold create
    have h1 : validateNotOrphan [] dto =
        .ok { dto with progenitor := some true } := by
      unfold validateNotOrphan
      rw [if_neg (by simp [dtoHasParent, hfn, hmn, truthyId, hc])]
      rw [if_neg (by simp [hg])]
      rw [if_pos (by simp)]
    rw [exc_bind_ok_left h1]
    have h2 : validateParents [] dto.fatherId dto.motherId = .ok () := by
      rw [hfn, hmn]
      rfl
    rw [exc_bind_ok_left h2]
    have h3 : validateParentDates [] dto.birthDate dto.fatherId
        dto.motherId = .ok () := by
      rw [hfn, hmn]
      unfold validateParentDates
      by_cases hb : (!truthyStr dto.birthDate) = true
      · rw [if_pos hb]
      · rw [if_neg hb]
        rfl
    rw [exc_bind_ok_left h3]
    have h4 : validateChildren [] dto.childrenIds (some dto.gender)
        dto.birthDate dto.deathDate = .ok [] := by
      unfold validateChildren
      cases hcid : dto.childrenIds with
      | none => rfl
      | some l =>
        dsimp only
        have hlen : l.length = 0 := by
          simp [dtoHasChildren, hcid] at hc
          simp [hc]
        rw [if_pos (by simp [hlen])]
    rw [exc_bind_ok_left h4]
    rfl

/-- Claim C9, witness: the fully disconnected payload is rejected over
a one-row store and committed as progenitor over the empty store. -/
theorem C9_witness :
    create witStoreC9 witDtoC9 = .error .disconnectedPerson ∧
    ∃ s' p, create ([] : Store) witDtoC9 = .ok (s', p) ∧
      p.progenitor = true := by
  constructor
  · exact (@C9_connectivity_guard witStoreC9 witDtoC9 (by decide)
      (by decide)).1.mpr ⟨rfl, rfl, rfl, rfl, by decide⟩
  · obtain ⟨h1, h2⟩ := (@C9_connectivity_guard ([] : Store) witDtoC9
      (by decide) (by decide)).2 rfl rfl rfl rfl rfl
    exact ⟨_, _, h1, h2⟩

/-- Claim C10 (clearing a parent link bypasses all validation): for an
existing person `P`, the payload `{fatherId: null}` leaves every
validation stage trivially passing — the parent-role, temporal,
self-parent and cycle stages all return `ok` — and commits exactly the
store in which `P`'s `fatherId` is `none` and everything else is
unchanged; symmetrically for `{motherId: null}`. -/
theorem C10_clear_parent_bypass {s : Store} {P : Person}
    (hP : findOneBy s P.id = some P) :
    (updParentsStage s clearFatherDto = .ok () ∧
     updDatesStage s P clearFatherDto = .ok () ∧
     updSelfStage P.id clearFatherDto = .ok () ∧
     updCycleStage s P.id clearFatherDto.fatherId = .ok () ∧
     updatePerson s P.id clearFatherDto =
       .ok (s.map (fun q =>
              if q.id == P.id then { P with fatherId := none } else q),
            { P with fatherId := none }) ∧
     ∀ q ∈ s, q.id ≠ P.id →
       q ∈ s.map (fun q' =>
         if q'.id == P.id then { P with fatherId := none } else q')) ∧
    (updParentsStage s clearMotherDto = .ok () ∧
     updDatesStage s P clearMotherDto = .ok () ∧
     updSelfStage P.id clearMotherDto = .ok () ∧
     updCycleStage s P.id clearMotherDto.motherId = .ok () ∧
     updatePerson s P.id clearMotherDto =
       .ok (s.map (fun q =>
              if q.id == P.id then { P with motherId := none } else q),
            { P with motherId := none }) ∧
     ∀ q ∈ s, q.id ≠ P.id →
       q ∈ s.map (fun q' =>
         if q'.id == P.id then { P with motherId := none } else q')) := by
  constructor
  · refine ⟨rfl, rfl, rfl, rfl, ?_, ?_⟩
    · unfold updatePerson
      rw [hP]
      rfl
    · intro q hq hne
      refine List.mem_map.mpr ⟨q, hq, ?_⟩
      rw [if_neg (by simp [hne])]
  · refine ⟨rfl, rfl, rfl, rfl, ?_, ?_⟩
    · unfold updatePerson
      rw [hP]
      rfl
    · intro q hq hne
      refine List.mem_map.mpr ⟨q, hq, ?_⟩
      rw [if_neg (by simp [hne])]

/-- Claim C10, witness: clearing the father link of a row that sits on
a parent cycle (1 ↔ 2) and has a dangling mother reference still
succeeds and rewrites only that row. -/
theorem C10_witness :
    updatePerson witStoreC10 witKidC10.id clearFatherDto =
      .ok (witStoreC10.map (fun q =>
             if q.id == witKidC10.id then { witKidC10 with fatherId := none }
             else q),
           { witKidC10 with fatherId := none }) :=
  (@C10_clear_parent_bypass witStoreC10 witKidC10 rfl).1.2.2.2.2.1

end FamilyTree
